import Mathlib

/-! Verification development for `dce`.

A shallow embedding of the budget-enforcement lambda
(`cmd/lambda/end_over_budget_lease/main.go`), of the credential-vending
lambda (`cmd/lambda/lease_auth/auth.go`), of the event publisher
(`pkg/event/service.go`) and of the pool-metrics lambda
(`cmd/lambda/account_pool_metrics/main.go`), followed by theorems about
them.

Conventions of the embedding:

* a Go pointer field (`*string`, `*float64`) is an `Option`; dereferencing
  `none` is a run-time panic, made explicit by `Outcome.panicked`;
* a Go `error` result is an `Option Error` (`none` is `nil`);
* the services the lambdas talk to are records of state-passing functions
  over an abstract service state `σ`; every call site also appends the call
  to a chronological log (`World.calls`), so that "which calls were made,
  with which arguments, in which order" is a statement about that log;
* `log.Printf` has no effect on the result and is modelled only through the
  pointer dereferences of its arguments.
-/

namespace Dce

/-! ## Values shared by the lambdas -/

/-- A Go `float64`, as far as comparison is concerned: a finite value (every
finite double is a rational number), one of the two infinities, or NaN. -/
inductive Float64 where
  | NaN
  | NegInf
  | Finite (q : ℚ)
  | PosInf

/-- The Go operator `>=` on `float64` (IEEE 754: false when an operand is NaN). -/
def Float64.ge : Float64 → Float64 → Bool
  | .NaN, _ => false
  | _, .NaN => false
  | .PosInf, _ => true
  | _, .NegInf => true
  | .NegInf, _ => false
  | .Finite _, .PosInf => false
  | .Finite a, .Finite b => decide (b ≤ a)

/-- The Go operator `<` on `float64` (IEEE 754: false when an operand is NaN). -/
def Float64.lt : Float64 → Float64 → Bool
  | .NaN, _ => false
  | _, .NaN => false
  | _, .NegInf => false
  | .PosInf, _ => false
  | .NegInf, _ => true
  | .Finite _, .PosInf => true
  | .Finite a, .Finite b => decide (a < b)

/-- Modelled from the spec: the errors package (`pkg/errors`) is not part of
the sources at hand.  The spec's taxonomy (section 7) names `NotFound`,
`Unauthorized`, `InternalServer` (wrapping a cause) and the `MultiError`
aggregate (wrapping a list of errors); `foreign` stands for every other
error value a collaborator may return, with its HTTP status code when it is
a status error of another kind. -/
inductive Error where
  | NotFound (group name : String)
  | Unauthorized (message : String)
  | InternalServer (message : String) (cause : Error)
  | MultiError (message : String) (errors : List Error)
  | foreign (httpCode : Option Nat) (text : String)

namespace Error

/-- Modelled from the spec: section 6 maps `NotFound`, `Unauthorized` and
`ServerError` to HTTP 404, 401 and 500; `HTTPCode` of the missing errors
package. -/
def HTTPCode : Error → Option Nat
  | .NotFound _ _ => some 404
  | .Unauthorized _ => some 401
  | .InternalServer _ _ => some 500
  | .MultiError _ _ => some 500
  | .foreign c _ => c

/-- Modelled from the spec: `se.IsStatusError(err)` of the missing errors
package, true when `err` is a status error of the same kind (same HTTP
status) as `se`. -/
def IsStatusError (se err : Error) : Bool :=
  match se.HTTPCode, err.HTTPCode with
  | some a, some b => a == b
  | _, _ => false

end Error

/-- The constructor `errors.NewNotFound(group, name)`. -/
def NewNotFound (group name : String) : Error := .NotFound group name

/-- The constructor `errors.NewUnauthorized(message)`. -/
def NewUnauthorized (message : String) : Error := .Unauthorized message

/-- The constructor `errors.NewInternalServer(message, cause)`. -/
def NewInternalServer (message : String) (cause : Error) : Error :=
  .InternalServer message cause

/-- The constructor `errors.NewMultiError(message, errs)`. -/
def NewMultiError (message : String) (errs : List Error) : Error :=
  .MultiError message errs

/-- Result of running Go code that may dereference a nil pointer. -/
inductive Outcome (α : Type) where
  | returned (a : α)
  | panicked

namespace lease

/-- Modelled from the spec: `lease.Status` is a Go string type whose
declaration is not part of the sources at hand. -/
abbrev Status := String

/-- Modelled from the spec: the status constant `lease.StatusActive`. -/
def StatusActive : Status := "Active"

/-- Modelled from the spec: the status reasons of section 3
(`Active|Expired|OverBudget|OverPrincipalBudget|Destroyed|Rollback`). -/
inductive StatusReason where
  | Active
  | Expired
  | OverBudget
  | OverPrincipalBudget
  | Destroyed
  | Rollback
  deriving DecidableEq, Repr

/-- The fields of `lease.Lease` that the two lambdas read or write; each is
a pointer in Go. -/
structure Lease where
  ID : Option String := none
  PrincipalID : Option String := none
  AccountID : Option String := none
  Status : Option Status := none
  deriving DecidableEq, Repr

/-- The Go type `lease.Leases`, a slice of leases. -/
abbrev Leases := List Lease

end lease

namespace usage

/-- The fields of `usage.Lease` read by the budget lambda. -/
structure Lease where
  LeaseID : Option String := none
  CostAmount : Option Float64 := none
  BudgetAmount : Option Float64 := none

/-- The fields of `usage.Principal` read by the budget lambda. -/
structure Principal where
  PrincipalID : Option String := none
  CostAmount : Option Float64 := none

end usage

namespace leaseiface

/-- Modelled from the spec: what one `ListPages` call does is not part of
the sources at hand (only the interface is).  Section 4.1: "a visitor
function is invoked once per page and may request early termination".  A
`Paging` value is the finite course of one paginated listing: either the
listing is over and `ListPages` returns `err`, or a page is handed to the
visitor and the listing goes on from the service state the visitor leaves
behind (the visitor may change that state, here by ending leases). -/
inductive Paging (σ : Type) where
  | finish (err : Option Error) (s : σ)
  | page (leases : lease.Leases) (s : σ) (next : σ → Paging σ)

/-- The interface `leaseiface.Servicer` over a service state `σ`; each method
returns its Go results and the new service state.  `Delete` takes the
status reason as second argument, as every call site does. -/
structure Servicer (σ : Type) where
  Get : String → σ → (Option lease.Lease × Option Error) × σ
  Delete : String → lease.StatusReason → σ → (Option lease.Lease × Option Error) × σ
  List : lease.Lease → σ → (Option lease.Leases × Option Error) × σ
  ListPages : lease.Lease → σ → Paging σ

/-- Every lease on every page that a course of paging can deliver satisfies
`p`. -/
def Paging.AllLeases {σ : Type} (p : lease.Lease → Prop) : Paging σ → Prop
  | .finish _ _ => True
  | .page leases _ next => (∀ l ∈ leases, p l) ∧ ∀ s, (next s).AllLeases p

end leaseiface

/-! ## `cmd/lambda/end_over_budget_lease/main.go` -/

namespace EndOverBudgetLease

open lease (StatusReason Leases)

/-- Modelled from the spec: the constant `data.UsagePrincipalSkPrefix`
(section 6: the sort key `Usage-Principal-<principalID>-<period>`). -/
def UsagePrincipalSkPrefix : String := "Usage-Principal-"

/-- Modelled from the spec: the constant `data.UsageLeaseSkSummaryPrefix`
(section 6: the sort key `Usage-Lease-Summary-<leaseID>`). -/
def UsageLeaseSkSummaryPrefix : String := "Usage-Lease-Summary-"

/-- Membership in the regular-expression class `[-\w]`: a dash, an
underscore, an ASCII letter or an ASCII digit. -/
def isDashOrWord (c : Char) : Bool := c == '-' || c == '_' || c.isAlphanum

/-- The pattern `lit[-\w]+` matches at the very start of `s`: `s` starts
with the literal `lit` and at least one class character follows. -/
def matchHere (lit s : List Char) : Bool :=
  lit.isPrefixOf s && ((s.drop lit.length).head?.elim false isDashOrWord)

/-- The call `regexp.MustCompile(lit + "[-\w]+").MatchString(s)` for a
literal `lit` without metacharacters: the pattern is not anchored, so it
matches when it matches at some position of `s`. -/
def MatchString (lit s : String) : Bool :=
  s.data.tails.any (matchHere lit.data)

/-- The struct `lambdaConfig`. -/
structure lambdaConfig where
  PrincipalBudgetAmount : Float64

/-- The settings loaded when `PRINCIPAL_BUDGET_AMOUNT` is unset
(`envDefault:"100"`). -/
def defaultSettings : lambdaConfig := ⟨.Finite 100⟩

/-- What `handleRecord` reads of an `events.DynamoDBEventRecord`: the event
name, the string value of the `SK` attribute of the new image, and what
`UnmarshalStreamImage` makes of the new image for each of the two target
structs (the decoded struct, or the decoding error). -/
structure DynamoDBEventRecord where
  EventName : String
  SK : String
  asLease : Except Error usage.Lease
  asPrincipal : Except Error usage.Principal

/-- The struct `handleRecordInput`. -/
structure handleRecordInput where
  record : DynamoDBEventRecord

/-- An entry of the chronological log of the interaction with the lease
service. -/
inductive Call where
  /-- a `Delete` call, with the error it returned -/
  | Delete (ID : String) (reason : StatusReason) (err : Option Error)
  /-- `ListPages` is entered with this query -/
  | ListPages (query : lease.Lease)
  /-- `ListPages` hands this page to its visitor -/
  | visit (page : Leases)
  /-- `ListPages` returns this error -/
  | ListPagesReturn (err : Option Error)

/-- The lease-service state together with the log of calls made so far. -/
structure World (σ : Type) where
  state : σ
  calls : List Call

variable {σ : Type}

/-- The call `Services.LeaseService().Delete(ID, reason)`, logged. -/
def callDelete (Services : leaseiface.Servicer σ) (ID : String) (reason : StatusReason)
    (w : World σ) : Option Error × World σ :=
  let r := Services.Delete ID reason w.state
  (r.1.2, { state := r.2, calls := w.calls ++ [.Delete ID reason r.1.2] })

/-- The body of the page visitor (lines 149-156): for each lease of the page,
`Delete` it with reason `OverPrincipalBudget` and append a returned error to
`deferredErrors`; then return `true`.  Dereferencing a nil `_lease.ID`
panics. -/
def visitPage (Services : leaseiface.Servicer σ) :
    Leases → World σ → List Error → Outcome Bool × World σ × List Error
  | [], w, deferredErrors => (.returned true, w, deferredErrors)
  | _lease :: rest, w, deferredErrors =>
    match _lease.ID with
    | none => (.panicked, w, deferredErrors)
    | some ID =>
      match callDelete Services ID .OverPrincipalBudget w with
      | (some err, w') => visitPage Services rest w' (deferredErrors ++ [err])
      | (none, w') => visitPage Services rest w' deferredErrors

/-- Modelled from the spec: the body of `ListPages` is not part of the
sources at hand.  One course of paging driven against a visitor `fn`
(section 4.1): the visitor is invoked once per page, in turn; paging stops
with a nil error when it returns `false`; a panic of the visitor
propagates. -/
def runPages {α : Type} (fn : Leases → World σ → α → Outcome Bool × World σ × α) :
    leaseiface.Paging σ → World σ → α → Outcome (Option Error) × World σ × α
  | .finish err s, w, a => (.returned err, { state := s, calls := w.calls }, a)
  | .page leases s next, w, a =>
    match fn leases { state := s, calls := w.calls ++ [.visit leases] } a with
    | (.panicked, w', a') => (.panicked, w', a')
    | (.returned false, w', a') => (.returned none, w', a')
    | (.returned true, w', a') => runPages fn (next w'.state) w' a'

/-- The call `Services.LeaseService().ListPages(query, fn)`, logged at entry
and at return. -/
def callListPages {α : Type} (Services : leaseiface.Servicer σ) (query : lease.Lease)
    (fn : Leases → World σ → α → Outcome Bool × World σ × α) (w : World σ) (a : α) :
    Outcome (Option Error) × World σ × α :=
  match runPages fn (Services.ListPages query w.state)
      { state := w.state, calls := w.calls ++ [.ListPages query] } a with
  | (.panicked, w', a') => (.panicked, w', a')
  | (.returned err, w', a') =>
    (.returned err, { state := w'.state, calls := w'.calls ++ [.ListPagesReturn err] }, a')

/-- The function `isLeaseOverBudget`; its log line dereferences all three
pointers before the comparison. -/
def isLeaseOverBudget (leaseSummary : usage.Lease) : Outcome Bool :=
  match leaseSummary.LeaseID, leaseSummary.CostAmount, leaseSummary.BudgetAmount with
  | some _, some cost, some budget => .returned (cost.ge budget)
  | _, _, _ => .panicked

/-- The function `isPrincipalOverBudget`; its log line dereferences both
pointers before the comparison. -/
def isPrincipalOverBudget (Settings : lambdaConfig) (principalSummary : usage.Principal) :
    Outcome Bool :=
  match principalSummary.PrincipalID, principalSummary.CostAmount with
  | some _, some cost => .returned (cost.ge Settings.PrincipalBudgetAmount)
  | _, _ => .panicked

/-- The lease-summary case of `handleRecord` (lines 111-128). -/
def handleLeaseUsageRecord (Services : leaseiface.Servicer σ) (record : DynamoDBEventRecord)
    (w : World σ) : Outcome (Option Error) × World σ :=
  match record.asLease with
  | .error err => (.returned (some (NewInternalServer "Failed to unmarshal stream image" err)), w)
  | .ok leaseUsageSummary =>
    match isLeaseOverBudget leaseUsageSummary with
    | .panicked => (.panicked, w)
    | .returned false => (.returned none, w)
    | .returned true =>
      match leaseUsageSummary.LeaseID with
      | none => (.panicked, w)
      | some leaseID =>
        match callDelete Services leaseID .OverBudget w with
        | (some err, w') =>
          (.returned (some (NewInternalServer
            ("Failed to delete lease for leaseID " ++ leaseID) err)), w')
        | (none, w') => (.returned none, w')

/-- The principal-summary case of `handleRecord` (lines 130-164). -/
def handlePrincipalUsageRecord (Services : leaseiface.Servicer σ) (Settings : lambdaConfig)
    (record : DynamoDBEventRecord) (w : World σ) : Outcome (Option Error) × World σ :=
  match record.asPrincipal with
  | .error err => (.returned (some (NewInternalServer "Failed to unmarshal stream image" err)), w)
  | .ok principalSummary =>
    match isPrincipalOverBudget Settings principalSummary with
    | .panicked => (.panicked, w)
    | .returned false => (.returned none, w)
    | .returned true =>
      match principalSummary.PrincipalID with
      | none => (.panicked, w)
      | some principalID =>
        let query : lease.Lease :=
          { PrincipalID := principalSummary.PrincipalID, Status := some lease.StatusActive }
        match callListPages Services query (visitPage Services) w [] with
        | (.panicked, w', _) => (.panicked, w')
        | (.returned (some err), w', _) =>
          (.returned (some (NewInternalServer
            ("Failed to delete one or more leases for principalID " ++ principalID) err)), w')
        | (.returned none, w', deferredErrors) =>
          if deferredErrors.length > 0 then
            (.returned (some (NewMultiError "Failed to delete one or more leases"
              deferredErrors)), w')
          else (.returned none, w')

/-- The function `handleRecord`. -/
def handleRecord (Services : leaseiface.Servicer σ) (Settings : lambdaConfig)
    (input : handleRecordInput) (w : World σ) : Outcome (Option Error) × World σ :=
  let record := input.record
  if record.EventName != "INSERT" && record.EventName != "MODIFY" then
    (.returned none, w)
  else
    let sortKey := record.SK
    let isPrincipalUsageRecord := MatchString UsagePrincipalSkPrefix sortKey
    let isLeaseUsageRecord := MatchString UsageLeaseSkSummaryPrefix sortKey
    if isLeaseUsageRecord then handleLeaseUsageRecord Services record w
    else if isPrincipalUsageRecord then handlePrincipalUsageRecord Services Settings record w
    else (.returned none, w)

/-- The loop of `handler` (lines 65-73): `handleRecord` on each record in
turn, appending every non-nil error to `deferredErrors`. -/
def handlerLoop (Services : leaseiface.Servicer σ) (Settings : lambdaConfig) :
    List DynamoDBEventRecord → World σ → List Error → Outcome (List Error) × World σ
  | [], w, deferredErrors => (.returned deferredErrors, w)
  | record :: rest, w, deferredErrors =>
    match handleRecord Services Settings { record := record } w with
    | (.panicked, w') => (.panicked, w')
    | (.returned (some err), w') => handlerLoop Services Settings rest w' (deferredErrors ++ [err])
    | (.returned none, w') => handlerLoop Services Settings rest w' deferredErrors

/-- The function `handler`, on the records of the `events.DynamoDBEvent`. -/
def handler (Services : leaseiface.Servicer σ) (Settings : lambdaConfig)
    (Records : List DynamoDBEventRecord) (w : World σ) : Outcome (Option Error) × World σ :=
  match handlerLoop Services Settings Records w [] with
  | (.panicked, w') => (.panicked, w')
  | (.returned deferredErrors, w') =>
    if deferredErrors.length > 0 then
      (.returned (some (NewMultiError "Failed to handle DynDB Event" deferredErrors)), w')
    else (.returned none, w')

/-! ### Observations on the log, and sample data -/

/-- Whether a log entry marks the entry into or the return from `ListPages`. -/
def Call.isListPagesMark : Call → Bool
  | .ListPages _ => true
  | .ListPagesReturn _ => true
  | _ => false

/-- The pages handed to the visitor, in order. -/
def visitedPages (log : List Call) : List Leases :=
  log.filterMap fun c => match c with
    | .visit page => some page
    | _ => none

/-- The `Delete` calls attempted, in order: lease ID and reason. -/
def deleteAttempts (log : List Call) : List (String × StatusReason) :=
  log.filterMap fun c => match c with
    | .Delete ID reason _ => some (ID, reason)
    | _ => none

/-- The errors of the `Delete` calls that failed, in order. -/
def failedDeletes (log : List Call) : List Error :=
  log.filterMap fun c => match c with
    | .Delete _ _ (some err) => some err
    | _ => none

/-- The log segment `seg` pairs every lease of every visited page, in order,
with one `Delete` attempt on that lease's ID with reason
`OverPrincipalBudget`. -/
def OneDeletePerLease (seg : List Call) : Prop :=
  (deleteAttempts seg).map (fun a => (some a.1, a.2))
    = (visitedPages seg).flatten.map (fun l => (l.ID, StatusReason.OverPrincipalBudget))

/-- The per-record run the batch handler is compared with: `handleRecord` on
every record in turn, each from the world its predecessor left, with the
list of all results in record order. -/
def perRecord (Services : leaseiface.Servicer σ) (Settings : lambdaConfig) :
    List DynamoDBEventRecord → World σ → List (Outcome (Option Error)) × World σ
  | [], w => ([], w)
  | record :: rest, w =>
    let x := handleRecord Services Settings { record := record } w
    let y := perRecord Services Settings rest x.2
    (x.1 :: y.1, y.2)

/-- The non-nil errors among per-record results, in order. -/
def recordErrors (results : List (Outcome (Option Error))) : List Error :=
  results.filterMap fun r => match r with
    | .returned (some err) => some err
    | _ => none

/-- A sample lease service over a call counter: `Delete` fails on the lease
ID `bad` and succeeds otherwise; the listing has two pages. -/
def sampleService : leaseiface.Servicer Nat where
  Get := fun _ s => ((none, some (.NotFound "lease" "")), s)
  Delete := fun ID _ s =>
    ((none, if ID = "bad" then some (.foreign none "delete failed") else none), s + 1)
  List := fun _ s => ((some [], none), s)
  ListPages := fun _ s =>
    .page [{ ID := some "bad" }, { ID := some "l2" }] s fun s1 =>
      .page [{ ID := some "l3" }] s1 fun s2 => .finish none s2

/-- A sample lease service whose listing fails after a first page, on which
the one `Delete` fails too. -/
def brokenListing : leaseiface.Servicer Nat where
  Get := fun _ s => ((none, some (.NotFound "lease" "")), s)
  Delete := fun _ _ s => ((none, some (.foreign none "delete failed")), s + 1)
  List := fun _ s => ((some [], none), s)
  ListPages := fun _ s =>
    .page [{ ID := some "l1" }] s fun s1 => .finish (some (.foreign none "listing failed")) s1

/-- A lease-summary record whose cost equals its budget. -/
def leaseAtBudget : DynamoDBEventRecord where
  EventName := "INSERT"
  SK := "Usage-Lease-Summary-l1"
  asLease := .ok
    { LeaseID := some "l1", CostAmount := some (.Finite 300), BudgetAmount := some (.Finite 300) }
  asPrincipal := .ok {}

/-- A lease-summary record on the lease `bad`, over budget. -/
def leaseBadOverBudget : DynamoDBEventRecord where
  EventName := "MODIFY"
  SK := "Usage-Lease-Summary-bad"
  asLease := .ok
    { LeaseID := some "bad", CostAmount := some (.Finite 12), BudgetAmount := some (.Finite 10) }
  asPrincipal := .ok {}

/-- A principal-summary record whose cost equals the default ceiling. -/
def principalAtCeiling : DynamoDBEventRecord where
  EventName := "MODIFY"
  SK := "Usage-Principal-user1-1577836800"
  asLease := .ok {}
  asPrincipal := .ok { PrincipalID := some "user1", CostAmount := some (.Finite 100) }

/-- A lease-summary image at its budget, under a sort key that holds the
lease-summary pattern without beginning with it. -/
def leaseKeyInside : DynamoDBEventRecord where
  EventName := "INSERT"
  SK := "Archive-Usage-Lease-Summary-l1"
  asLease := .ok
    { LeaseID := some "l1", CostAmount := some (.Finite 300), BudgetAmount := some (.Finite 300) }
  asPrincipal := .ok {}

/-- A REMOVE record of a lease summary over its budget. -/
def leaseRemoved : DynamoDBEventRecord where
  EventName := "REMOVE"
  SK := "Usage-Lease-Summary-l1"
  asLease := .ok
    { LeaseID := some "l1", CostAmount := some (.Finite 500), BudgetAmount := some (.Finite 300) }
  asPrincipal := .ok {}

/-! ### The listing in terms of the lease service, and more sample data -/

/-- Reference for comparison, in the words of section 4.1 ("end each with
reason `OverPrincipalBudget`"): one `Delete` call of the lease service per
lease ID, in order, each from the state that the call before it left,
whatever error a call returns.  The result is the log entries of the calls and
the state after the last one. -/
def endEach (Services : leaseiface.Servicer σ) : List String → σ → List Call × σ
  | [], s => ([], s)
  | ID :: rest, s =>
    let r := Services.Delete ID .OverPrincipalBudget s
    let y := endEach Services rest r.2
    (Call.Delete ID .OverPrincipalBudget r.1.2 :: y.1, y.2)

/-- Reference for comparison, in the words of section 4.1 ("list all `Active`
leases for that principal and end each"): every page of a course of paging is
visited in turn and each of its leases is ended, the listing going on from
the state that ending the leases of the page left.  The result is the log
entries, the error with which the listing ends, and the final state. -/
def endEveryPage (Services : leaseiface.Servicer σ) :
    leaseiface.Paging σ → List Call × Option Error × σ
  | .finish err s => ([], err, s)
  | .page leases s next =>
    let d := endEach Services (leases.filterMap fun l => l.ID) s
    let y := endEveryPage Services (next d.2)
    (Call.visit leases :: (d.1 ++ y.1), y.2.1, y.2.2)

/-- The error that `handleRecord` returns for an over-ceiling principal, from
the error of `ListPages` and the errors of the failed `Delete` calls (lines
158-164). -/
def principalResult (principalID : String) (err : Option Error) (failed : List Error) :
    Option Error :=
  match err with
  | some e => some (NewInternalServer
      ("Failed to delete one or more leases for principalID " ++ principalID) e)
  | none =>
    if failed.length > 0 then some (NewMultiError "Failed to delete one or more leases" failed)
    else none

/-- A sample lease service over a call counter whose listing adds 10 to the
counter and whose `Delete` adds 1: the listing has the one page of the leases
`l1` and `l2`, and `Delete` fails on `l1`. -/
def countingService : leaseiface.Servicer Nat where
  Get := fun _ s => ((none, some (.NotFound "lease" "")), s)
  Delete := fun ID _ s =>
    ((none, if ID = "l1" then some (.foreign none "delete failed") else none), s + 1)
  List := fun _ s => ((some [], none), s)
  ListPages := fun _ s =>
    .page [{ ID := some "l1" }, { ID := some "l2" }] (s + 10) fun s1 => .finish none s1

/-- A lease-summary record over its budget whose image has no cost amount. -/
def leaseWithoutCost : DynamoDBEventRecord where
  EventName := "INSERT"
  SK := "Usage-Lease-Summary-l0"
  asLease := .ok { LeaseID := some "l0", BudgetAmount := some (.Finite 10) }
  asPrincipal := .ok {}

end EndOverBudgetLease

/-! ## `cmd/lambda/lease_auth/auth.go` -/

namespace LeaseAuth

/-- The fields of `api.User` read by `leaseAuth`. -/
structure User where
  Username : String
  Role : String
  deriving DecidableEq, Repr

/-- The field of `account.Account` read by `leaseAuth`; the ARN is a pointer
in Go and is only passed on or printed, never dereferenced. -/
structure Account where
  PrincipalRoleArn : Option String := none
  deriving DecidableEq, Repr

/-- The struct `credentials.Value`, as far as `leaseAuth` reads it. -/
structure Value where
  AccessKeyID : String
  SecretAccessKey : String
  SessionToken : String
  deriving DecidableEq, Repr

/-- A `time.Time`, as far as `leaseAuth` reads it: its `Unix()` seconds. -/
structure Time where
  Unix : Int
  deriving DecidableEq, Repr

/-- A `time.Duration`, in nanoseconds. -/
abbrev Duration := Int

/-- The constant `time.Hour`. -/
def Hour : Duration := 3600 * 1000000000

/-- The struct `response.LeaseAuthResponse`. -/
structure LeaseAuthResponse where
  AccessKeyID : String
  SecretAccessKey : String
  SessionToken : String
  ConsoleURL : String
  ExpiresOn : Int
  deriving DecidableEq, Repr

/-- The interface `accountmanageriface.Credentialer` over the service state:
the two methods `leaseAuth` calls. -/
structure Credentialer (σ : Type) where
  Get : σ → (Value × Option Error) × σ
  ExpiresAt : σ → (Time × Option Error) × σ

/-- The interface `accountiface.Servicer`: the method `leaseAuth` calls. -/
structure AccountServicer (σ : Type) where
  Get : String → σ → (Option Account × Option Error) × σ

/-- The interface `accountmanageriface.Servicer`: the two methods `leaseAuth`
calls.  `Credentials` returns an interface value, which may be nil. -/
structure AccountManager (σ : Type) where
  Credentials : Option String → String → Duration → σ → Option (Credentialer σ) × σ
  ConsoleURL : Credentialer σ → σ → (String × Option Error) × σ

/-- The interface `api.UserDetailer` over a request context of type `ρ`. -/
structure UserDetailer (σ ρ : Type) where
  GetUser : ρ → σ → User × σ

/-- The struct `leaseAuthInput`. -/
structure leaseAuthInput (σ ρ : Type) where
  leaseID : Option String
  requestContext : ρ
  leaseService : leaseiface.Servicer σ
  accountService : AccountServicer σ
  userDetailer : UserDetailer σ ρ
  accountManager : AccountManager σ
  principalSessionDuration : Duration

/-- An entry of the chronological log of the calls `leaseAuth` makes. -/
inductive Call (σ : Type) where
  | GetUser
  | LeaseGet (ID : String)
  | LeaseList (query : lease.Lease)
  | AccountGet (ID : String)
  | Credentials (role : Option String) (roleSessionName : String) (duration : Duration)
  | CredsGet (creds : Credentialer σ)
  | ConsoleURL (creds : Credentialer σ)
  | CredsExpiresAt (creds : Credentialer σ)

/-- Whether a log entry is a call to the lease service. -/
def Call.isLeaseCall {σ : Type} : Call σ → Bool
  | .LeaseGet _ => true
  | .LeaseList _ => true
  | _ => false

/-- Whether a log entry is a credential-related call: the account lookup,
the role assumption, or a use of the assumed credentials. -/
def Call.isCredentialCall {σ : Type} : Call σ → Bool
  | .AccountGet _ => true
  | .Credentials _ _ _ => true
  | .CredsGet _ => true
  | .ConsoleURL _ => true
  | .CredsExpiresAt _ => true
  | _ => false

/-- The service state together with the log of calls made so far. -/
structure World (σ : Type) where
  state : σ
  calls : List (Call σ)

variable {σ ρ : Type}

/-- Lines 79-100 of `leaseAuth`: the lease pointer and the error with which
resolution ends.  A non-nil error is returned to the caller at once; a nil
`leaseList` is dereferenced on line 96. -/
def resolveLease (input : leaseAuthInput σ ρ) (user : User) (w : World σ) :
    Outcome (Option lease.Lease × Option Error) × World σ :=
  match input.leaseID with
  | some leaseID =>
    let r := input.leaseService.Get leaseID w.state
    let w' : World σ := { state := r.2, calls := w.calls ++ [.LeaseGet leaseID] }
    match r.1.2 with
    | some err => (.returned (none, some err), w')
    | none => (.returned (r.1.1, none), w')
  | none =>
    if user.Username != "" then
      let query : lease.Lease :=
        { PrincipalID := some user.Username, Status := some lease.StatusActive }
      let r := input.leaseService.List query w.state
      let w' : World σ := { state := r.2, calls := w.calls ++ [.LeaseList query] }
      match r.1.2 with
      | some err => (.returned (none, some err), w')
      | none =>
        match r.1.1 with
        | none => (.panicked, w')
        | some leaseListSlice => (.returned (leaseListSlice.head?, none), w')
    else (.returned (none, none), w)

/-- Lines 105-117 of `leaseAuth`: the status check and the login check on a
resolved lease; `none` means that both passed.  `||` short-cuts, so the
principal ID is dereferenced only for a caller who is not an administrator,
and the lease ID only to build the error message. -/
def checkLease (AdminGroupName : String) (user : User) (lease : lease.Lease) :
    Outcome (Option Error) :=
  match lease.Status with
  | none => .panicked
  | some status =>
    if status != Dce.lease.StatusActive then
      .returned (some (NewUnauthorized "Unable to authorize against non-active lease"))
    else if user.Role == AdminGroupName then .returned none
    else
      match lease.PrincipalID with
      | none => .panicked
      | some principalID =>
        if user.Username == principalID then .returned none
        else
          match lease.ID with
          | none => .panicked
          | some ID =>
            .returned (some (NewUnauthorized
              ("User " ++ user.Username ++ " does not have access to lease " ++ ID)))

/-- How `fmt` prints the `*arn.ARN` in an error message. -/
def arnText (role : Option String) : String := role.getD "<nil>"

/-- Lines 134-184 of `leaseAuth`: assume the principal role of the account
under the session name `roleSessionName` and build the response. -/
def assumeRole (input : leaseAuthInput σ ρ) (lease : lease.Lease) (acct : Account)
    (roleSessionName : String) (w : World σ) :
    Outcome (Option LeaseAuthResponse × Option Error) × World σ :=
  let c := input.accountManager.Credentials acct.PrincipalRoleArn roleSessionName
    input.principalSessionDuration w.state
  let w1 : World σ := { state := c.2, calls := w.calls ++
    [.Credentials acct.PrincipalRoleArn roleSessionName input.principalSessionDuration] }
  match c.1 with
  | none => (.panicked, w1)
  | some creds =>
    let g := creds.Get w1.state
    let w2 : World σ := { state := g.2, calls := w1.calls ++ [.CredsGet creds] }
    match g.1.2 with
    | some err =>
      (.returned (none, some (NewInternalServer
        ("Failed to assume role " ++ arnText acct.PrincipalRoleArn) err)), w2)
    | none =>
      let credsValue := g.1.1
      let u := input.accountManager.ConsoleURL creds w2.state
      let w3 : World σ := { state := u.2, calls := w2.calls ++ [.ConsoleURL creds] }
      match u.1.2 with
      | some err =>
        (.returned (none, some (NewInternalServer
          ("Failed to generate console URL for " ++ arnText acct.PrincipalRoleArn) err)), w3)
      | none =>
        let consoleURL := u.1.1
        match lease.PrincipalID with
        | none => (.panicked, w3)
        | some _ =>
          let x := creds.ExpiresAt w3.state
          let w4 : World σ := { state := x.2, calls := w3.calls ++ [.CredsExpiresAt creds] }
          match x.1.2 with
          | some err =>
            (.returned (none, some (NewInternalServer "Internal server error" err)), w4)
          | none =>
            (.returned (some
              { AccessKeyID := credsValue.AccessKeyID
                SecretAccessKey := credsValue.SecretAccessKey
                SessionToken := credsValue.SessionToken
                ConsoleURL := consoleURL
                ExpiresOn := x.1.1.Unix }, none), w4)

/-- Lines 129-133 of `leaseAuth`: the session name is the caller's username,
or the dereferenced principal ID of the lease when the username is empty. -/
def roleSessionName (user : User) (lease : lease.Lease) : Option String :=
  if user.Username == "" then lease.PrincipalID else some user.Username

/-- Lines 129-184 of `leaseAuth`: choose the session name, then assume the
principal role of the account and build the response. -/
def vendCredentials (input : leaseAuthInput σ ρ) (user : User) (lease : lease.Lease)
    (acct : Account) (w : World σ) :
    Outcome (Option LeaseAuthResponse × Option Error) × World σ :=
  match roleSessionName user lease with
  | none => (.panicked, w)
  | some name => assumeRole input lease acct name w

/-- Lines 119-184 of `leaseAuth`: look the account of the lease up, then
vend the credentials. -/
def lookupAccount (input : leaseAuthInput σ ρ) (user : User) (lease : lease.Lease)
    (w : World σ) : Outcome (Option LeaseAuthResponse × Option Error) × World σ :=
  match lease.AccountID with
  | none => (.panicked, w)
  | some accountID =>
    let r := input.accountService.Get accountID w.state
    let w' : World σ := { state := r.2, calls := w.calls ++ [.AccountGet accountID] }
    match r.1.2 with
    | some err =>
      if (NewNotFound "account" accountID).IsStatusError err then
        (.returned (none, some (NewInternalServer
          "Account record is missing for the requested lease" err)), w')
      else (.returned (none, some err), w')
    | none =>
      match r.1.1 with
      | none => (.panicked, w')
      | some acct => vendCredentials input user lease acct w'

/-- The call `input.userDetailer.GetUser(input.requestContext)`, logged. -/
def callGetUser (input : leaseAuthInput σ ρ) (w : World σ) : User × World σ :=
  let r := input.userDetailer.GetUser input.requestContext w.state
  (r.1, { state := r.2, calls := w.calls ++ [.GetUser] })

/-- Lines 101-184 of `leaseAuth`: what it does with the lease pointer that
resolution left. -/
def withLease (AdminGroupName : String) (input : leaseAuthInput σ ρ) (user : User)
    (lease : Option lease.Lease) (w : World σ) :
    Outcome (Option LeaseAuthResponse × Option Error) × World σ :=
  match lease with
  | none => (.returned (none, some (NewNotFound "lease for user" user.Username)), w)
  | some lease =>
    match checkLease AdminGroupName user lease with
    | .panicked => (.panicked, w)
    | .returned (some err) => (.returned (none, some err), w)
    | .returned none => lookupAccount input user lease w

/-- The function `leaseAuth`; `AdminGroupName` is the constant
`api.AdminGroupName`, whose declaration is not part of the sources at hand. -/
def leaseAuth (AdminGroupName : String) (input : leaseAuthInput σ ρ) (w : World σ) :
    Outcome (Option LeaseAuthResponse × Option Error) × World σ :=
  let u := callGetUser input w
  let user := u.1
  match resolveLease input user u.2 with
  | (.panicked, w1) => (.panicked, w1)
  | (.returned (_, some err), w1) => (.returned (none, some err), w1)
  | (.returned (lease, none), w1) => withLease AdminGroupName input user lease w1

/-! ### Sample data -/

/-- Sample credentials: key, secret and token, expiring at second 1600000000. -/
def sampleCreds : Credentialer Nat where
  Get := fun s => ((⟨"AKIA", "secret", "token"⟩, none), s + 1)
  ExpiresAt := fun s => ((⟨1600000000⟩, none), s + 1)

/-- Sample lease: `l1`, the active lease of `user1` on account `a1`. -/
def leaseL1 : lease.Lease :=
  ⟨some "l1", some "user1", some "a1", some "Active"⟩

/-- Sample lease: `l9`, the active lease of `user9` on the missing account
`gone`. -/
def leaseL9 : lease.Lease :=
  ⟨some "l9", some "user9", some "gone", some "Active"⟩

/-- Sample lease: `old`, an inactive lease of `user1`. -/
def leaseOld : lease.Lease :=
  ⟨some "old", some "user1", some "a1", some "Inactive"⟩

/-- Sample lease service: `Get` knows the three sample leases, `List` finds
the active lease of `user1` and nothing for anyone else. -/
def sampleLeases : leaseiface.Servicer Nat where
  Get := fun ID s =>
    if ID = "l1" then ((some leaseL1, none), s + 1)
    else if ID = "l9" then ((some leaseL9, none), s + 1)
    else if ID = "old" then ((some leaseOld, none), s + 1)
    else ((none, some (.NotFound "lease" ID)), s + 1)
  Delete := fun _ _ s => ((none, none), s + 1)
  List := fun query s =>
    if query.PrincipalID = some "user1" then ((some [leaseL1], none), s + 1)
    else ((some [], none), s + 1)
  ListPages := fun _ s => .finish none s

/-- Sample account service: only the account `a1` exists. -/
def sampleAccounts : AccountServicer Nat where
  Get := fun ID s =>
    if ID = "a1" then ((some ⟨some "arn:aws:iam::a1:role/principal"⟩, none), s + 1)
    else ((none, some (.NotFound "account" ID)), s + 1)

/-- Sample account manager. -/
def sampleManager : AccountManager Nat where
  Credentials := fun _ _ _ s => (some sampleCreds, s + 1)
  ConsoleURL := fun _ s => (("https://console.example/login", none), s + 1)

/-- A sample input of `leaseAuth` for a given lease ID and caller. -/
def sampleInput (leaseID : Option String) (user : User) : leaseAuthInput Nat Unit where
  leaseID := leaseID
  requestContext := ()
  leaseService := sampleLeases
  accountService := sampleAccounts
  userDetailer := ⟨fun _ s => (user, s + 1)⟩
  accountManager := sampleManager
  principalSessionDuration := Hour

/-! ### `LeaseAuthHandler`, and more sample data -/

/-- The global `Services`, as far as `LeaseAuthHandler` reads it: the four
services that its accessor methods hand out. -/
structure ServiceBuilder (σ ρ : Type) where
  LeaseService : leaseiface.Servicer σ
  AccountService : AccountServicer σ
  UserDetailer : UserDetailer σ ρ
  AccountManager : AccountManager σ

/-- What `LeaseAuthHandler` reads of the `*http.Request`: the outcome of
`muxLambda.GetAPIGatewayContext(r)` and the map `mux.Vars(r)`, which may be
nil. -/
structure Request (ρ : Type) where
  context : Except Error ρ
  muxVars : Option (List (String × String))

/-- What `LeaseAuthHandler` writes to the `http.ResponseWriter`: either
`api.WriteAPIErrorResponse(w, err)` or `api.WriteAPIResponse(w, status, res)`. -/
inductive Written where
  | APIErrorResponse (err : Error)
  | APIResponse (status : Nat) (res : Option LeaseAuthResponse)

/-- Lines 35-42 of `LeaseAuthHandler`: the optional lease ID of the route. -/
def routeLeaseID (muxVars : Option (List (String × String))) : Option String :=
  match muxVars with
  | none => none
  | some vars => vars.lookup "leaseID"

/-- The function `LeaseAuthHandler`: the input it builds for `leaseAuth`
holds the services of `Services` and the session duration `time.Hour`. -/
def LeaseAuthHandler (AdminGroupName : String) (Services : ServiceBuilder σ ρ)
    (r : Request ρ) (w : World σ) : Outcome Written × World σ :=
  match r.context with
  | .error err =>
    (.returned (.APIErrorResponse (NewInternalServer "Internal server error" err)), w)
  | .ok reqCtx =>
    match leaseAuth AdminGroupName
      ⟨routeLeaseID r.muxVars, reqCtx, Services.LeaseService, Services.AccountService,
        Services.UserDetailer, Services.AccountManager, Hour⟩ w with
    | (.panicked, w') => (.panicked, w')
    | (.returned (_, some err), w') => (.returned (.APIErrorResponse err), w')
    | (.returned (res, none), w') => (.returned (.APIResponse 201 res), w')

/-- The log entries that a run added to a log of length `n`. -/
def newCalls (n : Nat) (w : World σ) : List (Call σ) := w.calls.drop n

/-- Sample account service: every lookup is refused with an `Unauthorized`
error. -/
def deniedAccounts : AccountServicer Nat where
  Get := fun _ s => ((none, some (.Unauthorized "account access denied")), s + 1)

/-- The sample input of `leaseAuth` over the refusing account service. -/
def deniedInput (leaseID : Option String) (user : User) : leaseAuthInput Nat Unit :=
  ⟨leaseID, (), sampleLeases, deniedAccounts, ⟨fun _ s => (user, s + 1)⟩, sampleManager, Hour⟩

/-- The sample services behind `LeaseAuthHandler` for a given caller. -/
def sampleServices (user : User) : ServiceBuilder Nat Unit :=
  ⟨sampleLeases, sampleAccounts, ⟨fun _ s => (user, s + 1)⟩, sampleManager⟩

/-- A sample request for the lease `l1`. -/
def sampleRequest : Request Unit := ⟨.ok (), some [("leaseID", "l1")]⟩

end LeaseAuth

namespace account

/-- Modelled from the spec: `account.Status` is a Go string type whose
declaration is not part of the sources at hand. -/
abbrev Status := String

/-- Modelled from the spec: the status constant `account.StatusNone`. -/
def StatusNone : Status := "None"

/-- Modelled from the spec: the status constant `account.StatusReady`. -/
def StatusReady : Status := "Ready"

/-- Modelled from the spec: the status constant `account.StatusNotReady`. -/
def StatusNotReady : Status := "NotReady"

/-- Modelled from the spec: the status constant `account.StatusLeased`. -/
def StatusLeased : Status := "Leased"

/-- Modelled from the spec: the status constant `account.StatusOrphaned`. -/
def StatusOrphaned : Status := "Orphaned"

/-- The five statuses of section 3. -/
def allStatuses : List Status :=
  [StatusNone, StatusReady, StatusNotReady, StatusLeased, StatusOrphaned]

/-- A Go pointer `*account.Status`: the address, which is what `==` and `!=`
compare, and the status it points to. -/
structure StatusPtr where
  addr : Nat
  val : Status
  deriving DecidableEq, Repr

/-- The field of `account.Account` that the pool-metrics lambda reads; it is
a pointer in Go. -/
structure Account where
  Status : Option StatusPtr := none
  deriving DecidableEq, Repr

end account

/-! ## `pkg/event/service.go` -/

namespace event

/-- The struct `AccountUpdateEvent`. -/
structure AccountUpdateEvent where
  OldAccount : Option account.Account
  NewAccount : Option account.Account
  deriving DecidableEq, Repr

/-- A value handed to `publish` as `interface{}`: an account pointer, an
`AccountUpdateEvent`, or a value of some other type `ι`. -/
inductive Payload (ι : Type) where
  | account (data : Option account.Account)
  | accountUpdate (evt : AccountUpdateEvent)
  | value (i : ι)

/-- The interface `Publisher`, over a transport state `σ`. -/
structure Publisher (σ ι : Type) where
  Publish : Payload ι → σ → Option Error × σ

/-- The struct `NewServiceInput`, over the types of the two clients. -/
structure NewServiceInput (sns sqs : Type) where
  SnsClient : sns
  SqsClient : sqs
  AccountCreatedTopicArn : String
  AccountUpdatedTopicArn : String
  AccountDeletedTopicArn : String
  AccountResetQueueURL : String
  LeaseAddedTopicArn : String

/-- The struct `Service`. -/
structure Service (σ ι : Type) where
  accountCreate : List (Publisher σ ι) := []
  accountDelete : List (Publisher σ ι) := []
  accountUpdate : List (Publisher σ ι) := []
  accountReset : List (Publisher σ ι) := []
  leaseCreate : List (Publisher σ ι) := []
  leaseEnd : List (Publisher σ ι) := []
  leaseUpdate : List (Publisher σ ι) := []

/-- An entry of the chronological log of sink invocations: the position of
the sink in the list handed to `publish`, the payload it got, and the error
it returned. -/
structure Published (ι : Type) where
  sink : Nat
  payload : Payload ι
  err : Option Error

/-- The transport state together with the log of sink invocations. -/
structure World (σ ι : Type) where
  state : σ
  published : List (Published ι)

variable {σ ι : Type}

/-- The loop of `publish` (lines 42-47) from the sink at position `k` on. -/
def publishFrom (k : Nat) (i : Payload ι) :
    List (Publisher σ ι) → World σ ι → Option Error × World σ ι
  | [], w => (none, w)
  | n :: rest, w =>
    let r := n.Publish i w.state
    let w' : World σ ι := { state := r.2, published := w.published ++ [⟨k, i, r.1⟩] }
    match r.1 with
    | some err => (some err, w')
    | none => publishFrom (k + 1) i rest w'

/-- The method `Service.publish`. -/
def Service.publish (_e : Service σ ι) (i : Payload ι) (p : List (Publisher σ ι))
    (w : World σ ι) : Option Error × World σ ι :=
  publishFrom 0 i p w

/-- The method `Service.AccountCreate`. -/
def Service.AccountCreate (e : Service σ ι) (data : Option account.Account)
    (w : World σ ι) : Option Error × World σ ι :=
  e.publish (.account data) e.accountCreate w

/-- The method `Service.AccountDelete`. -/
def Service.AccountDelete (e : Service σ ι) (data : Option account.Account)
    (w : World σ ι) : Option Error × World σ ι :=
  e.publish (.account data) e.accountDelete w

/-- The method `Service.AccountUpdate`. -/
def Service.AccountUpdate (e : Service σ ι) (oldAccount newAccount : Option account.Account)
    (w : World σ ι) : Option Error × World σ ι :=
  e.publish (.accountUpdate ⟨oldAccount, newAccount⟩) e.accountUpdate w

/-- The method `Service.AccountReset`. -/
def Service.AccountReset (e : Service σ ι) (data : Option account.Account)
    (w : World σ ι) : Option Error × World σ ι :=
  e.publish (.account data) e.accountReset w

/-- The method `Service.LeaseCreate`. -/
def Service.LeaseCreate (e : Service σ ι) (i : ι) (w : World σ ι) :
    Option Error × World σ ι :=
  e.publish (.value i) e.leaseCreate w

/-- The method `Service.LeaseEnd`. -/
def Service.LeaseEnd (e : Service σ ι) (i : ι) (w : World σ ι) :
    Option Error × World σ ι :=
  e.publish (.value i) e.leaseEnd w

/-- The method `Service.LeaseUpdate`. -/
def Service.LeaseUpdate (e : Service σ ι) (i : ι) (w : World σ ι) :
    Option Error × World σ ι :=
  e.publish (.value i) e.leaseUpdate w

/-- The function `NewService`.  The constructors `NewSnsEvent` and
`NewSqsEvent` are declared in files that are not part of the sources at hand
and are parameters: each takes a client and an endpoint and returns a
publisher and an error. -/
def NewService {sns sqs : Type}
    (NewSnsEvent : sns → String → Publisher σ ι × Option Error)
    (NewSqsEvent : sqs → String → Publisher σ ι × Option Error)
    (input : NewServiceInput sns sqs) : Except Error (Service σ ι) :=
  let createAccount := NewSnsEvent input.SnsClient input.AccountCreatedTopicArn
  match createAccount.2 with
  | some err => .error err
  | none =>
    let updateAccount := NewSnsEvent input.SnsClient input.AccountUpdatedTopicArn
    match updateAccount.2 with
    | some err => .error err
    | none =>
      let resetAccount := NewSqsEvent input.SqsClient input.AccountResetQueueURL
      match resetAccount.2 with
      | some err => .error err
      | none =>
        let deleteAccount := NewSnsEvent input.SnsClient input.AccountDeletedTopicArn
        match deleteAccount.2 with
        | some err => .error err
        | none =>
          let createLease := NewSnsEvent input.SnsClient input.LeaseAddedTopicArn
          match createLease.2 with
          | some err => .error err
          | none =>
            .ok
              { accountCreate := [createAccount.1]
                accountReset := [resetAccount.1]
                accountDelete := [deleteAccount.1]
                accountUpdate := [updateAccount.1]
                leaseCreate := [createLease.1]
                leaseEnd := []
                leaseUpdate := [] }

/-! ### Sample data -/

/-- A sample sink over a counter of deliveries: it fails when `fails` is set
and succeeds otherwise. -/
def sampleSink (fails : Bool) : Publisher Nat Unit where
  Publish := fun _ s => (if fails then some (.foreign none "publish failed") else none, s + 1)

/-- A sample constructor of topic sinks that accepts every endpoint, the
empty one included. -/
def sampleNewSnsEvent : Unit → String → Publisher Nat Unit × Option Error :=
  fun _ _ => (sampleSink false, none)

/-- A sample constructor of queue sinks that accepts every endpoint, the
empty one included. -/
def sampleNewSqsEvent : Unit → String → Publisher Nat Unit × Option Error :=
  fun _ _ => (sampleSink false, none)

/-- A sample input of `NewService` with every endpoint left unset. -/
def unsetInput : NewServiceInput Unit Unit :=
  ⟨(), (), "", "", "", "", ""⟩

/-- The service that `NewService` builds from the sample constructors. -/
def unsetService : Service Nat Unit where
  accountCreate := [sampleSink false]
  accountReset := [sampleSink false]
  accountDelete := [sampleSink false]
  accountUpdate := [sampleSink false]
  leaseCreate := [sampleSink false]

/-! ### The fan-out in terms of the sinks -/

/-- The transport state after each sink of a list, in list order, has
published the payload once, each from the state the sink before it left. -/
def stateAfter (i : Payload ι) : List (Publisher σ ι) → σ → σ
  | [], s => s
  | n :: rest, s => stateAfter i rest (n.Publish i s).2

/-- Every sink of a list returns nil when each, in list order, publishes the
payload once from the state the sink before it left. -/
def allPublish (i : Payload ι) : List (Publisher σ ι) → σ → Bool
  | [], _ => true
  | n :: rest, s => (n.Publish i s).1.isNone && allPublish i rest (n.Publish i s).2

/-- The log entries of `count` successful deliveries of a payload to the
sinks at positions `k`, `k + 1`, ... -/
def delivered (k count : Nat) (i : Payload ι) : List (Published ι) :=
  (List.range' k count).map fun j => ⟨j, i, none⟩

/-- A sample sink that adds `step` to the counter of deliveries and fails
when `fails` is set. -/
def steppingSink (step : Nat) (fails : Bool) : Publisher Nat Unit where
  Publish := fun _ s =>
    (if fails then some (.foreign none "publish failed") else none, s + step)

end event

/-! ## `cmd/lambda/account_pool_metrics/main.go` -/

namespace AccountPoolMetrics

open account (Account)

/-- The struct `config`. -/
structure config where
  AccountCreatedTopicArn : String
  AccountUpdatedTopicArn : String
  AccountDeletedTopicArn : String

/-- The string type `AccountStatusCount`. -/
abbrev AccountStatusCount := String

/-- The constant `LeasedAccountsCount`. -/
def LeasedAccountsCount : AccountStatusCount := "LeasedAccountsCount"

/-- The constant `ReadyAccountsCount`. -/
def ReadyAccountsCount : AccountStatusCount := "ReadyAccountsCount"

/-- The constant `NotReadyAccountsCount`. -/
def NotReadyAccountsCount : AccountStatusCount := "NotReadyAccountsCount"

/-- The constant `OrphanedAccountsCount`. -/
def OrphanedAccountsCount : AccountStatusCount := "OrphanedAccountsCount"

/-- The constant `NoneAccountsCount`. -/
def NoneAccountsCount : AccountStatusCount := "NoneAccountsCount"

/-- The constant `TotalAccountsCount`. -/
def TotalAccountsCount : AccountStatusCount := "TotalAccountsCount"

/-- The five per-status counters. -/
def statusCounters : List AccountStatusCount :=
  [NoneAccountsCount, ReadyAccountsCount, NotReadyAccountsCount, LeasedAccountsCount,
    OrphanedAccountsCount]

/-- The map literal of `init` (lines 55-61), read as a lookup: a status that
is not a key of a Go map is looked up as the zero value, the empty string. -/
def statusLookupTable (s : account.Status) : AccountStatusCount :=
  if s = account.StatusNone then NoneAccountsCount
  else if s = account.StatusReady then ReadyAccountsCount
  else if s = account.StatusNotReady then NotReadyAccountsCount
  else if s = account.StatusLeased then LeasedAccountsCount
  else if s = account.StatusOrphaned then OrphanedAccountsCount
  else ""

/-- The package-level variables `Config` and `statusLookup`, which `Handler`
reads.  `init` (lines 48-62) loads a configuration and builds the table
`statusLookupTable`, but it declares both with `:=`, as variables of its
own, and the file holds no other assignment to the package-level variables
(nor a declaration of `dataSvc`).  What they hold in the program as written
is `packageGlobals`; `Handler` takes them as an argument, so that it can also
be run on what `init` was meant to leave in them. -/
structure Globals where
  Config : config
  statusLookup : account.Status → AccountStatusCount

/-- What `json.Unmarshal` reads of an account in a message: the status, when
the message has one. -/
structure AccountJSON where
  accountStatus : Option account.Status := none
  deriving DecidableEq, Repr

/-- What `json.Unmarshal` reads of an account update in a message: the two
accounts, each possibly `null`. -/
structure AccountUpdateJSON where
  oldAccount : Option AccountJSON := none
  newAccount : Option AccountJSON := none
  deriving DecidableEq, Repr

/-- What `Handler` reads of an `events.SNSEntity`: the topic, the message,
and what `json.Unmarshal` makes of the message for each of the two target
structs (the content read, or the text of the decoding error). -/
structure SNSEntity where
  TopicArn : String
  Message : String
  asAccount : Except String AccountJSON
  asAccountUpdate : Except String AccountUpdateJSON

/-- The struct `events.SNSEventRecord`. -/
structure SNSEventRecord where
  SNS : SNSEntity

/-- The struct `events.SNSEvent`. -/
structure SNSEvent where
  Records : List SNSEventRecord

/-- The account that `json.Unmarshal` builds from what it read: a status in
the message is stored in a newly allocated `Status`, at address `addr`. -/
def allocAccount (addr : Nat) (j : AccountJSON) : Account :=
  { Status := j.accountStatus.map fun s => ⟨addr, s⟩ }

/-- The function `unmarshalAccount`, on the message and on what
`json.Unmarshal` makes of it. -/
def unmarshalAccount (jsonStr : String) (decoded : Except String AccountJSON) :
    Except Error Account :=
  match decoded with
  | .error err =>
    .error (.foreign none ("Failed to unmarshal SNS messsage " ++ jsonStr ++ " " ++ err))
  | .ok j => .ok (allocAccount 0 j)

/-- The function `unmarshalAccountUpdate`, on the message and on what
`json.Unmarshal` makes of it; the two accounts get statuses allocated apart
from each other. -/
def unmarshalAccountUpdate (jsonStr : String) (decoded : Except String AccountUpdateJSON) :
    Except Error event.AccountUpdateEvent :=
  match decoded with
  | .error err =>
    .error (.foreign none ("Failed to unmarshal SNS messsage " ++ jsonStr ++ " " ++ err))
  | .ok j =>
    .ok { OldAccount := j.oldAccount.map (allocAccount 1)
          NewAccount := j.newAccount.map (allocAccount 2) }

/-- Lines 66-93 of `Handler`: the old and the new account of the record, by
the topic it came from; the cases of the `switch` are tried in order. -/
def accountsOf (Config : config) (snsRecord : SNSEntity) :
    Except Error (Option Account × Option Account) :=
  if snsRecord.TopicArn == Config.AccountCreatedTopicArn then
    match unmarshalAccount snsRecord.Message snsRecord.asAccount with
    | .error err => .error err
    | .ok newAccount => .ok (none, some newAccount)
  else if snsRecord.TopicArn == Config.AccountDeletedTopicArn then
    match unmarshalAccount snsRecord.Message snsRecord.asAccount with
    | .error err => .error err
    | .ok oldAccount => .ok (some oldAccount, none)
  else if snsRecord.TopicArn == Config.AccountUpdatedTopicArn then
    match unmarshalAccountUpdate snsRecord.Message snsRecord.asAccountUpdate with
    | .error err => .error err
    | .ok evt => .ok (evt.OldAccount, evt.NewAccount)
  else .error (.foreign none ("Unexpected Topic Arn: " ++ snsRecord.TopicArn))

/-- The map `increments`, of type `map[AccountStatusCount]int64`: its
entries, in the order in which their keys were first assigned. -/
abbrev Increments := List (AccountStatusCount × Int)

/-- The assignment `increments[key] = incr`. -/
def Increments.set (increments : Increments) (key : AccountStatusCount) (incr : Int) :
    Increments :=
  if increments.any (fun e => e.1 == key) then
    increments.map fun e => if e.1 == key then (key, incr) else e
  else increments ++ [(key, incr)]

/-- The dereference `*acct.Status` of an account pointer: `none` when the
account or its status is nil, which panics. -/
def statusOf (acct : Option Account) : Option account.Status :=
  acct.bind fun a => a.Status.map fun p => p.val

/-- Lines 99-104 of `Handler`, the body of `if oldAccount == nil`. -/
def addAccount (statusLookup : account.Status → AccountStatusCount)
    (newAccount : Option Account) (increments : Increments) : Outcome Increments :=
  match statusOf newAccount with
  | none => .panicked
  | some s => .returned ((increments.set TotalAccountsCount 1).set (statusLookup s) 1)

/-- Lines 108-113 of `Handler`, the body of `if newAccount == nil`. -/
def removeAccount (statusLookup : account.Status → AccountStatusCount)
    (oldAccount : Option Account) (increments : Increments) : Outcome Increments :=
  match statusOf oldAccount with
  | none => .panicked
  | some s => .returned ((increments.set TotalAccountsCount (-1)).set (statusLookup s) (-1))

/-- Lines 117-119 of `Handler`: both accounts are there and their `Status`
fields, which are pointers, differ as pointers. -/
def didStatusChange (oldAccount newAccount : Option Account) : Bool :=
  match oldAccount, newAccount with
  | some o, some n => o.Status.map (fun p => p.addr) != n.Status.map (fun p => p.addr)
  | _, _ => false

/-- Lines 121-127 of `Handler`, the body of `if didStatusChange`. -/
def changeStatus (statusLookup : account.Status → AccountStatusCount)
    (oldAccount newAccount : Option Account) (increments : Increments) : Outcome Increments :=
  match statusOf oldAccount with
  | none => .panicked
  | some o =>
    match statusOf newAccount with
    | none => .panicked
    | some n => .returned ((increments.set (statusLookup o) (-1)).set (statusLookup n) 1)

/-- Lines 95-128 of `Handler`: the map `increments`. -/
def computeIncrements (statusLookup : account.Status → AccountStatusCount)
    (oldAccount newAccount : Option Account) : Outcome Increments :=
  match (if oldAccount.isNone then addAccount statusLookup newAccount []
      else .returned []) with
  | .panicked => .panicked
  | .returned added =>
    match (if newAccount.isNone then removeAccount statusLookup oldAccount added
        else .returned added) with
    | .panicked => .panicked
    | .returned removed =>
      if didStatusChange oldAccount newAccount then
        changeStatus statusLookup oldAccount newAccount removed
      else .returned removed

/-- Lines 64-128 of `Handler`: the increments it computes for an event, the
error with which it returns before computing them, or a panic (no record, or
a nil account or status dereferenced). -/
def incrementsOf (g : Globals) (snsEvent : SNSEvent) : Outcome (Except Error Increments) :=
  match snsEvent.Records with
  | [] => .panicked
  | first :: _ =>
    match accountsOf g.Config first.SNS with
    | .error err => .returned (.error err)
    | .ok (oldAccount, newAccount) =>
      match computeIncrements g.statusLookup oldAccount newAccount with
      | .panicked => .panicked
      | .returned increments => .returned (.ok increments)

/-- The data service `dataSvc`, which the file uses and does not declare:
the counter-adjustment operation, over a store state `σ`. -/
structure DataSvc (σ : Type) where
  IncrementAccountsCount : AccountStatusCount → Int → σ → Option Error × σ

/-- An entry of the chronological log of counter adjustments: the counter,
the signed increment, and the error the call returned. -/
structure Adjustment where
  key : AccountStatusCount
  incr : Int
  err : Option Error

/-- The store state together with the log of adjustments made so far. -/
structure World (σ : Type) where
  state : σ
  calls : List Adjustment

variable {σ : Type}

/-- Lines 131-138 of `Handler`: the loop over the entries of `increments`, in
the order in which `range` yields them. -/
def persist (dataSvc : DataSvc σ) :
    List (AccountStatusCount × Int) → World σ → Option Error × World σ
  | [], w => (none, w)
  | (key, incr) :: rest, w =>
    let r := dataSvc.IncrementAccountsCount key incr w.state
    let w' : World σ := { state := r.2, calls := w.calls ++ [⟨key, incr, r.1⟩] }
    match r.1 with
    | some err => (some err, w')
    | none => persist dataSvc rest w'

/-- The function `Handler`.  Go leaves the order in which `range` yields the
entries of a map open; `rangeOrder` is that order. -/
def Handler (g : Globals) (dataSvc : DataSvc σ) (rangeOrder : Increments → Increments)
    (snsEvent : SNSEvent) (w : World σ) : Outcome (Option Error) × World σ :=
  match incrementsOf g snsEvent with
  | .panicked => (.panicked, w)
  | .returned (.error err) => (.returned (some err), w)
  | .returned (.ok increments) =>
    let r := persist dataSvc (rangeOrder increments) w
    (.returned r.1, r.2)

/-! ### The counters, and sample data -/

/-- Modelled from the spec: the pool metric counters of section 3, named
counters that are mutated only by increment and decrement. -/
abbrev Counters := AccountStatusCount → Int

/-- Modelled from the spec: the atomic counter adjustment of section 4.6,
which adds the signed increment to the named counter and does not fail. -/
def counterStore : DataSvc Counters where
  IncrementAccountsCount := fun key incr c =>
    (none, fun k => if k = key then c k + incr else c k)

/-- The counters that are all zero. -/
def zeroCounters : Counters := fun _ => 0

/-- The sum of the five per-status counters. -/
def statusSum (c : Counters) : Int :=
  (statusCounters.map c).sum

/-- The topic of the first record of an event. -/
def topicOf (snsEvent : SNSEvent) : Option String :=
  snsEvent.Records.head?.map fun r => r.SNS.TopicArn

/-- `Handler` on every event of a sequence in turn, each from the world its
predecessor left, with the list of all results. -/
def applyEvents (g : Globals) (dataSvc : DataSvc σ) (rangeOrder : Increments → Increments) :
    List SNSEvent → World σ → List (Outcome (Option Error)) × World σ
  | [], w => ([], w)
  | snsEvent :: rest, w =>
    let x := Handler g dataSvc rangeOrder snsEvent w
    let y := applyEvents g dataSvc rangeOrder rest x.2
    (x.1 :: y.1, y.2)

/-- The update that the first record of an event decodes to, if it decodes
to one, carries both of its accounts. -/
def carriesBothAccounts (snsEvent : SNSEvent) : Bool :=
  match snsEvent.Records with
  | [] => true
  | first :: _ =>
    match first.SNS.asAccountUpdate with
    | .error _ => true
    | .ok j => j.oldAccount.isSome && j.newAccount.isSome

/-- The package-level variables as `init` was meant to leave them: three
distinct topics and the table it builds.  The program as written never holds
them (see `packageGlobals`). -/
def sampleGlobals : Globals where
  Config := ⟨"arn:created", "arn:updated", "arn:deleted"⟩
  statusLookup := statusLookupTable

/-- A sample event from the account-created topic, for an account of the
given status. -/
def createdEvent (s : account.Status) : SNSEvent :=
  ⟨[⟨⟨"arn:created", "created", .ok ⟨some s⟩, .ok {}⟩⟩]⟩

/-- A sample event from the account-deleted topic, for an account of the
given status. -/
def deletedEvent (s : account.Status) : SNSEvent :=
  ⟨[⟨⟨"arn:deleted", "deleted", .ok ⟨some s⟩, .ok {}⟩⟩]⟩

/-- A sample event from the account-updated topic, for an account that goes
from one status to another. -/
def updatedEvent (old new : account.Status) : SNSEvent :=
  ⟨[⟨⟨"arn:updated", "updated", .ok {}, .ok ⟨some ⟨some old⟩, some ⟨some new⟩⟩⟩⟩]⟩

/-- The sum of the increments that a list of entries holds for a counter. -/
def incrFor (key : AccountStatusCount) (entries : List (AccountStatusCount × Int)) : Int :=
  ((entries.filter fun e => e.1 == key).map fun e => e.2).sum

/-- The number of events of a sequence that come from the account-created
topic. -/
def creates (g : Globals) (events : List SNSEvent) : Nat :=
  events.countP fun snsEvent => topicOf snsEvent == some g.Config.AccountCreatedTopicArn

/-- The number of events of a sequence that come from the account-deleted
topic. -/
def deletes (g : Globals) (events : List SNSEvent) : Nat :=
  events.countP fun snsEvent => topicOf snsEvent == some g.Config.AccountDeletedTopicArn

/-- The adjustments that a run added to a log of length `n`: counter and
signed increment of each, in order. -/
def adjusted (n : Nat) (w : World σ) : List (AccountStatusCount × Int) :=
  (w.calls.drop n).map fun a => (a.key, a.incr)

/-- The errors that the adjustments added to a log of length `n` returned, in
order. -/
def adjustErrors (n : Nat) (w : World σ) : List (Option Error) :=
  (w.calls.drop n).map fun a => a.err

/-- A sample data service over a call counter that refuses to adjust the
per-status counter of `Ready` and adjusts every other counter. -/
def refusingStore : DataSvc Nat where
  IncrementAccountsCount := fun key _ s =>
    (if key = ReadyAccountsCount then some (.foreign none "adjustment failed") else none, s + 1)

/-- A sample event of two records: an account created in status `Ready`, and
an account deleted in status `Leased`. -/
def twoRecordEvent : SNSEvent :=
  ⟨[⟨⟨"arn:created", "created", .ok ⟨some "Ready"⟩, .ok {}⟩⟩,
    ⟨⟨"arn:deleted", "deleted", .ok ⟨some "Leased"⟩, .ok {}⟩⟩]⟩

/-! ### The program as written, and the adjustments in terms of the data service -/

/-- The package-level variables when `Handler` runs in the program as
written.  Lines 21-24 declare `Config` and `statusLookup` without a value, and
`init` puts the configuration it loads and the table it builds into variables
of its own (`:=` on lines 50 and 55), so `Config` is the zero struct, whose
three topic ARNs are empty, and `statusLookup` is the nil map, in which every
lookup yields the zero value, the empty string. -/
def packageGlobals : Globals := ⟨⟨"", "", ""⟩, fun _ => ""⟩

/-- A sample event whose topic ARN is empty, as the three topic ARNs of
`packageGlobals` are, with a message that decodes to an account of the given
status. -/
def emptyTopicEvent (message : String) (s : account.Status) : SNSEvent :=
  ⟨[⟨⟨"", message, .ok ⟨some s⟩, .ok {}⟩⟩]⟩

/-- The state of the data service after it has adjusted each entry of a list
once, in list order, each from the state the adjustment before it left. -/
def stateAfterAdjust (dataSvc : DataSvc σ) : List (AccountStatusCount × Int) → σ → σ
  | [], s => s
  | (key, incr) :: rest, s =>
    stateAfterAdjust dataSvc rest (dataSvc.IncrementAccountsCount key incr s).2

/-- Every adjustment returns nil when the data service adjusts each entry of a
list once, in list order, each from the state the adjustment before it left. -/
def allAdjust (dataSvc : DataSvc σ) : List (AccountStatusCount × Int) → σ → Bool
  | [], _ => true
  | (key, incr) :: rest, s =>
    (dataSvc.IncrementAccountsCount key incr s).1.isNone
      && allAdjust dataSvc rest (dataSvc.IncrementAccountsCount key incr s).2

/-- The log entries of successful adjustments of the entries of a list. -/
def adjustedOk (entries : List (AccountStatusCount × Int)) : List Adjustment :=
  entries.map fun e => ⟨e.1, e.2, none⟩

/-- A sample data service over a call counter that refuses to adjust a counter
without a name and adjusts every other counter. -/
def namelessRefusingStore : DataSvc Nat where
  IncrementAccountsCount := fun key _ s =>
    (if key = "" then some (.foreign none "counter name is empty") else none, s + 1)

end AccountPoolMetrics

/-! ## `pkg/config/config.go` -/

namespace config

/-- The struct `ParameterStoreVal`. -/
structure ParameterStoreVal where
  Key : String
  ParameterName : String
  DefaultValue : String
  deriving DecidableEq, Repr

/-- A value of the map `vals`, of type `interface{}`: a string, a
`ParameterStoreVal`, or a value of another type. -/
inductive Val where
  | str (s : String)
  | param (p : ParameterStoreVal)
  | other (text : String)
  deriving DecidableEq, Repr

/-- A Go map with string keys: its entries, in the order in which their keys
were first assigned. -/
abbrev GoMap (α : Type) := List (String × α)

/-- The assignment `m[key] = val`. -/
def GoMap.set {α : Type} (m : GoMap α) (key : String) (val : α) : GoMap α :=
  if m.any (fun e => e.1 == key) then
    m.map fun e => if e.1 == key then (key, val) else e
  else m ++ [(key, val)]

/-- The lookup `val, ok := m[key]`. -/
def GoMap.get? {α : Type} (m : GoMap α) (key : String) : Option α :=
  (m.find? fun e => e.1 == key).map Prod.snd

/-- The struct `ssm.Parameter`, as far as `RetrieveParameterStoreVals` reads
it; both fields are pointers. -/
structure Parameter where
  Name : Option String
  Value : Option String
  deriving DecidableEq, Repr

/-- The struct `ssm.GetParametersOutput`: a slice of parameter pointers and a
slice of string pointers. -/
structure GetParametersOutput where
  Parameters : List (Option Parameter)
  InvalidParameters : List (Option String)
  deriving DecidableEq, Repr

/-- The interface `ssmiface.SSMAPI` over the state `σ` of the parameter
store: the method that `RetrieveParameterStoreVals` calls, on the names and
the decryption flag of its input. -/
structure SSMAPI (σ : Type) where
  GetParameters : List String → Bool → σ → (Option GetParametersOutput × Option Error) × σ

/-- A service handed to `WithService`: one that implements `ssmiface.SSMAPI`,
or one of another type. -/
inductive Service (σ : Type) where
  | ssm (client : SSMAPI σ)
  | other (typeName : String)

/-- The struct `configurationValues`: the services in the order in which they
were added, and the map `vals`. -/
structure configurationValues (σ : Type) where
  services : List (Service σ) := []
  vals : GoMap Val := []

/-- The struct `ConfigurationBuilder`; `values` is a pointer and starts out
nil. -/
structure ConfigurationBuilder (σ : Type) where
  values : Option (configurationValues σ) := none
  isBuilt : Bool := false

variable {σ : Type}

/-- The method `initialize`, returning the values it leaves in place. -/
def ConfigurationBuilder.initialize (config : ConfigurationBuilder σ) : configurationValues σ :=
  match config.values with
  | none => {}
  | some values => values

/-- The method `WithService`. -/
def ConfigurationBuilder.WithService (config : ConfigurationBuilder σ) (svc : Service σ) :
    ConfigurationBuilder σ :=
  let values := config.initialize
  { config with values := some { values with services := values.services ++ [svc] } }

/-- The method `WithVal`. -/
def ConfigurationBuilder.WithVal (config : ConfigurationBuilder σ) (key : String) (val : Val) :
    ConfigurationBuilder σ :=
  let values := config.initialize
  { config with values := some { values with vals := values.vals.set key val } }

/-- The method `WithParameterStoreEnv`; `LookupEnv` is `os.LookupEnv` on the
environment of the process. -/
def ConfigurationBuilder.WithParameterStoreEnv (LookupEnv : String → Option String)
    (config : ConfigurationBuilder σ) (key envVar defaultValue : String) :
    ConfigurationBuilder σ :=
  let values := config.initialize
  match LookupEnv envVar with
  | none =>
    { config with values := some { values with vals := values.vals.set key (.str defaultValue) } }
  | some envVal =>
    { config with values := some { values with
        vals := values.vals.set key (.param ⟨key, envVal, defaultValue⟩) } }

/-- The method `GetService` for a target of type `*ssmiface.SSMAPI`: the
first service that implements the interface. -/
def ConfigurationBuilder.GetService (values : configurationValues σ) :
    Except Error (SSMAPI σ) :=
  match values.services.findSome? fun svc =>
      match svc with
      | .ssm client => some client
      | .other _ => none with
  | some client => .ok client
  | none =>
    .error (.foreign none "no service found in configuration for key type: ssmiface.SSMAPI")

/-- Lines 251-257 of `RetrieveParameterStoreVals`: the map `valsToRetrieve`,
keyed by parameter name, from the values of `vals` in the order in which
`range` yields them. -/
def valsToRetrieveOf (ranged : List (String × Val)) : GoMap ParameterStoreVal :=
  ranged.foldl (fun m e =>
    match e.2 with
    | .param p => m.set p.ParameterName p
    | _ => m) []

/-- The lookup `valsToRetrieve[name]`, which yields the zero value for a name
that is not a key. -/
def lookupToRetrieve (valsToRetrieve : GoMap ParameterStoreVal) (name : String) :
    ParameterStoreVal :=
  (valsToRetrieve.get? name).getD ⟨"", "", ""⟩

/-- Lines 277-282 of `RetrieveParameterStoreVals`: the loop over the
parameters that were retrieved; a nil parameter, name or value panics. -/
def storeParameters (valsToRetrieve : GoMap ParameterStoreVal) :
    List (Option Parameter) → ConfigurationBuilder σ → Outcome (ConfigurationBuilder σ)
  | [], config => .returned config
  | none :: _, _ => .panicked
  | some param :: rest, config =>
    match param.Name, param.Value with
    | some name, some value =>
      storeParameters valsToRetrieve rest
        (config.WithVal (lookupToRetrieve valsToRetrieve name).Key (.str value))
    | _, _ => .panicked

/-- Lines 284-290 of `RetrieveParameterStoreVals`: the loop over the names
that the parameter store reported as invalid; a nil name panics. -/
def storeDefaults (valsToRetrieve : GoMap ParameterStoreVal) :
    List (Option String) → ConfigurationBuilder σ → Outcome (ConfigurationBuilder σ)
  | [], config => .returned config
  | none :: _, _ => .panicked
  | some invalidParam :: rest, config =>
    storeDefaults valsToRetrieve rest
      (config.WithVal (lookupToRetrieve valsToRetrieve invalidParam).Key
        (.str (lookupToRetrieve valsToRetrieve invalidParam).DefaultValue))

/-- The method `RetrieveParameterStoreVals`: the error it returns and the
builder it leaves.  Go leaves the order in which `range` yields the entries
of a map open: `rangeVals` is that order for `vals`, and `rangeNames` for
the keys of `valsToRetrieve` in `getKeyPtrs`. -/
def ConfigurationBuilder.RetrieveParameterStoreVals
    (rangeVals : GoMap Val → List (String × Val)) (rangeNames : List String → List String)
    (config : ConfigurationBuilder σ) (s : σ) :
    Outcome (Option Error × ConfigurationBuilder σ) × σ :=
  match config.values with
  | none => (.panicked, s)
  | some values =>
    let valsToRetrieve := valsToRetrieveOf (rangeVals values.vals)
    if valsToRetrieve.length != 0 then
      match ConfigurationBuilder.GetService values with
      | .error err => (.returned (some err, config), s)
      | .ok ssmClient =>
        let r := ssmClient.GetParameters (rangeNames (valsToRetrieve.map Prod.fst)) false s
        match r.1.2 with
        | some err => (.returned (some err, config), r.2)
        | none =>
          match r.1.1 with
          | none => (.panicked, r.2)
          | some getParametersOutput =>
            match storeParameters valsToRetrieve getParametersOutput.Parameters config with
            | .panicked => (.panicked, r.2)
            | .returned config1 =>
              match storeDefaults valsToRetrieve getParametersOutput.InvalidParameters
                  config1 with
              | .panicked => (.panicked, r.2)
              | .returned config2 => (.returned (none, config2), r.2)
    else (.returned (none, config), s)

/-- The value stored under a key of the builder, if there is one. -/
def ConfigurationBuilder.stored (config : ConfigurationBuilder σ) (key : String) : Option Val :=
  config.values.bind fun values => values.vals.get? key

/-! ### Sample data -/

/-- A sample environment: `DB_HOST_PARAM` and `DB_PORT_PARAM` both name the
parameter `/dce/db`, `API_PARAM` names `/dce/api`, and nothing else is
set. -/
def sampleEnv (envVar : String) : Option String :=
  if envVar = "DB_HOST_PARAM" then some "/dce/db"
  else if envVar = "DB_PORT_PARAM" then some "/dce/db"
  else if envVar = "API_PARAM" then some "/dce/api"
  else none

/-- A sample parameter store that cannot be reached: `GetParameters` returns
an error. -/
def unreachableStore : SSMAPI Nat where
  GetParameters := fun _ _ s => ((none, some (.foreign none "RequestError: send request failed")), s + 1)

/-- A sample parameter store that holds no parameter: every name asked for is
reported as invalid. -/
def emptyStore : SSMAPI Nat where
  GetParameters := fun names _ s => ((some ⟨[], names.map some⟩, none), s + 1)

end config

end Dce

/-! ## Theorems: the budget lambda -/

namespace Dce

/-- On `float64`, `a < b` excludes `a >= b`. -/
theorem Float64.ge_eq_false_of_lt {a b : Float64} (h : a.lt b = true) : a.ge b = false := by
  cases a <;> cases b <;> simp_all [Float64.lt, Float64.ge]

namespace EndOverBudgetLease
open lease (StatusReason Leases)
variable {σ : Type}

/-- An INSERT or MODIFY record whose sort key matches the lease-summary
pattern is handled by the lease-summary case. -/
theorem handleRecord_eq_lease (Services : leaseiface.Servicer σ) (Settings : lambdaConfig)
    (record : DynamoDBEventRecord) (w : World σ)
    (hEvent : record.EventName = "INSERT" ∨ record.EventName = "MODIFY")
    (hKind : MatchString UsageLeaseSkSummaryPrefix record.SK = true) :
    handleRecord Services Settings ⟨record⟩ w = handleLeaseUsageRecord Services record w := by
  rcases hEvent with h | h <;> simp [handleRecord, h, hKind]

/-- C1: on an INSERT or MODIFY record that is classified as a lease summary
and decodes to a summary with lease ID, cost and budget, `handleRecord` calls
`Delete` exactly once, on that lease ID with reason `OverBudget`, when
`cost >= budget` holds (equality included), and returns the wrapped error of
that call or nil; when `cost >= budget` fails, in particular when
`cost < budget`, it returns nil and leaves the world, hence the log, as it
was. -/
theorem handleRecord_lease_summary (Services : leaseiface.Servicer σ) (Settings : lambdaConfig)
    (record : DynamoDBEventRecord) (w : World σ)
    (summary : usage.Lease) (leaseID : String) (cost budget : Float64)
    (hEvent : record.EventName = "INSERT" ∨ record.EventName = "MODIFY")
    (hKind : MatchString UsageLeaseSkSummaryPrefix record.SK = true)
    (hDecode : record.asLease = .ok summary)
    (hID : summary.LeaseID = some leaseID)
    (hCost : summary.CostAmount = some cost)
    (hBudget : summary.BudgetAmount = some budget) :
    (cost.ge budget = true →
      (handleRecord Services Settings ⟨record⟩ w).2.calls =
          w.calls ++ [Call.Delete leaseID .OverBudget
            (Services.Delete leaseID .OverBudget w.state).1.2]
        ∧ (handleRecord Services Settings ⟨record⟩ w).2.state =
          (Services.Delete leaseID .OverBudget w.state).2
        ∧ (handleRecord Services Settings ⟨record⟩ w).1 =
          .returned ((Services.Delete leaseID .OverBudget w.state).1.2.map
            (NewInternalServer ("Failed to delete lease for leaseID " ++ leaseID))))
    ∧ (cost.ge budget = false →
      handleRecord Services Settings ⟨record⟩ w = (.returned none, w))
    ∧ (cost.lt budget = true →
      handleRecord Services Settings ⟨record⟩ w = (.returned none, w)) := by
  rw [handleRecord_eq_lease Services Settings record w hEvent hKind]
  have hno : cost.ge budget = false →
      handleLeaseUsageRecord Services record w = (.returned none, w) := by
    intro h
    simp [handleLeaseUsageRecord, hDecode, isLeaseOverBudget, hID, hCost, hBudget, h]
  refine ⟨?_, hno, fun h => hno (Float64.ge_eq_false_of_lt h)⟩
  intro h
  cases hd : (Services.Delete leaseID .OverBudget w.state).1.2 <;>
    simp [handleLeaseUsageRecord, hDecode, isLeaseOverBudget, hID, hCost, hBudget, h,
      callDelete, hd]


/-- The visited pages of a concatenated log. -/
theorem visitedPages_append (a b : List Call) :
    visitedPages (a ++ b) = visitedPages a ++ visitedPages b := by
  simp [visitedPages]

/-- The `Delete` attempts of a concatenated log. -/
theorem deleteAttempts_append (a b : List Call) :
    deleteAttempts (a ++ b) = deleteAttempts a ++ deleteAttempts b := by
  simp [deleteAttempts]

/-- The failed `Delete` calls of a concatenated log. -/
theorem failedDeletes_append (a b : List Call) :
    failedDeletes (a ++ b) = failedDeletes a ++ failedDeletes b := by
  simp [failedDeletes]

/-- What one run of the page visitor appends to the log. -/
theorem visitPage_log (Services : leaseiface.Servicer σ) (leases : Leases) :
    ∀ (w : World σ) (d : List Error), ∃ seg : List Call,
      (visitPage Services leases w d).2.1.calls = w.calls ++ seg
      ∧ (∀ c ∈ seg, ∃ ID err, c = Call.Delete ID .OverPrincipalBudget err)
      ∧ (visitPage Services leases w d).2.2 = d ++ failedDeletes seg
      ∧ (visitPage Services leases w d).1 ≠ .returned false
      ∧ ((visitPage Services leases w d).1 ≠ .panicked →
          (deleteAttempts seg).map (fun a => (some a.1, a.2))
            = leases.map (fun l => (l.ID, StatusReason.OverPrincipalBudget))) := by
  induction leases with
  | nil =>
    intro w d
    exact ⟨[], by simp [visitPage, failedDeletes, deleteAttempts]⟩
  | cons l rest ih =>
    intro w d
    cases hID : l.ID with
    | none => exact ⟨[], by simp [visitPage, hID, failedDeletes]⟩
    | some ID =>
      cases hd : (Services.Delete ID .OverPrincipalBudget w.state).1.2 with
      | none =>
        obtain ⟨seg, h1, h2, h3, h4, h5⟩ := ih
          { state := (Services.Delete ID .OverPrincipalBudget w.state).2,
            calls := w.calls ++ [.Delete ID .OverPrincipalBudget none] } d
        refine ⟨Call.Delete ID .OverPrincipalBudget none :: seg, ?_, ?_, ?_, ?_, ?_⟩
        · simp [visitPage, hID, callDelete, hd, h1]
        · intro c hc
          rcases List.mem_cons.1 hc with rfl | hc
          · exact ⟨ID, none, rfl⟩
          · exact h2 c hc
        · simp only [visitPage, hID, callDelete, hd, h3]
          simp [failedDeletes]
        · simpa [visitPage, hID, callDelete, hd] using h4
        · intro hp
          have := h5 (by simpa [visitPage, hID, callDelete, hd] using hp)
          simp [deleteAttempts] at this ⊢
          simp [this, hID]
      | some err =>
        obtain ⟨seg, h1, h2, h3, h4, h5⟩ := ih
          { state := (Services.Delete ID .OverPrincipalBudget w.state).2,
            calls := w.calls ++ [.Delete ID .OverPrincipalBudget (some err)] } (d ++ [err])
        refine ⟨Call.Delete ID .OverPrincipalBudget (some err) :: seg, ?_, ?_, ?_, ?_, ?_⟩
        · simp [visitPage, hID, callDelete, hd, h1]
        · intro c hc
          rcases List.mem_cons.1 hc with rfl | hc
          · exact ⟨ID, some err, rfl⟩
          · exact h2 c hc
        · simp only [visitPage, hID, callDelete, hd, h3]
          simp [failedDeletes]
        · simpa [visitPage, hID, callDelete, hd] using h4
        · intro hp
          have := h5 (by simpa [visitPage, hID, callDelete, hd] using hp)
          simp [deleteAttempts] at this ⊢
          simp [this, hID]


/-- A log segment of `Delete` calls holds no page and no `ListPages` mark. -/
theorem deletes_not_marks {seg : List Call}
    (h : ∀ c ∈ seg, ∃ ID err, c = Call.Delete ID .OverPrincipalBudget err) :
    (∀ c ∈ seg, c.isListPagesMark = false) ∧ visitedPages seg = [] := by
  constructor
  · intro c hc
    obtain ⟨ID, err, rfl⟩ := h c hc
    rfl
  · rw [visitedPages, List.filterMap_eq_nil_iff]
    intro c hc
    obtain ⟨ID, err, rfl⟩ := h c hc
    rfl

/-- What one course of paging against the page visitor appends to the log. -/
theorem runPages_log (Services : leaseiface.Servicer σ) (p : leaseiface.Paging σ) :
    ∀ (w : World σ) (d : List Error), ∃ seg : List Call,
      (runPages (visitPage Services) p w d).2.1.calls = w.calls ++ seg
      ∧ (∀ c ∈ seg, c.isListPagesMark = false)
      ∧ (runPages (visitPage Services) p w d).2.2 = d ++ failedDeletes seg
      ∧ ((runPages (visitPage Services) p w d).1 ≠ .panicked → OneDeletePerLease seg) := by
  induction p with
  | finish err s =>
    intro w d
    exact ⟨[], by simp [runPages, failedDeletes, OneDeletePerLease, deleteAttempts, visitedPages]⟩
  | page leases s next ih =>
    intro w d
    obtain ⟨segV, v1, v2, v3, v4, v5⟩ := visitPage_log Services leases
      { state := s, calls := w.calls ++ [.visit leases] } d
    obtain ⟨m1, m2⟩ := deletes_not_marks v2
    rcases hv : visitPage Services leases { state := s, calls := w.calls ++ [.visit leases] } d
      with ⟨o, w', d'⟩
    rw [hv] at v1 v3 v4 v5
    simp only at v1 v3 v4 v5
    cases o with
    | panicked =>
      refine ⟨Call.visit leases :: segV, ?_, ?_, ?_, ?_⟩
      · simp [runPages, hv, v1]
      · intro c hc
        rcases List.mem_cons.1 hc with rfl | hc
        · rfl
        · exact m1 c hc
      · simp only [runPages, hv, v3]
        simp [failedDeletes]
      · simp [runPages, hv]
    | returned b =>
      cases b with
      | false => exact absurd rfl v4
      | true =>
        have hrun : runPages (visitPage Services) (.page leases s next) w d
            = runPages (visitPage Services) (next w'.state) w' d' := by
          simp [runPages, hv]
        rw [hrun]
        obtain ⟨segR, r1, r2, r3, r4⟩ := ih w'.state w' d'
        refine ⟨Call.visit leases :: (segV ++ segR), ?_, ?_, ?_, ?_⟩
        · rw [r1, v1]; simp
        · intro c hc
          rcases List.mem_cons.1 hc with rfl | hc
          · rfl
          · rcases List.mem_append.1 hc with hc | hc
            · exact m1 c hc
            · exact r2 c hc
        · rw [r3, v3]
          simp [failedDeletes]
        · intro hp
          have hR := r4 hp
          have hV := v5 (by simp)
          unfold OneDeletePerLease at hR ⊢
          have e1 : deleteAttempts (Call.visit leases :: (segV ++ segR))
              = deleteAttempts segV ++ deleteAttempts segR := by
            rw [← deleteAttempts_append]; simp [deleteAttempts]
          have e2 : visitedPages (Call.visit leases :: (segV ++ segR))
              = leases :: visitedPages segR := by
            have : visitedPages (Call.visit leases :: (segV ++ segR))
                = leases :: visitedPages (segV ++ segR) := by simp [visitedPages]
            rw [this, visitedPages_append, m2, List.nil_append]
          rw [e1, e2, List.map_append, hV, hR]
          simp


/-- An INSERT or MODIFY record whose sort key matches the principal pattern
and not the lease-summary pattern is handled by the principal-summary case. -/
theorem handleRecord_eq_principal (Services : leaseiface.Servicer σ) (Settings : lambdaConfig)
    (record : DynamoDBEventRecord) (w : World σ)
    (hEvent : record.EventName = "INSERT" ∨ record.EventName = "MODIFY")
    (hNotLease : MatchString UsageLeaseSkSummaryPrefix record.SK = false)
    (hKind : MatchString UsagePrincipalSkPrefix record.SK = true) :
    handleRecord Services Settings ⟨record⟩ w
      = handlePrincipalUsageRecord Services Settings record w := by
  rcases hEvent with h | h <;> simp [handleRecord, h, hKind, hNotLease]

/-- The run of `handleRecord` on an over-ceiling principal summary: either
the visitor panics, or `ListPages` returns and the result is built from its
error and from the errors of the failed `Delete` calls. -/
theorem principal_over_budget_run (Services : leaseiface.Servicer σ) (Settings : lambdaConfig)
    (record : DynamoDBEventRecord) (w : World σ)
    (summary : usage.Principal) (principalID : String) (cost : Float64)
    (hEvent : record.EventName = "INSERT" ∨ record.EventName = "MODIFY")
    (hNotLease : MatchString UsageLeaseSkSummaryPrefix record.SK = false)
    (hKind : MatchString UsagePrincipalSkPrefix record.SK = true)
    (hDecode : record.asPrincipal = .ok summary)
    (hID : summary.PrincipalID = some principalID)
    (hCost : summary.CostAmount = some cost)
    (hOver : cost.ge Settings.PrincipalBudgetAmount = true) :
    ∃ seg : List Call, (∀ c ∈ seg, c.isListPagesMark = false) ∧
      (((handleRecord Services Settings ⟨record⟩ w).1 = .panicked
          ∧ (handleRecord Services Settings ⟨record⟩ w).2.calls = w.calls ++
              Call.ListPages { PrincipalID := some principalID, Status := some lease.StatusActive }
                :: seg)
      ∨ (∃ err : Option Error,
          (handleRecord Services Settings ⟨record⟩ w).2.calls = w.calls ++
              Call.ListPages { PrincipalID := some principalID, Status := some lease.StatusActive }
                :: (seg ++ [Call.ListPagesReturn err])
          ∧ OneDeletePerLease seg
          ∧ (handleRecord Services Settings ⟨record⟩ w).1 = .returned
              (match err with
               | some e => some (NewInternalServer
                  ("Failed to delete one or more leases for principalID " ++ principalID) e)
               | none =>
                  if (failedDeletes seg).length > 0 then
                    some (NewMultiError "Failed to delete one or more leases" (failedDeletes seg))
                  else none))) := by
  rw [handleRecord_eq_principal Services Settings record w hEvent hNotLease hKind]
  obtain ⟨seg, r1, r2, r3, r4⟩ := runPages_log Services
    (Services.ListPages { PrincipalID := some principalID, Status := some lease.StatusActive }
      w.state)
    { state := w.state, calls := w.calls ++
      [Call.ListPages { PrincipalID := some principalID, Status := some lease.StatusActive }] } []
  refine ⟨seg, r2, ?_⟩
  rcases hr : runPages (visitPage Services)
    (Services.ListPages { PrincipalID := some principalID, Status := some lease.StatusActive }
      w.state)
    { state := w.state, calls := w.calls ++
      [Call.ListPages { PrincipalID := some principalID, Status := some lease.StatusActive }] } []
    with ⟨o, w', d'⟩
  rw [hr] at r1 r3 r4
  simp only [List.nil_append] at r1 r3 r4
  cases o with
  | panicked =>
    left
    simp [handlePrincipalUsageRecord, hDecode, isPrincipalOverBudget, hID, hCost, hOver,
      callListPages, hr, r1]
  | returned err =>
    right
    refine ⟨err, ?_, r4 (by simp), ?_⟩
    · cases err <;>
        simp [handlePrincipalUsageRecord, hDecode, isPrincipalOverBudget, hID, hCost, hOver,
          callListPages, hr, r1]
      split <;> simp
    · cases err with
      | some e =>
        simp [handlePrincipalUsageRecord, hDecode, isPrincipalOverBudget, hID, hCost, hOver,
          callListPages, hr]
      | none =>
        simp only [handlePrincipalUsageRecord, hDecode, isPrincipalOverBudget, hID, hCost, hOver,
          callListPages, hr, r3]
        split <;> rfl


/-- The log of the principal-summary case: on an INSERT or MODIFY record that
is classified as a principal
summary and decodes to a summary with principal ID and cost, `handleRecord`
enters `ListPages` exactly once when `cost >= ceiling` holds (equality
included), with the query of that principal ID and status `Active`; when
`cost >= ceiling` fails, in particular when `cost < ceiling`, it returns nil
and leaves the world, hence the log, as it was.  The default ceiling is
100. -/
theorem handleRecord_principal_summary (Services : leaseiface.Servicer σ)
    (Settings : lambdaConfig) (record : DynamoDBEventRecord) (w : World σ)
    (summary : usage.Principal) (principalID : String) (cost : Float64)
    (hEvent : record.EventName = "INSERT" ∨ record.EventName = "MODIFY")
    (hNotLease : MatchString UsageLeaseSkSummaryPrefix record.SK = false)
    (hKind : MatchString UsagePrincipalSkPrefix record.SK = true)
    (hDecode : record.asPrincipal = .ok summary)
    (hID : summary.PrincipalID = some principalID)
    (hCost : summary.CostAmount = some cost) :
    (cost.ge Settings.PrincipalBudgetAmount = true →
      ∃ rest : List Call,
        (handleRecord Services Settings ⟨record⟩ w).2.calls = w.calls ++
          Call.ListPages { PrincipalID := some principalID, Status := some lease.StatusActive }
            :: rest
        ∧ ∀ c ∈ rest, ∀ query, c ≠ Call.ListPages query)
    ∧ (cost.ge Settings.PrincipalBudgetAmount = false →
      handleRecord Services Settings ⟨record⟩ w = (.returned none, w))
    ∧ (cost.lt Settings.PrincipalBudgetAmount = true →
      handleRecord Services Settings ⟨record⟩ w = (.returned none, w))
    ∧ defaultSettings.PrincipalBudgetAmount = .Finite 100 := by
  have hno : cost.ge Settings.PrincipalBudgetAmount = false →
      handleRecord Services Settings ⟨record⟩ w = (.returned none, w) := by
    intro h
    rw [handleRecord_eq_principal Services Settings record w hEvent hNotLease hKind]
    simp [handlePrincipalUsageRecord, hDecode, isPrincipalOverBudget, hID, hCost, h]
  refine ⟨?_, hno, fun h => hno (Float64.ge_eq_false_of_lt h), rfl⟩
  intro hOver
  obtain ⟨seg, hm, h⟩ := principal_over_budget_run Services Settings record w summary
    principalID cost hEvent hNotLease hKind hDecode hID hCost hOver
  rcases h with ⟨_, hc⟩ | ⟨err, hc, _, _⟩
  · refine ⟨seg, hc, ?_⟩
    intro c hc' query hq
    have := hm c hc'
    rw [hq] at this
    cases this
  · refine ⟨seg ++ [Call.ListPagesReturn err], hc, ?_⟩
    intro c hc' query hq
    rcases List.mem_append.1 hc' with h1 | h1
    · have := hm c h1
      rw [hq] at this
      cases this
    · rw [hq] at h1
      simp at h1

/-- Example: the sample principal summary at the default ceiling. -/
theorem handleRecord_principal_summary_witness :
    (∃ rest : List Call,
      (handleRecord sampleService defaultSettings ⟨principalAtCeiling⟩ ⟨0, []⟩).2.calls = [] ++
        Call.ListPages { PrincipalID := some "user1", Status := some lease.StatusActive } :: rest
      ∧ ∀ c ∈ rest, ∀ query, c ≠ Call.ListPages query) :=
  (handleRecord_principal_summary sampleService defaultSettings principalAtCeiling ⟨0, []⟩
    { PrincipalID := some "user1", CostAmount := some (.Finite 100) } "user1" (.Finite 100)
    (Or.inr rfl) (by decide) (by decide) rfl rfl rfl).1 (by decide)

/-- The page visitor returns on a page whose leases all have an ID. -/
theorem visitPage_returns (Services : leaseiface.Servicer σ) (leases : Leases)
    (hIDs : ∀ l ∈ leases, l.ID.isSome = true) :
    ∀ (w : World σ) (d : List Error), (visitPage Services leases w d).1 = .returned true := by
  induction leases with
  | nil => intro w d; rfl
  | cons l rest ih =>
    intro w d
    have hl := hIDs l (List.mem_cons_self _ _)
    have hrest : ∀ x ∈ rest, x.ID.isSome = true :=
      fun x hx => hIDs x (List.mem_cons_of_mem _ hx)
    cases hID : l.ID with
    | none => rw [hID] at hl; cases hl
    | some ID =>
      cases hd : (Services.Delete ID .OverPrincipalBudget w.state).1.2 <;>
        simp [visitPage, hID, callDelete, hd, ih hrest]

/-- Paging against the page visitor returns when every listed lease has an
ID. -/
theorem runPages_returns (Services : leaseiface.Servicer σ) (p : leaseiface.Paging σ) :
    p.AllLeases (fun l => l.ID.isSome = true) →
    ∀ (w : World σ) (d : List Error),
      (runPages (visitPage Services) p w d).1 ≠ .panicked := by
  induction p with
  | finish err s => intro _ w d; simp [runPages]
  | page leases s next ih =>
    intro h w d
    obtain ⟨h1, h2⟩ := h
    rcases hv : visitPage Services leases { state := s, calls := w.calls ++ [.visit leases] } d
      with ⟨o, w', d'⟩
    have := visitPage_returns Services leases h1
      { state := s, calls := w.calls ++ [.visit leases] } d
    rw [hv] at this
    simp only at this
    subst this
    have hrun : runPages (visitPage Services) (.page leases s next) w d
        = runPages (visitPage Services) (next w'.state) w' d' := by
      simp [runPages, hv]
    rw [hrun]
    exact ih w'.state (h2 w'.state) w' d'

/-- On an over-ceiling principal summary, `handleRecord` returns when every
listed lease has an ID. -/
theorem handleRecord_principal_returns (Services : leaseiface.Servicer σ)
    (Settings : lambdaConfig) (record : DynamoDBEventRecord) (w : World σ)
    (summary : usage.Principal) (principalID : String) (cost : Float64)
    (hEvent : record.EventName = "INSERT" ∨ record.EventName = "MODIFY")
    (hNotLease : MatchString UsageLeaseSkSummaryPrefix record.SK = false)
    (hKind : MatchString UsagePrincipalSkPrefix record.SK = true)
    (hDecode : record.asPrincipal = .ok summary)
    (hID : summary.PrincipalID = some principalID)
    (hCost : summary.CostAmount = some cost)
    (hOver : cost.ge Settings.PrincipalBudgetAmount = true)
    (hIDs : (Services.ListPages
        { PrincipalID := some principalID, Status := some lease.StatusActive } w.state).AllLeases
          (fun l => l.ID.isSome = true)) :
    (handleRecord Services Settings ⟨record⟩ w).1 ≠ .panicked := by
  rw [handleRecord_eq_principal Services Settings record w hEvent hNotLease hKind]
  have hr := runPages_returns Services _ hIDs
    { state := w.state, calls := w.calls ++
      [Call.ListPages { PrincipalID := some principalID, Status := some lease.StatusActive }] } []
  rcases hrun : runPages (visitPage Services)
    (Services.ListPages { PrincipalID := some principalID, Status := some lease.StatusActive }
      w.state)
    { state := w.state, calls := w.calls ++
      [Call.ListPages { PrincipalID := some principalID, Status := some lease.StatusActive }] } []
    with ⟨o, w', d'⟩
  rw [hrun] at hr
  cases o with
  | panicked => exact absurd rfl hr
  | returned err =>
    cases err with
    | some e =>
      simp [handlePrincipalUsageRecord, hDecode, isPrincipalOverBudget, hID, hCost, hOver,
        callListPages, hrun]
    | none =>
      simp only [handlePrincipalUsageRecord, hDecode, isPrincipalOverBudget, hID, hCost, hOver,
        callListPages, hrun]
      split <;> simp

/-- The log of the listing: on an over-ceiling principal summary, when every
lease that the
listing can deliver has an ID, `handleRecord` returns, and the log between
the entry into `ListPages` and its return pairs every lease of every visited
page, in order, with one `Delete` attempt on that lease's ID with reason
`OverPrincipalBudget`, whatever errors the `Delete` calls return; and the
page visitor never returns `false`. -/
theorem handleRecord_deletes_every_listed_lease (Services : leaseiface.Servicer σ)
    (Settings : lambdaConfig) (record : DynamoDBEventRecord) (w : World σ)
    (summary : usage.Principal) (principalID : String) (cost : Float64)
    (hEvent : record.EventName = "INSERT" ∨ record.EventName = "MODIFY")
    (hNotLease : MatchString UsageLeaseSkSummaryPrefix record.SK = false)
    (hKind : MatchString UsagePrincipalSkPrefix record.SK = true)
    (hDecode : record.asPrincipal = .ok summary)
    (hID : summary.PrincipalID = some principalID)
    (hCost : summary.CostAmount = some cost)
    (hOver : cost.ge Settings.PrincipalBudgetAmount = true)
    (hIDs : (Services.ListPages
        { PrincipalID := some principalID, Status := some lease.StatusActive } w.state).AllLeases
          (fun l => l.ID.isSome = true)) :
    (handleRecord Services Settings ⟨record⟩ w).1 ≠ .panicked
    ∧ (∃ (seg : List Call) (err : Option Error),
      (handleRecord Services Settings ⟨record⟩ w).2.calls = w.calls ++
        Call.ListPages { PrincipalID := some principalID, Status := some lease.StatusActive }
          :: (seg ++ [Call.ListPagesReturn err])
      ∧ (∀ c ∈ seg, c.isListPagesMark = false)
      ∧ (deleteAttempts seg).map (fun a => (some a.1, a.2))
          = (visitedPages seg).flatten.map (fun l => (l.ID, StatusReason.OverPrincipalBudget)))
    ∧ ∀ (leases : Leases) (w' : World σ) (deferredErrors : List Error),
        (visitPage Services leases w' deferredErrors).1 ≠ .returned false := by
  have hReturns := handleRecord_principal_returns Services Settings record w summary
    principalID cost hEvent hNotLease hKind hDecode hID hCost hOver hIDs
  refine ⟨hReturns, ?_, ?_⟩
  · obtain ⟨seg, hm, h⟩ := principal_over_budget_run Services Settings record w summary
      principalID cost hEvent hNotLease hKind hDecode hID hCost hOver
    rcases h with ⟨hp, _⟩ | ⟨err, hc, hd, _⟩
    · exact absurd hp hReturns
    · exact ⟨seg, err, hc, hm, hd⟩
  · intro leases w' d
    obtain ⟨_, _, _, _, h, _⟩ := visitPage_log Services leases w' d
    exact h

/-- C7, amended: on an over-ceiling principal summary for which `ListPages`
itself returned nil, `handleRecord` returns nil if and only if no `Delete`
call failed, and otherwise returns the `MultiError` whose list is exactly the
errors of the failed `Delete` calls in the order attempted. -/
theorem handleRecord_collects_failed_deletes (Services : leaseiface.Servicer σ)
    (Settings : lambdaConfig) (record : DynamoDBEventRecord) (w : World σ)
    (summary : usage.Principal) (principalID : String) (cost : Float64)
    (hEvent : record.EventName = "INSERT" ∨ record.EventName = "MODIFY")
    (hNotLease : MatchString UsageLeaseSkSummaryPrefix record.SK = false)
    (hKind : MatchString UsagePrincipalSkPrefix record.SK = true)
    (hDecode : record.asPrincipal = .ok summary)
    (hID : summary.PrincipalID = some principalID)
    (hCost : summary.CostAmount = some cost)
    (hOver : cost.ge Settings.PrincipalBudgetAmount = true)
    (hListed : Call.ListPagesReturn none ∈
      (handleRecord Services Settings ⟨record⟩ w).2.calls.drop w.calls.length) :
    ((handleRecord Services Settings ⟨record⟩ w).1 = .returned none ↔
      failedDeletes ((handleRecord Services Settings ⟨record⟩ w).2.calls.drop w.calls.length)
        = [])
    ∧ (failedDeletes ((handleRecord Services Settings ⟨record⟩ w).2.calls.drop w.calls.length)
        ≠ [] →
      (handleRecord Services Settings ⟨record⟩ w).1 = .returned (some
        (NewMultiError "Failed to delete one or more leases"
          (failedDeletes
            ((handleRecord Services Settings ⟨record⟩ w).2.calls.drop w.calls.length))))) := by
  obtain ⟨seg, hm, h⟩ := principal_over_budget_run Services Settings record w summary
    principalID cost hEvent hNotLease hKind hDecode hID hCost hOver
  have nomark : Call.ListPagesReturn none ∉ seg := fun hin => by
    have := hm _ hin
    cases this
  rcases h with ⟨_, hc⟩ | ⟨err, hc, _, hres⟩
  · rw [hc, List.drop_left] at hListed
    rcases List.mem_cons.1 hListed with h1 | h1
    · cases h1
    · exact absurd h1 nomark
  · rw [hc, List.drop_left] at hListed ⊢
    have herr : err = none := by
      rcases List.mem_cons.1 hListed with h1 | h1
      · cases h1
      · rcases List.mem_append.1 h1 with h2 | h2
        · exact absurd h2 nomark
        · simp at h2
          exact h2.symm
    subst herr
    have hf : failedDeletes (Call.ListPages
        { PrincipalID := some principalID, Status := some lease.StatusActive }
          :: (seg ++ [Call.ListPagesReturn none])) = failedDeletes seg := by
      simp [failedDeletes]
    rw [hf, hres]
    cases hfd : failedDeletes seg with
    | nil => simp
    | cons e es => simp [NewMultiError]


/-- One per-record result per record. -/
theorem perRecord_length (Services : leaseiface.Servicer σ) (Settings : lambdaConfig)
    (Records : List DynamoDBEventRecord) :
    ∀ w : World σ, (perRecord Services Settings Records w).1.length = Records.length := by
  induction Records with
  | nil => intro w; rfl
  | cons r rest ih => intro w; simp [perRecord, ih]

/-- The loop of `handler` collects the non-nil per-record errors. -/
theorem handlerLoop_eq (Services : leaseiface.Servicer σ) (Settings : lambdaConfig)
    (Records : List DynamoDBEventRecord) :
    ∀ (w : World σ) (d : List Error),
      (∀ r ∈ (perRecord Services Settings Records w).1, r ≠ .panicked) →
      handlerLoop Services Settings Records w d =
        (.returned (d ++ recordErrors (perRecord Services Settings Records w).1),
          (perRecord Services Settings Records w).2) := by
  induction Records with
  | nil => intro w d _; simp [handlerLoop, perRecord, recordErrors]
  | cons r rest ih =>
    intro w d h
    rcases hr : handleRecord Services Settings { record := r } w with ⟨o, w'⟩
    have hrest : ∀ x ∈ (perRecord Services Settings rest w').1, x ≠ .panicked := by
      intro x hx
      apply h
      simp [perRecord, hr, hx]
    have ho : o ≠ .panicked := by
      apply h
      simp [perRecord, hr]
    cases o with
    | panicked => exact absurd rfl ho
    | returned e =>
      cases e with
      | none => simp [handlerLoop, perRecord, hr, ih w' d hrest, recordErrors]
      | some err => simp [handlerLoop, perRecord, hr, ih w' (d ++ [err]) hrest, recordErrors]

/-- No per-record error is collected exactly when every result is nil. -/
theorem recordErrors_eq_nil_iff (results : List (Outcome (Option Error)))
    (h : ∀ r ∈ results, r ≠ .panicked) :
    recordErrors results = [] ↔ ∀ r ∈ results, r = .returned none := by
  rw [recordErrors, List.filterMap_eq_nil_iff]
  constructor
  · intro hn r hr
    have h1 := hn r hr
    have h2 := h r hr
    cases r with
    | panicked => exact absurd rfl h2
    | returned e =>
      cases e with
      | none => rfl
      | some err => simp at h1
  · intro hn r hr
    rw [hn r hr]

/-- When no record of the batch panics, `handler` leaves the world that
running `handleRecord` on every record in order leaves, returns nil if and
only if every per-record result is nil, and otherwise returns the
`MultiError` whose list is exactly the non-nil per-record errors in record
order. -/
theorem handler_collects_record_errors (Services : leaseiface.Servicer σ)
    (Settings : lambdaConfig) (Records : List DynamoDBEventRecord) (w : World σ)
    (hReturns : ∀ r ∈ (perRecord Services Settings Records w).1, r ≠ .panicked) :
    (perRecord Services Settings Records w).1.length = Records.length
    ∧ (handler Services Settings Records w).2 = (perRecord Services Settings Records w).2
    ∧ ((handler Services Settings Records w).1 = .returned none ↔
        ∀ r ∈ (perRecord Services Settings Records w).1, r = .returned none)
    ∧ (¬ (∀ r ∈ (perRecord Services Settings Records w).1, r = .returned none) →
        (handler Services Settings Records w).1 = .returned (some
          (NewMultiError "Failed to handle DynDB Event"
            (recordErrors (perRecord Services Settings Records w).1)))) := by
  have hloop := handlerLoop_eq Services Settings Records w [] hReturns
  have hiff := recordErrors_eq_nil_iff _ hReturns
  refine ⟨perRecord_length Services Settings Records w, ?_, ?_, ?_⟩
  · simp only [handler, hloop]
    split <;> rfl
  · rw [← hiff]
    simp only [handler, hloop, List.nil_append]
    cases recordErrors (perRecord Services Settings Records w).1 <;> simp
  · rw [← hiff]
    intro hne
    simp only [handler, hloop, List.nil_append]
    cases hrec : recordErrors (perRecord Services Settings Records w).1 with
    | nil => exact absurd hrec hne
    | cons e es => simp

/-- Example: a batch whose first record fails and whose second is
still handled. -/
theorem handler_collects_record_errors_witness :
    (handler sampleService defaultSettings [leaseBadOverBudget, leaseAtBudget] ⟨0, []⟩).2
      = (perRecord sampleService defaultSettings [leaseBadOverBudget, leaseAtBudget] ⟨0, []⟩).2
    ∧ (handler sampleService defaultSettings [leaseBadOverBudget, leaseAtBudget] ⟨0, []⟩).2.calls
      = [Call.Delete "bad" .OverBudget (some (.foreign none "delete failed")),
         Call.Delete "l1" .OverBudget none] :=
  ⟨(handler_collects_record_errors sampleService defaultSettings
      [leaseBadOverBudget, leaseAtBudget] ⟨0, []⟩ (by
        intro r hr
        have e : (perRecord sampleService defaultSettings
            [leaseBadOverBudget, leaseAtBudget] ⟨0, []⟩).1
            = [.returned (some (.InternalServer "Failed to delete lease for leaseID bad"
                (.foreign none "delete failed"))), .returned none] := rfl
        rw [e] at hr
        simp at hr
        rcases hr with rfl | rfl <;> simp)).2.1, rfl⟩

/-- Witness of C1: the sample lease summary whose cost equals its budget. -/
theorem handleRecord_lease_summary_witness :
    (handleRecord sampleService defaultSettings ⟨leaseAtBudget⟩ ⟨0, []⟩).2.calls
      = [] ++ [Call.Delete "l1" .OverBudget
          (sampleService.Delete "l1" .OverBudget 0).1.2] :=
  ((handleRecord_lease_summary sampleService defaultSettings leaseAtBudget ⟨0, []⟩
    { LeaseID := some "l1", CostAmount := some (.Finite 300),
      BudgetAmount := some (.Finite 300) } "l1" (.Finite 300) (.Finite 300)
    (Or.inl rfl) (by decide) rfl rfl rfl rfl).1 (by decide)).1

/-- Example: the sample listing of two pages, whose first `Delete`
fails. -/
theorem handleRecord_deletes_every_listed_lease_witness :
    (handleRecord sampleService defaultSettings ⟨principalAtCeiling⟩ ⟨0, []⟩).1 ≠ .panicked
    ∧ ∃ (seg : List Call) (err : Option Error),
      (handleRecord sampleService defaultSettings ⟨principalAtCeiling⟩ ⟨0, []⟩).2.calls = [] ++
        Call.ListPages { PrincipalID := some "user1", Status := some lease.StatusActive }
          :: (seg ++ [Call.ListPagesReturn err])
      ∧ (∀ c ∈ seg, c.isListPagesMark = false)
      ∧ (deleteAttempts seg).map (fun a => (some a.1, a.2))
          = (visitedPages seg).flatten.map (fun l => (l.ID, StatusReason.OverPrincipalBudget)) :=
  have h := handleRecord_deletes_every_listed_lease sampleService defaultSettings
    principalAtCeiling ⟨0, []⟩ { PrincipalID := some "user1", CostAmount := some (.Finite 100) }
    "user1" (.Finite 100) (Or.inr rfl) (by decide) (by decide) rfl rfl rfl (by decide)
    (by simp [sampleService, leaseiface.Paging.AllLeases])
  ⟨h.1, h.2.1⟩

/-- Witness of C7, amended: the sample listing of two pages, whose first
`Delete` fails. -/
theorem handleRecord_collects_failed_deletes_witness :
    (handleRecord sampleService defaultSettings ⟨principalAtCeiling⟩ ⟨0, []⟩).1 = .returned (some
      (NewMultiError "Failed to delete one or more leases"
        (failedDeletes ((handleRecord sampleService defaultSettings ⟨principalAtCeiling⟩
          ⟨0, []⟩).2.calls.drop ([] : List Call).length)))) :=
  (handleRecord_collects_failed_deletes sampleService defaultSettings principalAtCeiling
    ⟨0, []⟩ { PrincipalID := some "user1", CostAmount := some (.Finite 100) } "user1"
    (.Finite 100) (Or.inr rfl) (by decide) (by decide) rfl rfl rfl (by decide)
    (by
      have e : (handleRecord sampleService defaultSettings ⟨principalAtCeiling⟩ ⟨0, []⟩).2.calls
          = [Call.ListPages { PrincipalID := some "user1", Status := some lease.StatusActive },
             Call.visit [{ ID := some "bad" }, { ID := some "l2" }],
             Call.Delete "bad" .OverPrincipalBudget (some (.foreign none "delete failed")),
             Call.Delete "l2" .OverPrincipalBudget none,
             Call.visit [{ ID := some "l3" }],
             Call.Delete "l3" .OverPrincipalBudget none,
             Call.ListPagesReturn none] := rfl
      rw [e]
      simp)).2 (by
        have e : failedDeletes ((handleRecord sampleService defaultSettings
            ⟨principalAtCeiling⟩ ⟨0, []⟩).2.calls.drop ([] : List Call).length)
            = [.foreign none "delete failed"] := rfl
        rw [e]
        simp)

/-- C7 fails as stated: when the listing itself fails after a page on which
a `Delete` failed, `handleRecord` returns an `InternalServer` error, which is
neither nil nor a `MultiError` of the failed `Delete` calls. -/
theorem handleRecord_listing_error_hides_failed_deletes :
    ¬ (((handleRecord brokenListing defaultSettings ⟨principalAtCeiling⟩ ⟨0, []⟩).1
          = .returned none ↔
        failedDeletes (handleRecord brokenListing defaultSettings ⟨principalAtCeiling⟩
          ⟨0, []⟩).2.calls = [])
      ∧ (failedDeletes (handleRecord brokenListing defaultSettings ⟨principalAtCeiling⟩
          ⟨0, []⟩).2.calls ≠ [] →
        ∃ message, (handleRecord brokenListing defaultSettings ⟨principalAtCeiling⟩ ⟨0, []⟩).1
          = .returned (some (.MultiError message
              (failedDeletes (handleRecord brokenListing defaultSettings ⟨principalAtCeiling⟩
                ⟨0, []⟩).2.calls))))) := by
  have e1 : (handleRecord brokenListing defaultSettings ⟨principalAtCeiling⟩ ⟨0, []⟩).1
      = .returned (some (.InternalServer
          "Failed to delete one or more leases for principalID user1"
          (.foreign none "listing failed"))) := rfl
  have e2 : failedDeletes (handleRecord brokenListing defaultSettings ⟨principalAtCeiling⟩
      ⟨0, []⟩).2.calls = [.foreign none "delete failed"] := rfl
  rw [e1, e2]
  simp

end EndOverBudgetLease
end Dce

/-! ## Theorems: the credential-vending lambda -/

namespace Dce
namespace LeaseAuth
variable {σ ρ : Type}


/-- What `leaseAuth` does once the lease pointer is resolved. -/
theorem leaseAuth_of_resolved (AdminGroupName : String) (input : leaseAuthInput σ ρ)
    (w w1 : World σ) (lease : Option lease.Lease)
    (h : resolveLease input (callGetUser input w).1 (callGetUser input w).2
      = (.returned (lease, none), w1)) :
    leaseAuth AdminGroupName input w
      = withLease AdminGroupName input (callGetUser input w).1 lease w1 := by
  simp [leaseAuth, h]

/-- The two checks on an `Active` lease with principal ID and lease ID. -/
theorem checkLease_active (AdminGroupName : String) (user : User) (lease : lease.Lease)
    (principalID ID : String)
    (hStatus : lease.Status = some Dce.lease.StatusActive)
    (hPrincipal : lease.PrincipalID = some principalID)
    (hID : lease.ID = some ID) :
    checkLease AdminGroupName user lease =
      if user.Role = AdminGroupName ∨ user.Username = principalID then .returned none
      else .returned (some (NewUnauthorized
        ("User " ++ user.Username ++ " does not have access to lease " ++ ID))) := by
  by_cases h1 : user.Role = AdminGroupName
  · simp [checkLease, hStatus, h1]
  · by_cases h2 : user.Username = principalID
    · simp [checkLease, hStatus, hPrincipal, h1, h2]
    · simp [checkLease, hStatus, hPrincipal, hID, h1, h2]

/-- C4: for a resolved lease whose status is `Active` (with principal ID and
lease ID present), the authorization check of `leaseAuth` passes if and only
if the caller's role is the administrator group or the caller's username is
the lease's principal ID; when it passes `leaseAuth` goes on to the account
lookup, and otherwise it returns an `Unauthorized` error, no credentials, and
makes no further call. -/
theorem leaseAuth_login_allowed_iff (AdminGroupName : String) (input : leaseAuthInput σ ρ)
    (w w1 : World σ) (lease : lease.Lease) (principalID ID : String)
    (hResolved : resolveLease input (callGetUser input w).1 (callGetUser input w).2
      = (.returned (some lease, none), w1))
    (hStatus : lease.Status = some Dce.lease.StatusActive)
    (hPrincipal : lease.PrincipalID = some principalID)
    (hID : lease.ID = some ID) :
    (checkLease AdminGroupName (callGetUser input w).1 lease = .returned none ↔
      ((callGetUser input w).1.Role = AdminGroupName
        ∨ (callGetUser input w).1.Username = principalID))
    ∧ (((callGetUser input w).1.Role = AdminGroupName
        ∨ (callGetUser input w).1.Username = principalID) →
      leaseAuth AdminGroupName input w = lookupAccount input (callGetUser input w).1 lease w1)
    ∧ (¬ ((callGetUser input w).1.Role = AdminGroupName
        ∨ (callGetUser input w).1.Username = principalID) →
      leaseAuth AdminGroupName input w = (.returned (none, some (NewUnauthorized
        ("User " ++ (callGetUser input w).1.Username ++ " does not have access to lease "
          ++ ID))), w1)) := by
  rw [leaseAuth_of_resolved AdminGroupName input w w1 (some lease) hResolved,
    checkLease_active AdminGroupName _ lease principalID ID hStatus hPrincipal hID]
  refine ⟨?_, ?_, ?_⟩
  · by_cases h : (callGetUser input w).1.Role = AdminGroupName
        ∨ (callGetUser input w).1.Username = principalID
    · simp [h]
    · simp [h]
  · intro h
    simp only [withLease,
      checkLease_active AdminGroupName _ lease principalID ID hStatus hPrincipal hID, if_pos h]
  · intro h
    simp only [withLease,
      checkLease_active AdminGroupName _ lease principalID ID hStatus hPrincipal hID, if_neg h]

/-- C5: for every caller and every administrator group, if the resolved
lease has a status other than `Active` then `leaseAuth` returns an
`Unauthorized` error and no credentials, and makes no further call. -/
theorem leaseAuth_inactive_unauthorized (AdminGroupName : String) (input : leaseAuthInput σ ρ)
    (w w1 : World σ) (lease : lease.Lease) (status : Dce.lease.Status)
    (hResolved : resolveLease input (callGetUser input w).1 (callGetUser input w).2
      = (.returned (some lease, none), w1))
    (hStatus : lease.Status = some status)
    (hInactive : status ≠ Dce.lease.StatusActive) :
    leaseAuth AdminGroupName input w = (.returned (none, some
      (NewUnauthorized "Unable to authorize against non-active lease")), w1) := by
  rw [leaseAuth_of_resolved AdminGroupName input w w1 (some lease) hResolved]
  simp [withLease, checkLease, hStatus, hInactive]


/-- The calls of `assumeRole` are credential-related calls. -/
theorem assumeRole_log (input : leaseAuthInput σ ρ) (lease : lease.Lease)
    (acct : Account) (name : String) (w : World σ) :
    ∃ seg, (assumeRole input lease acct name w).2.calls = w.calls ++ seg
      ∧ ∀ c ∈ seg, c.isCredentialCall = true := by
  unfold assumeRole
  dsimp only
  split
  · exact ⟨[_], rfl, by simp [Call.isCredentialCall]⟩
  · split
    · exact ⟨[_, _], by simp only [List.append_assoc]; rfl, by simp [Call.isCredentialCall]⟩
    · split
      · exact ⟨[_, _, _], by simp only [List.append_assoc]; rfl, by simp [Call.isCredentialCall]⟩
      · split
        · exact ⟨[_, _, _], by simp only [List.append_assoc]; rfl, by simp [Call.isCredentialCall]⟩
        · split
          · exact ⟨[_, _, _, _], by simp only [List.append_assoc]; rfl, by simp [Call.isCredentialCall]⟩
          · exact ⟨[_, _, _, _], by simp only [List.append_assoc]; rfl, by simp [Call.isCredentialCall]⟩

/-- The calls of `lookupAccount` are credential-related calls. -/
theorem lookupAccount_log (input : leaseAuthInput σ ρ) (user : User) (lease : lease.Lease)
    (w : World σ) :
    ∃ seg, (lookupAccount input user lease w).2.calls = w.calls ++ seg
      ∧ ∀ c ∈ seg, c.isCredentialCall = true := by
  unfold lookupAccount
  split
  · exact ⟨[], by simp⟩
  · rename_i accountID _
    dsimp only
    split
    · split
      · exact ⟨[.AccountGet accountID], rfl, by simp [Call.isCredentialCall]⟩
      · exact ⟨[.AccountGet accountID], rfl, by simp [Call.isCredentialCall]⟩
    · split
      · exact ⟨[.AccountGet accountID], rfl, by simp [Call.isCredentialCall]⟩
      · rename_i acct _
        unfold vendCredentials
        split
        · exact ⟨[.AccountGet accountID], rfl, by simp [Call.isCredentialCall]⟩
        · rename_i name _
          obtain ⟨seg, h1, h2⟩ := assumeRole_log input lease acct name
            { state := (input.accountService.Get accountID w.state).2,
              calls := w.calls ++ [.AccountGet accountID] }
          refine ⟨Call.AccountGet accountID :: seg, ?_, ?_⟩
          · rw [h1]; simp
          · intro c hc
            rcases List.mem_cons.1 hc with rfl | hc
            · rfl
            · exact h2 c hc

/-- The calls of `withLease` are credential-related calls. -/
theorem withLease_log (AdminGroupName : String) (input : leaseAuthInput σ ρ) (user : User)
    (lease : Option lease.Lease) (w : World σ) :
    ∃ seg, (withLease AdminGroupName input user lease w).2.calls = w.calls ++ seg
      ∧ ∀ c ∈ seg, c.isCredentialCall = true := by
  unfold withLease
  split
  · exact ⟨[], by simp⟩
  · split
    · exact ⟨[], by simp⟩
    · exact ⟨[], by simp⟩
    · exact lookupAccount_log input user _ w


/-- C8: with an explicit lease ID, `leaseAuth` calls `Get` on it, returns a
`Get` error unchanged, otherwise goes on with the lease `Get` returned, and
never calls `List`; without a lease ID and with a non-empty username it
calls `List` with principal ID the username and status `Active`, returns a
`List` error unchanged, and otherwise goes on with the first element of the
returned list. -/
theorem leaseAuth_resolves_lease (AdminGroupName : String) (input : leaseAuthInput σ ρ)
    (w w0 : World σ) (user : User) (hUser : callGetUser input w = (user, w0)) :
    (∀ leaseID, input.leaseID = some leaseID →
      (∀ err, (input.leaseService.Get leaseID w0.state).1.2 = some err →
        leaseAuth AdminGroupName input w = (.returned (none, some err),
          { state := (input.leaseService.Get leaseID w0.state).2,
            calls := w0.calls ++ [.LeaseGet leaseID] }))
      ∧ ((input.leaseService.Get leaseID w0.state).1.2 = none →
        leaseAuth AdminGroupName input w = withLease AdminGroupName input user
          (input.leaseService.Get leaseID w0.state).1.1
          { state := (input.leaseService.Get leaseID w0.state).2,
            calls := w0.calls ++ [.LeaseGet leaseID] })
      ∧ (∀ c ∈ (leaseAuth AdminGroupName input w).2.calls.drop w.calls.length,
          ∀ query, c ≠ Call.LeaseList query))
    ∧ (input.leaseID = none → user.Username ≠ "" →
      (∀ err, (input.leaseService.List
            { PrincipalID := some user.Username, Status := some lease.StatusActive }
            w0.state).1.2 = some err →
        leaseAuth AdminGroupName input w = (.returned (none, some err),
          { state := (input.leaseService.List
              { PrincipalID := some user.Username, Status := some lease.StatusActive }
              w0.state).2,
            calls := w0.calls ++ [.LeaseList
              { PrincipalID := some user.Username, Status := some lease.StatusActive }] }))
      ∧ (∀ leaseList, (input.leaseService.List
            { PrincipalID := some user.Username, Status := some lease.StatusActive }
            w0.state).1 = (some leaseList, none) →
        leaseAuth AdminGroupName input w = withLease AdminGroupName input user
          leaseList.head?
          { state := (input.leaseService.List
              { PrincipalID := some user.Username, Status := some lease.StatusActive }
              w0.state).2,
            calls := w0.calls ++ [.LeaseList
              { PrincipalID := some user.Username, Status := some lease.StatusActive }] })) := by
  have hw0 : w0.calls = w.calls ++ [.GetUser] := by
    have := congrArg (fun p => p.2.calls) hUser
    simpa [callGetUser] using this.symm
  refine ⟨?_, ?_⟩
  · intro leaseID hID
    have hErr : ∀ err, (input.leaseService.Get leaseID w0.state).1.2 = some err →
        leaseAuth AdminGroupName input w = (.returned (none, some err),
          { state := (input.leaseService.Get leaseID w0.state).2,
            calls := w0.calls ++ [.LeaseGet leaseID] }) := by
      intro err h
      simp [leaseAuth, hUser, resolveLease, hID, h]
    have hOk : (input.leaseService.Get leaseID w0.state).1.2 = none →
        leaseAuth AdminGroupName input w = withLease AdminGroupName input user
          (input.leaseService.Get leaseID w0.state).1.1
          { state := (input.leaseService.Get leaseID w0.state).2,
            calls := w0.calls ++ [.LeaseGet leaseID] } := by
      intro h
      simp [leaseAuth, hUser, resolveLease, hID, h]
    refine ⟨hErr, hOk, ?_⟩
    intro c hc query hq
    subst hq
    cases h : (input.leaseService.Get leaseID w0.state).1.2 with
    | some err =>
      rw [hErr err h, hw0] at hc
      simp at hc
    | none =>
      obtain ⟨seg, h1, h2⟩ := withLease_log AdminGroupName input user
        (input.leaseService.Get leaseID w0.state).1.1
        { state := (input.leaseService.Get leaseID w0.state).2,
          calls := w0.calls ++ [.LeaseGet leaseID] }
      rw [hOk h, h1, hw0] at hc
      simp at hc
      have := h2 _ hc
      simp [Call.isCredentialCall] at this
  · intro hID hName
    refine ⟨?_, ?_⟩
    · intro err h
      simp [leaseAuth, hUser, resolveLease, hID, hName, h]
    · intro leaseList h
      have h1 := congrArg Prod.fst h
      have h2 := congrArg Prod.snd h
      simp only at h1 h2
      simp [leaseAuth, hUser, resolveLease, hID, hName, h1, h2]

/-- C9: `leaseAuth` returns a `NotFound` error whenever resolution ends with
no lease and no error; in particular when no lease ID is given and `List`
returns an empty list, and when no lease ID is given and the username is
empty, in which case the only call made is the user lookup. -/
theorem leaseAuth_not_found (AdminGroupName : String) (input : leaseAuthInput σ ρ)
    (w w0 : World σ) (user : User) (hUser : callGetUser input w = (user, w0)) :
    (∀ w1, resolveLease input user w0 = (.returned (none, none), w1) →
      leaseAuth AdminGroupName input w =
        (.returned (none, some (NewNotFound "lease for user" user.Username)), w1))
    ∧ (input.leaseID = none → user.Username ≠ "" →
      ∀ s', input.leaseService.List
          { PrincipalID := some user.Username, Status := some lease.StatusActive } w0.state
          = ((some [], none), s') →
        leaseAuth AdminGroupName input w =
          (.returned (none, some (NewNotFound "lease for user" user.Username)),
            { state := s', calls := w0.calls ++ [.LeaseList
              { PrincipalID := some user.Username, Status := some lease.StatusActive }] }))
    ∧ (input.leaseID = none → user.Username = "" →
      leaseAuth AdminGroupName input w =
          (.returned (none, some (NewNotFound "lease for user" user.Username)), w0)
        ∧ (leaseAuth AdminGroupName input w).2.calls = w.calls ++ [.GetUser]) := by
  have hw0 : w0.calls = w.calls ++ [.GetUser] := by
    have := congrArg (fun p => p.2.calls) hUser
    simpa [callGetUser] using this.symm
  refine ⟨?_, ?_, ?_⟩
  · intro w1 h
    simp [leaseAuth, hUser, h, withLease]
  · intro hID hName s' h
    simp [leaseAuth, hUser, resolveLease, hID, hName, h, withLease]
  · intro hID hName
    have : leaseAuth AdminGroupName input w =
        (.returned (none, some (NewNotFound "lease for user" user.Username)), w0) := by
      simp [leaseAuth, hUser, resolveLease, hID, hName, withLease]
    exact ⟨this, by rw [this, hw0]⟩

/-- The `IsStatusError` test of a `NotFound` error recognises exactly the
errors of HTTP status 404. -/
theorem isStatusError_notFound_iff (group name : String) (err : Error) :
    (NewNotFound group name).IsStatusError err = true ↔ err.HTTPCode = some 404 := by
  have h404 : (NewNotFound group name).HTTPCode = some 404 := rfl
  unfold Error.IsStatusError
  rw [h404]
  cases err.HTTPCode with
  | none => simp
  | some c =>
    simp only [beq_iff_eq, Option.some.injEq]
    exact eq_comm

/-- C10: for a resolved `Active` lease whose caller is an administrator or
the lease's principal, if the account lookup fails with a not-found error
(HTTP status 404, which is what the `IsStatusError` test of the code
recognises) then `leaseAuth` returns an `InternalServer` error wrapping it;
any other account-lookup error is returned unchanged. -/
theorem leaseAuth_account_lookup_error (AdminGroupName : String) (input : leaseAuthInput σ ρ)
    (w w1 : World σ) (lease : lease.Lease) (accountID : String) (err : Error)
    (hResolved : resolveLease input (callGetUser input w).1 (callGetUser input w).2
      = (.returned (some lease, none), w1))
    (hStatus : lease.Status = some Dce.lease.StatusActive)
    (hAllowed : (callGetUser input w).1.Role = AdminGroupName
      ∨ lease.PrincipalID = some (callGetUser input w).1.Username)
    (hAccount : lease.AccountID = some accountID)
    (hErr : (input.accountService.Get accountID w1.state).1.2 = some err) :
    (err.HTTPCode = some 404 →
      leaseAuth AdminGroupName input w = (.returned (none, some
        (NewInternalServer "Account record is missing for the requested lease" err)),
        { state := (input.accountService.Get accountID w1.state).2,
          calls := w1.calls ++ [.AccountGet accountID] }))
    ∧ (err.HTTPCode ≠ some 404 →
      leaseAuth AdminGroupName input w = (.returned (none, some err),
        { state := (input.accountService.Get accountID w1.state).2,
          calls := w1.calls ++ [.AccountGet accountID] }))
    ∧ ((NewNotFound "account" accountID).IsStatusError err = true ↔ err.HTTPCode = some 404) := by
  have hCheck : checkLease AdminGroupName (callGetUser input w).1 lease = .returned none := by
    rcases hAllowed with h | h
    · simp [checkLease, hStatus, h]
    · by_cases h1 : (callGetUser input w).1.Role = AdminGroupName
      · simp [checkLease, hStatus, h1]
      · simp [checkLease, hStatus, h, h1]
  rw [leaseAuth_of_resolved AdminGroupName input w w1 (some lease) hResolved]
  refine ⟨?_, ?_, isStatusError_notFound_iff _ _ _⟩
  · intro h
    have := (isStatusError_notFound_iff "account" accountID err).2 h
    simp [withLease, hCheck, lookupAccount, hAccount, hErr, this]
  · intro h
    have : (NewNotFound "account" accountID).IsStatusError err = false := by
      rw [Bool.eq_false_iff]
      exact fun hh => h ((isStatusError_notFound_iff "account" accountID err).1 hh)
    simp [withLease, hCheck, lookupAccount, hAccount, hErr, this]


/-- Witness of C4: `user2`, who is no administrator, asks for the lease of
`user1`. -/
theorem leaseAuth_login_allowed_iff_witness :
    leaseAuth "Admins" (sampleInput (some "l1") ⟨"user2", "Users"⟩) ⟨0, []⟩
      = (.returned (none, some (NewUnauthorized
          ("User " ++ (callGetUser (sampleInput (some "l1") ⟨"user2", "Users"⟩)
            ⟨0, []⟩).1.Username ++ " does not have access to lease " ++ "l1"))),
        ⟨2, [.GetUser, .LeaseGet "l1"]⟩) :=
  (leaseAuth_login_allowed_iff "Admins" (sampleInput (some "l1") ⟨"user2", "Users"⟩) ⟨0, []⟩
    ⟨2, [.GetUser, .LeaseGet "l1"]⟩ leaseL1 "user1" "l1" rfl rfl rfl rfl).2.2 (by decide)

/-- Witness of C5: an administrator asks for the inactive lease `old`. -/
theorem leaseAuth_inactive_unauthorized_witness :
    leaseAuth "Admins" (sampleInput (some "old") ⟨"root", "Admins"⟩) ⟨0, []⟩
      = (.returned (none, some
          (NewUnauthorized "Unable to authorize against non-active lease")),
        ⟨2, [.GetUser, .LeaseGet "old"]⟩) :=
  leaseAuth_inactive_unauthorized "Admins" (sampleInput (some "old") ⟨"root", "Admins"⟩)
    ⟨0, []⟩ ⟨2, [.GetUser, .LeaseGet "old"]⟩ leaseOld "Inactive" rfl rfl (by decide)

/-- Witness of C8: without a lease ID, `user1` gets the first lease that
`List` returns. -/
theorem leaseAuth_resolves_lease_witness :
    leaseAuth "Admins" (sampleInput none ⟨"user1", "Users"⟩) ⟨0, []⟩
      = withLease "Admins" (sampleInput none ⟨"user1", "Users"⟩) ⟨"user1", "Users"⟩
          [leaseL1].head?
          { state := (sampleLeases.List
              { PrincipalID := some "user1", Status := some lease.StatusActive } 1).2,
            calls := [.GetUser] ++ [.LeaseList
              { PrincipalID := some "user1", Status := some lease.StatusActive }] } :=
  ((leaseAuth_resolves_lease "Admins" (sampleInput none ⟨"user1", "Users"⟩) ⟨0, []⟩
    ⟨1, [.GetUser]⟩ ⟨"user1", "Users"⟩ rfl).2 rfl (by decide)).2 [leaseL1] rfl

/-- Witness of C9: without a lease ID and without a username, no lease is
looked for. -/
theorem leaseAuth_not_found_witness :
    leaseAuth "Admins" (sampleInput none ⟨"", "Users"⟩) ⟨0, []⟩
        = (.returned (none, some (NewNotFound "lease for user" "")), ⟨1, [.GetUser]⟩)
      ∧ (leaseAuth "Admins" (sampleInput none ⟨"", "Users"⟩) ⟨0, []⟩).2.calls
        = [] ++ [.GetUser] :=
  (leaseAuth_not_found "Admins" (sampleInput none ⟨"", "Users"⟩) ⟨0, []⟩ ⟨1, [.GetUser]⟩
    ⟨"", "Users"⟩ rfl).2.2 rfl rfl

/-- Witness of C10: an administrator asks for the lease `l9`, whose account
is missing. -/
theorem leaseAuth_account_lookup_error_witness :
    leaseAuth "Admins" (sampleInput (some "l9") ⟨"root", "Admins"⟩) ⟨0, []⟩
      = (.returned (none, some (NewInternalServer
          "Account record is missing for the requested lease" (.NotFound "account" "gone"))),
        { state := (sampleAccounts.Get "gone" 2).2,
          calls := [.GetUser, .LeaseGet "l9"] ++ [.AccountGet "gone"] }) :=
  (leaseAuth_account_lookup_error "Admins" (sampleInput (some "l9") ⟨"root", "Admins"⟩)
    ⟨0, []⟩ ⟨2, [.GetUser, .LeaseGet "l9"]⟩ leaseL9 "gone" (.NotFound "account" "gone")
    rfl rfl (Or.inl rfl) rfl rfl).1 rfl

end LeaseAuth
end Dce

/-! ## Theorems: classification of change records -/

namespace Dce
namespace EndOverBudgetLease
open lease (StatusReason Leases)
variable {σ : Type}

/-- C18, evaluated: an INSERT record whose sort key does not begin with the
lease-summary key pattern, and only holds it further on, is still handled as
a lease summary, and its lease is ended. -/
theorem handleRecord_matches_inside_sort_key :
    (UsageLeaseSkSummaryPrefix.data.isPrefixOf leaseKeyInside.SK.data = false
      ∧ UsagePrincipalSkPrefix.data.isPrefixOf leaseKeyInside.SK.data = false)
    ∧ MatchString UsageLeaseSkSummaryPrefix leaseKeyInside.SK = true
    ∧ handleRecord sampleService defaultSettings ⟨leaseKeyInside⟩ ⟨0, []⟩
      = (.returned none, ⟨1, [Call.Delete "l1" .OverBudget none]⟩) :=
  ⟨by decide, by decide, rfl⟩

/-- C19: a record whose event name is neither INSERT nor MODIFY, whatever its
sort key and its image, makes `handleRecord` return nil and leaves the world,
hence the log of lease-service calls, as it was. -/
theorem handleRecord_ignores_other_events (Services : leaseiface.Servicer σ)
    (Settings : lambdaConfig) (record : DynamoDBEventRecord) (w : World σ)
    (hInsert : record.EventName ≠ "INSERT") (hModify : record.EventName ≠ "MODIFY") :
    handleRecord Services Settings ⟨record⟩ w = (.returned none, w) := by
  simp [handleRecord, hInsert, hModify]

/-- Witness of C19: a REMOVE record of a lease summary over its budget. -/
theorem handleRecord_ignores_other_events_witness :
    handleRecord sampleService defaultSettings ⟨leaseRemoved⟩ ⟨0, []⟩
      = (.returned none, ⟨0, []⟩) :=
  handleRecord_ignores_other_events sampleService defaultSettings leaseRemoved ⟨0, []⟩
    (by decide) (by decide)

end EndOverBudgetLease
end Dce

/-! ## Theorems: the event publisher -/

namespace Dce
namespace event
variable {σ ι : Type}

/-- What the loop of `publish` appends to the log, from position `k` on. -/
theorem publishFrom_log (i : Payload ι) (p : List (Publisher σ ι)) :
    ∀ (k : Nat) (w : World σ ι), ∃ entries : List (Published ι),
      (publishFrom k i p w).2.published = w.published ++ entries
      ∧ entries.map (fun x => x.sink) = List.range' k entries.length
      ∧ (∀ x ∈ entries, x.payload = i)
      ∧ entries.length ≤ p.length
      ∧ (∀ err, (publishFrom k i p w).1 = some err →
          ∃ (before : List (Published ι)) (last : Published ι),
            entries = before ++ [last] ∧ last.err = some err
            ∧ ∀ x ∈ before, x.err = none)
      ∧ ((publishFrom k i p w).1 = none →
          entries.length = p.length ∧ ∀ x ∈ entries, x.err = none) := by
  induction p with
  | nil =>
    intro k w
    exact ⟨[], by simp [publishFrom]⟩
  | cons n rest ih =>
    intro k w
    cases hr : (n.Publish i w.state).1 with
    | some err =>
      refine ⟨[⟨k, i, some err⟩], ?_, ?_, ?_, ?_, ?_, ?_⟩
      · simp [publishFrom, hr]
      · simp [List.range']
      · simp
      · simp
      · intro err' h
        refine ⟨[], ⟨k, i, some err⟩, rfl, ?_, by simp⟩
        simpa [publishFrom, hr] using h
      · intro h
        simp [publishFrom, hr] at h
    | none =>
      obtain ⟨entries, h1, h2, h3, h4, h5, h6⟩ := ih (k + 1)
        { state := (n.Publish i w.state).2, published := w.published ++ [⟨k, i, none⟩] }
      have hrun : publishFrom k i (n :: rest) w = publishFrom (k + 1) i rest
          { state := (n.Publish i w.state).2, published := w.published ++ [⟨k, i, none⟩] } := by
        simp [publishFrom, hr]
      rw [hrun]
      refine ⟨⟨k, i, none⟩ :: entries, ?_, ?_, ?_, ?_, ?_, ?_⟩
      · rw [h1]; simp
      · simp [List.range', h2]
      · intro x hx
        rcases List.mem_cons.1 hx with rfl | hx
        · rfl
        · exact h3 x hx
      · simpa using h4
      · intro err h
        obtain ⟨before, last, e1, e2, e3⟩ := h5 err h
        refine ⟨⟨k, i, none⟩ :: before, last, by simp [e1], e2, ?_⟩
        intro x hx
        rcases List.mem_cons.1 hx with rfl | hx
        · rfl
        · exact e3 x hx
      · intro h
        obtain ⟨e1, e2⟩ := h6 h
        refine ⟨by simp [e1], ?_⟩
        intro x hx
        rcases List.mem_cons.1 hx with rfl | hx
        · rfl
        · exact e2 x hx

/-- The log of `publish`: for every payload and every list of sinks, it holds
one entry per sink invoked, for the
sinks at positions 0, 1, 2, ... in that order, each once and with the same
payload; when it returns an error, that error is the one returned by the
last sink invoked, every sink before it returned nil, and no later sink is
invoked; when it returns nil, every sink of the list was invoked and
returned nil. -/
theorem publish_fans_out_in_order (e : Service σ ι) (i : Payload ι)
    (p : List (Publisher σ ι)) (w : World σ ι) :
    ∃ entries : List (Published ι),
      (e.publish i p w).2.published = w.published ++ entries
      ∧ entries.map (fun x => x.sink) = List.range entries.length
      ∧ (∀ x ∈ entries, x.payload = i)
      ∧ entries.length ≤ p.length
      ∧ (∀ err, (e.publish i p w).1 = some err →
          ∃ (before : List (Published ι)) (last : Published ι),
            entries = before ++ [last] ∧ last.err = some err
            ∧ ∀ x ∈ before, x.err = none)
      ∧ ((e.publish i p w).1 = none →
          entries.length = p.length ∧ ∀ x ∈ entries, x.err = none) := by
  obtain ⟨entries, h1, h2, h⟩ := publishFrom_log i p 0 w
  refine ⟨entries, h1, ?_, h⟩
  rw [h2, List.range_eq_range']

/-- C20 fails as stated: with every endpoint left unset, the service that
`NewService` builds still has a sink for account creation, and publishing an
account creation invokes it. -/
theorem NewService_unset_endpoint_keeps_sink :
    ∃ e : Service Nat Unit,
      NewService sampleNewSnsEvent sampleNewSqsEvent unsetInput = .ok e
      ∧ e.accountCreate.length = 1
      ∧ ((e.AccountCreate none ⟨0, []⟩).2.published).length = 1
      ∧ (e.AccountCreate none ⟨0, []⟩).2.state = 1 :=
  ⟨_, rfl, rfl, rfl, rfl⟩

/-- The sink lists of `NewService`: whether an endpoint is set or left unset,
the service that
`NewService` builds has, for each of account creation, update, deletion and
reset and lease creation, a sink list of exactly the one publisher that the
constructor returned for that category's endpoint; and publishing to a list
of one publisher invokes that publisher once, with the payload, and returns
its error. -/
theorem NewService_one_sink_per_category {sns sqs : Type}
    (NewSnsEvent : sns → String → Publisher σ ι × Option Error)
    (NewSqsEvent : sqs → String → Publisher σ ι × Option Error)
    (input : NewServiceInput sns sqs) (e : Service σ ι)
    (hBuilt : NewService NewSnsEvent NewSqsEvent input = .ok e) :
    e.accountCreate = [(NewSnsEvent input.SnsClient input.AccountCreatedTopicArn).1]
    ∧ e.accountUpdate = [(NewSnsEvent input.SnsClient input.AccountUpdatedTopicArn).1]
    ∧ e.accountDelete = [(NewSnsEvent input.SnsClient input.AccountDeletedTopicArn).1]
    ∧ e.accountReset = [(NewSqsEvent input.SqsClient input.AccountResetQueueURL).1]
    ∧ e.leaseCreate = [(NewSnsEvent input.SnsClient input.LeaseAddedTopicArn).1]
    ∧ ∀ (i : Payload ι) (n : Publisher σ ι) (w : World σ ι),
        e.publish i [n] w =
          ((n.Publish i w.state).1,
            { state := (n.Publish i w.state).2,
              published := w.published ++ [⟨0, i, (n.Publish i w.state).1⟩] }) := by
  have hOne : ∀ (i : Payload ι) (n : Publisher σ ι) (w : World σ ι),
      e.publish i [n] w =
        ((n.Publish i w.state).1,
          { state := (n.Publish i w.state).2,
            published := w.published ++ [⟨0, i, (n.Publish i w.state).1⟩] }) := by
    intro i n w
    simp only [Service.publish, publishFrom]
    split <;> simp_all
  unfold NewService at hBuilt
  dsimp only at hBuilt
  split at hBuilt
  · cases hBuilt
  · split at hBuilt
    · cases hBuilt
    · split at hBuilt
      · cases hBuilt
      · split at hBuilt
        · cases hBuilt
        · split at hBuilt
          · cases hBuilt
          · injection hBuilt with hBuilt
            subst hBuilt
            exact ⟨rfl, rfl, rfl, rfl, rfl, hOne⟩

/-- Example: the sample constructors on the input with every
endpoint left unset. -/
theorem NewService_one_sink_per_category_witness :
    NewService sampleNewSnsEvent sampleNewSqsEvent unsetInput = .ok unsetService
    ∧ unsetService.accountCreate = [(sampleNewSnsEvent unsetInput.SnsClient
        unsetInput.AccountCreatedTopicArn).1] :=
  ⟨rfl, (NewService_one_sink_per_category sampleNewSnsEvent sampleNewSqsEvent
    unsetInput unsetService rfl).1⟩

end event
end Dce

/-! ## Theorems: the pool-metrics lambda -/

namespace Dce
namespace AccountPoolMetrics
open account (Account)
variable {σ : Type}

/-- The table of `init` sends each of the five statuses to one of the five
per-status counters, never to the total. -/
theorem statusLookupTable_known (s : account.Status) (hKnown : s ∈ account.allStatuses) :
    statusLookupTable s ∈ statusCounters ∧ statusLookupTable s ≠ TotalAccountsCount := by
  simp only [account.allStatuses, List.mem_cons, List.mem_singleton, List.not_mem_nil,
    or_false] at hKnown
  rcases hKnown with rfl | rfl | rfl | rfl | rfl <;> exact ⟨by decide, by decide⟩

/-- The table of `init` sends different statuses among the five to different
counters. -/
theorem statusLookupTable_injective (s t : account.Status) (hs : s ∈ account.allStatuses)
    (ht : t ∈ account.allStatuses) (hne : s ≠ t) :
    statusLookupTable s ≠ statusLookupTable t := by
  simp only [account.allStatuses, List.mem_cons, List.mem_singleton, List.not_mem_nil,
    or_false] at hs ht
  rcases hs with rfl | rfl | rfl | rfl | rfl <;>
    rcases ht with rfl | rfl | rfl | rfl | rfl <;>
    first
      | exact absurd rfl hne
      | decide

/-- Assigning a key that the map does not hold appends an entry. -/
theorem Increments.set_new (m : Increments) (key : AccountStatusCount) (incr : Int)
    (h : ∀ e ∈ m, e.1 ≠ key) : m.set key incr = m ++ [(key, incr)] := by
  have : m.any (fun e => e.1 == key) = false := by
    rw [List.any_eq_false]
    intro e he
    simpa using h e he
  simp [Increments.set, this]

/-- The increments of an added account. -/
theorem addAccount_eq (statusLookup : account.Status → AccountStatusCount) (a : Account)
    (p : account.StatusPtr) (hStatus : a.Status = some p)
    (hne : statusLookup p.val ≠ TotalAccountsCount) :
    addAccount statusLookup (some a) []
      = .returned [(TotalAccountsCount, 1), (statusLookup p.val, 1)] := by
  have h1 : Increments.set [] TotalAccountsCount 1 = [(TotalAccountsCount, 1)] := rfl
  have h2 : Increments.set [(TotalAccountsCount, 1)] (statusLookup p.val) 1
      = [(TotalAccountsCount, 1), (statusLookup p.val, 1)] := by
    rw [Increments.set_new]
    · rfl
    · intro e he
      simp only [List.mem_singleton] at he
      subst he
      exact fun h => hne h.symm
  simp [addAccount, statusOf, hStatus, h1, h2]

/-- The increments of a removed account. -/
theorem removeAccount_eq (statusLookup : account.Status → AccountStatusCount) (a : Account)
    (p : account.StatusPtr) (hStatus : a.Status = some p)
    (hne : statusLookup p.val ≠ TotalAccountsCount) :
    removeAccount statusLookup (some a) []
      = .returned [(TotalAccountsCount, -1), (statusLookup p.val, -1)] := by
  have h1 : Increments.set [] TotalAccountsCount (-1) = [(TotalAccountsCount, -1)] := rfl
  have h2 : Increments.set [(TotalAccountsCount, -1)] (statusLookup p.val) (-1)
      = [(TotalAccountsCount, -1), (statusLookup p.val, -1)] := by
    rw [Increments.set_new]
    · rfl
    · intro e he
      simp only [List.mem_singleton] at he
      subst he
      exact fun h => hne h.symm
  simp [removeAccount, statusOf, hStatus, h1, h2]

/-- `Handler` persists the increments it computed. -/
theorem Handler_of_increments (g : Globals) (dataSvc : DataSvc σ)
    (rangeOrder : Increments → Increments) (snsEvent : SNSEvent) (w : World σ)
    (increments : Increments) (h : incrementsOf g snsEvent = .returned (.ok increments)) :
    Handler g dataSvc rangeOrder snsEvent w =
      (.returned (persist dataSvc (rangeOrder increments) w).1,
        (persist dataSvc (rangeOrder increments) w).2) := by
  simp [Handler, h]

/-- With the variables as `init` was meant to leave them, which the program as
written never has (see `packageGlobals`): for an event from the account-created topic whose message decodes
to an account with one of the five statuses, `s`, and with `statusLookup`
holding the table of `init`, the increments of `Handler` are exactly +1 for
`TotalAccountsCount` and +1 for the counter of `s`, which is one of the five
per-status counters (`ReadyAccountsCount` for `Ready`); these are what
`Handler` persists. -/
theorem Handler_created_increments (g : Globals) (snsEvent : SNSEvent)
    (first : SNSEventRecord) (rest : List SNSEventRecord) (j : AccountJSON)
    (s : account.Status)
    (hRecords : snsEvent.Records = first :: rest)
    (hTopic : first.SNS.TopicArn = g.Config.AccountCreatedTopicArn)
    (hDecode : first.SNS.asAccount = .ok j)
    (hStatus : j.accountStatus = some s)
    (hKnown : s ∈ account.allStatuses)
    (hLookup : g.statusLookup = statusLookupTable) :
    incrementsOf g snsEvent
        = .returned (.ok [(TotalAccountsCount, 1), (statusLookupTable s, 1)])
    ∧ statusLookupTable s ∈ statusCounters
    ∧ statusLookupTable s ≠ TotalAccountsCount
    ∧ statusLookupTable account.StatusReady = ReadyAccountsCount
    ∧ ∀ (dataSvc : DataSvc σ) (rangeOrder : Increments → Increments) (w : World σ),
        Handler g dataSvc rangeOrder snsEvent w =
          (.returned (persist dataSvc
              (rangeOrder [(TotalAccountsCount, 1), (statusLookupTable s, 1)]) w).1,
            (persist dataSvc
              (rangeOrder [(TotalAccountsCount, 1), (statusLookupTable s, 1)]) w).2) := by
  obtain ⟨hk1, hk2⟩ := statusLookupTable_known s hKnown
  have hadd := addAccount_eq statusLookupTable (allocAccount 0 j) ⟨0, s⟩
    (by simp [allocAccount, hStatus]) hk2
  have hinc : incrementsOf g snsEvent
      = .returned (.ok [(TotalAccountsCount, 1), (statusLookupTable s, 1)]) := by
    simp only at hadd
    simp [incrementsOf, hRecords, accountsOf, hTopic, unmarshalAccount, hDecode,
      computeIncrements, hLookup, hadd, didStatusChange]
  exact ⟨hinc, hk1, hk2, rfl, fun dataSvc rangeOrder w =>
    Handler_of_increments g dataSvc rangeOrder snsEvent w _ hinc⟩

/-- Example, with the variables as `init` was meant to leave them: an account
created in status `Ready`. -/
theorem Handler_created_increments_witness :
    incrementsOf sampleGlobals (createdEvent "Ready")
      = .returned (.ok [(TotalAccountsCount, 1), (statusLookupTable "Ready", 1)]) :=
  (Handler_created_increments (σ := Counters) sampleGlobals (createdEvent "Ready")
    ⟨⟨"arn:created", "created", .ok ⟨some "Ready"⟩, .ok {}⟩⟩ [] ⟨some "Ready"⟩ "Ready"
    rfl rfl rfl rfl (by decide) rfl).1

/-- With the variables as `init` was meant to leave them, which the program as
written never has (see `packageGlobals`): for an event from the account-deleted topic whose message decodes
to an account with one of the five statuses, `s`, and with `statusLookup`
holding the table of `init`, the increments of `Handler` are exactly -1 for
`TotalAccountsCount` and -1 for the counter of `s`, which is one of the five
per-status counters; these are what `Handler` persists. -/
theorem Handler_deleted_increments (g : Globals) (snsEvent : SNSEvent)
    (first : SNSEventRecord) (rest : List SNSEventRecord) (j : AccountJSON)
    (s : account.Status)
    (hRecords : snsEvent.Records = first :: rest)
    (hTopic : first.SNS.TopicArn = g.Config.AccountDeletedTopicArn)
    (hNotCreated : g.Config.AccountDeletedTopicArn ≠ g.Config.AccountCreatedTopicArn)
    (hDecode : first.SNS.asAccount = .ok j)
    (hStatus : j.accountStatus = some s)
    (hKnown : s ∈ account.allStatuses)
    (hLookup : g.statusLookup = statusLookupTable) :
    incrementsOf g snsEvent
        = .returned (.ok [(TotalAccountsCount, -1), (statusLookupTable s, -1)])
    ∧ statusLookupTable s ∈ statusCounters
    ∧ statusLookupTable s ≠ TotalAccountsCount
    ∧ ∀ (dataSvc : DataSvc σ) (rangeOrder : Increments → Increments) (w : World σ),
        Handler g dataSvc rangeOrder snsEvent w =
          (.returned (persist dataSvc
              (rangeOrder [(TotalAccountsCount, -1), (statusLookupTable s, -1)]) w).1,
            (persist dataSvc
              (rangeOrder [(TotalAccountsCount, -1), (statusLookupTable s, -1)]) w).2) := by
  obtain ⟨hk1, hk2⟩ := statusLookupTable_known s hKnown
  have hrem := removeAccount_eq statusLookupTable (allocAccount 0 j) ⟨0, s⟩
    (by simp [allocAccount, hStatus]) hk2
  have hinc : incrementsOf g snsEvent
      = .returned (.ok [(TotalAccountsCount, -1), (statusLookupTable s, -1)]) := by
    simp only at hrem
    simp [incrementsOf, hRecords, accountsOf, hTopic, hNotCreated, unmarshalAccount, hDecode,
      computeIncrements, hLookup, hrem, didStatusChange]
  exact ⟨hinc, hk1, hk2, fun dataSvc rangeOrder w =>
    Handler_of_increments g dataSvc rangeOrder snsEvent w _ hinc⟩

/-- Example, with the variables as `init` was meant to leave them: an account
deleted in status `Leased`. -/
theorem Handler_deleted_increments_witness :
    incrementsOf sampleGlobals (deletedEvent "Leased")
      = .returned (.ok [(TotalAccountsCount, -1), (statusLookupTable "Leased", -1)]) :=
  (Handler_deleted_increments (σ := Counters) sampleGlobals (deletedEvent "Leased")
    ⟨⟨"arn:deleted", "deleted", .ok ⟨some "Leased"⟩, .ok {}⟩⟩ [] ⟨some "Leased"⟩ "Leased"
    rfl rfl (by decide) rfl rfl (by decide) rfl).1

/-- With the variables as `init` was meant to leave them, which the program as
written never has (see `packageGlobals`): for an event from the account-updated topic whose message decodes
to an old and a new account with different statuses among the five, and with
`statusLookup` holding the table of `init`, the increments of `Handler` are
exactly -1 for the counter of the old status and +1 for the counter of the
new status, two different per-status counters; `TotalAccountsCount` is not
among them; these are what `Handler` persists. -/
theorem Handler_status_change_increments (g : Globals) (snsEvent : SNSEvent)
    (first : SNSEventRecord) (rest : List SNSEventRecord) (j : AccountUpdateJSON)
    (old new : account.Status)
    (hRecords : snsEvent.Records = first :: rest)
    (hTopic : first.SNS.TopicArn = g.Config.AccountUpdatedTopicArn)
    (hNotCreated : g.Config.AccountUpdatedTopicArn ≠ g.Config.AccountCreatedTopicArn)
    (hNotDeleted : g.Config.AccountUpdatedTopicArn ≠ g.Config.AccountDeletedTopicArn)
    (hDecode : first.SNS.asAccountUpdate = .ok j)
    (hOld : j.oldAccount = some ⟨some old⟩)
    (hNew : j.newAccount = some ⟨some new⟩)
    (hOldKnown : old ∈ account.allStatuses)
    (hNewKnown : new ∈ account.allStatuses)
    (hDiffer : old ≠ new)
    (hLookup : g.statusLookup = statusLookupTable) :
    incrementsOf g snsEvent
        = .returned (.ok [(statusLookupTable old, -1), (statusLookupTable new, 1)])
    ∧ statusLookupTable old ≠ statusLookupTable new
    ∧ (statusLookupTable old ∈ statusCounters ∧ statusLookupTable new ∈ statusCounters)
    ∧ (statusLookupTable old ≠ TotalAccountsCount
        ∧ statusLookupTable new ≠ TotalAccountsCount)
    ∧ ∀ (dataSvc : DataSvc σ) (rangeOrder : Increments → Increments) (w : World σ),
        Handler g dataSvc rangeOrder snsEvent w =
          (.returned (persist dataSvc
              (rangeOrder [(statusLookupTable old, -1), (statusLookupTable new, 1)]) w).1,
            (persist dataSvc
              (rangeOrder [(statusLookupTable old, -1), (statusLookupTable new, 1)]) w).2) := by
  obtain ⟨ho1, ho2⟩ := statusLookupTable_known old hOldKnown
  obtain ⟨hn1, hn2⟩ := statusLookupTable_known new hNewKnown
  have hinj := statusLookupTable_injective old new hOldKnown hNewKnown hDiffer
  have h1 : Increments.set [] (statusLookupTable old) (-1) = [(statusLookupTable old, -1)] :=
    rfl
  have h2 : Increments.set [(statusLookupTable old, -1)] (statusLookupTable new) 1
      = [(statusLookupTable old, -1), (statusLookupTable new, 1)] := by
    rw [Increments.set_new]
    · rfl
    · intro e he
      simp only [List.mem_singleton] at he
      subst he
      exact hinj
  have hinc : incrementsOf g snsEvent
      = .returned (.ok [(statusLookupTable old, -1), (statusLookupTable new, 1)]) := by
    simp [incrementsOf, hRecords, accountsOf, hTopic, hNotCreated, hNotDeleted,
      unmarshalAccountUpdate, hDecode, hOld, hNew, allocAccount, computeIncrements, hLookup,
      didStatusChange, changeStatus, statusOf, h1, h2]
  exact ⟨hinc, hinj, ⟨ho1, hn1⟩, ⟨ho2, hn2⟩, fun dataSvc rangeOrder w =>
    Handler_of_increments g dataSvc rangeOrder snsEvent w _ hinc⟩

/-- Example, with the variables as `init` was meant to leave them: an account
that goes from `Ready` to `Leased`. -/
theorem Handler_status_change_increments_witness :
    incrementsOf sampleGlobals (updatedEvent "Ready" "Leased")
      = .returned (.ok [(statusLookupTable "Ready", -1), (statusLookupTable "Leased", 1)]) :=
  (Handler_status_change_increments (σ := Counters) sampleGlobals
    (updatedEvent "Ready" "Leased")
    ⟨⟨"arn:updated", "updated", .ok {}, .ok ⟨some ⟨some "Ready"⟩, some ⟨some "Leased"⟩⟩⟩⟩ []
    ⟨some ⟨some "Ready"⟩, some ⟨some "Leased"⟩⟩ "Ready" "Leased"
    rfl rfl (by decide) (by decide) rfl rfl rfl (by decide) (by decide) (by decide) rfl).1

/-- With the variables as `init` was meant to leave them, which the program as
written never has (see `packageGlobals`): for an update event whose old and new account both have
status `Ready`, with three distinct topics and the table of `init` in place,
`Handler` finds the two `Status` pointers different, computes the increment
+1 for `ReadyAccountsCount`, and adjusts that counter. -/
theorem Handler_same_status_update_adjusts :
    didStatusChange (some (allocAccount 1 ⟨some "Ready"⟩)) (some (allocAccount 2 ⟨some "Ready"⟩))
      = true
    ∧ incrementsOf sampleGlobals (updatedEvent "Ready" "Ready")
      = .returned (.ok [(ReadyAccountsCount, 1)])
    ∧ Handler sampleGlobals counterStore id (updatedEvent "Ready" "Ready")
        ⟨zeroCounters, []⟩
      = (.returned none,
          ⟨(counterStore.IncrementAccountsCount ReadyAccountsCount 1 zeroCounters).2,
            [⟨ReadyAccountsCount, 1, none⟩]⟩)
    ∧ (Handler sampleGlobals counterStore id (updatedEvent "Ready" "Ready")
        ⟨zeroCounters, []⟩).2.state ReadyAccountsCount = 1 :=
  ⟨rfl, rfl, rfl, rfl⟩

/-- With the variables as `init` was meant to leave them, which the program as
written never has (see `packageGlobals`): from counters that are all zero, after `Handler` has
applied the creation of a `Ready` account and then an update that leaves it
`Ready`, both with success, the five per-status counters sum to 2 while
`TotalAccountsCount` is 1; for the update alone, the per-status increments
sum to 1 and there is no increment of `TotalAccountsCount`. -/
theorem applyEvents_same_status_update_breaks_sum :
    (applyEvents sampleGlobals counterStore id
        [createdEvent "Ready", updatedEvent "Ready" "Ready"] ⟨zeroCounters, []⟩).1
      = [.returned none, .returned none]
    ∧ statusSum (applyEvents sampleGlobals counterStore id
        [createdEvent "Ready", updatedEvent "Ready" "Ready"] ⟨zeroCounters, []⟩).2.state = 2
    ∧ (applyEvents sampleGlobals counterStore id
        [createdEvent "Ready", updatedEvent "Ready" "Ready"] ⟨zeroCounters, []⟩).2.state
          TotalAccountsCount = 1
    ∧ incrementsOf sampleGlobals (updatedEvent "Ready" "Ready")
      = .returned (.ok [(ReadyAccountsCount, 1)]) :=
  ⟨rfl, rfl, rfl, rfl⟩

/-- The table of `init` never yields the total counter. -/
theorem statusLookupTable_ne_total (s : account.Status) :
    statusLookupTable s ≠ TotalAccountsCount := by
  unfold statusLookupTable
  split_ifs <;> decide

/-- Assigning another key leaves the increment held for a counter as it was. -/
theorem incrFor_set_of_ne (key other : AccountStatusCount) (incr : Int) (m : Increments)
    (hne : other ≠ key) : incrFor key (m.set other incr) = incrFor key m := by
  have hb : (other == key) = false := by simpa using hne
  have hmap : ∀ l : Increments,
      (l.map fun e => if e.1 == other then (other, incr) else e).filter (fun e => e.1 == key)
        = l.filter (fun e => e.1 == key) := by
    intro l
    induction l with
    | nil => rfl
    | cons e rest ih =>
      by_cases he : e.1 = other
      · have h1 : (e.1 == key) = false := by rw [he]; exact hb
        simp only [List.map_cons, he, beq_self_eq_true, if_true, List.filter_cons, hb, h1]
        simpa [he] using ih
      · have he' : (e.1 == other) = false := by simpa using he
        simp only [List.map_cons, he', List.filter_cons]
        rw [ih]
        simp
  unfold Increments.set
  split
  · unfold incrFor
    rw [hmap]
  · simp [incrFor, List.filter_append, hb]

/-- The counter store never fails, and adds to each counter the increments
that the entries hold for it. -/
theorem persist_counterStore (entries : List (AccountStatusCount × Int)) :
    ∀ (w : World Counters) (key : AccountStatusCount),
      (persist counterStore entries w).1 = none
      ∧ (persist counterStore entries w).2.state key = w.state key + incrFor key entries := by
  induction entries with
  | nil => intro w key; simp [persist, incrFor]
  | cons e rest ih =>
    intro w key
    obtain ⟨k, v⟩ := e
    have hstep : persist counterStore ((k, v) :: rest) w = persist counterStore rest
        { state := fun x => if x = k then w.state x + v else w.state x,
          calls := w.calls ++ [⟨k, v, none⟩] } := by
      simp [persist, counterStore]
    rw [hstep]
    obtain ⟨h1, h2⟩ := ih
      { state := fun x => if x = k then w.state x + v else w.state x,
        calls := w.calls ++ [⟨k, v, none⟩] } key
    refine ⟨h1, ?_⟩
    rw [h2]
    by_cases hk : key = k
    · subst hk
      simp [incrFor, List.filter]
      ring
    · have hk' : (k == key) = false := by simpa using fun h : k = key => hk h.symm
      simp [incrFor, List.filter, hk, hk']

/-- The increment held for a counter does not depend on the order of the
entries. -/
theorem incrFor_perm (key : AccountStatusCount) {a b : List (AccountStatusCount × Int)}
    (h : a.Perm b) : incrFor key a = incrFor key b :=
  ((h.filter _).map _).sum_eq

/-- What an event adds to `TotalAccountsCount`: +1 from the account-created
topic, -1 from the account-deleted topic, nothing from the account-updated
topic when both accounts are there. -/
theorem incrementsOf_total (g : Globals) (snsEvent : SNSEvent) (increments : Increments)
    (hLookup : g.statusLookup = statusLookupTable)
    (hDeleted : g.Config.AccountDeletedTopicArn ≠ g.Config.AccountCreatedTopicArn)
    (hBoth : topicOf snsEvent = some g.Config.AccountUpdatedTopicArn →
      carriesBothAccounts snsEvent = true)
    (h : incrementsOf g snsEvent = .returned (.ok increments)) :
    incrFor TotalAccountsCount increments =
      if topicOf snsEvent = some g.Config.AccountCreatedTopicArn then 1
      else if topicOf snsEvent = some g.Config.AccountDeletedTopicArn then -1
      else 0 := by
  cases hR : snsEvent.Records with
  | nil => simp [incrementsOf, hR] at h
  | cons first rest =>
    have hTopicOf : topicOf snsEvent = some first.SNS.TopicArn := by
      simp [topicOf, hR]
    rw [hTopicOf]
    simp only [Option.some.injEq]
    have hset1 : ∀ (s : account.Status) (v w : Int),
        incrFor TotalAccountsCount
          ((Increments.set [] TotalAccountsCount v).set (statusLookupTable s) w) = v := by
      intro s v w
      rw [incrFor_set_of_ne _ _ _ _ (statusLookupTable_ne_total s)]
      simp [Increments.set, incrFor, List.filter]
    have hset2 : ∀ (s t : account.Status) (v w : Int),
        incrFor TotalAccountsCount
          ((Increments.set [] (statusLookupTable s) v).set (statusLookupTable t) w) = 0 := by
      intro s t v w
      rw [incrFor_set_of_ne _ _ _ _ (statusLookupTable_ne_total t),
        incrFor_set_of_ne _ _ _ _ (statusLookupTable_ne_total s)]
      rfl
    by_cases hC : first.SNS.TopicArn = g.Config.AccountCreatedTopicArn
    · rw [if_pos hC]
      cases hD : first.SNS.asAccount with
      | error e => simp [incrementsOf, hR, accountsOf, hC, unmarshalAccount, hD] at h
      | ok j =>
        cases hS : j.accountStatus with
        | none =>
          simp [incrementsOf, hR, accountsOf, hC, unmarshalAccount, hD, computeIncrements,
            addAccount, statusOf, allocAccount, hS] at h
        | some s =>
          simp [incrementsOf, hR, accountsOf, hC, unmarshalAccount, hD, computeIncrements,
            addAccount, statusOf, allocAccount, hS, didStatusChange, hLookup] at h
          rw [← h]
          exact hset1 s 1 1
    · rw [if_neg hC]
      by_cases hDel : first.SNS.TopicArn = g.Config.AccountDeletedTopicArn
      · rw [if_pos hDel]
        cases hD : first.SNS.asAccount with
        | error e => simp [incrementsOf, hR, accountsOf, hC, hDel, unmarshalAccount, hD] at h
        | ok j =>
          cases hS : j.accountStatus with
          | none =>
            simp [incrementsOf, hR, accountsOf, hC, hDel, hDeleted, unmarshalAccount, hD,
              computeIncrements, removeAccount, statusOf, allocAccount, hS] at h
          | some s =>
            simp [incrementsOf, hR, accountsOf, hC, hDel, hDeleted, unmarshalAccount, hD,
              computeIncrements, removeAccount, statusOf, allocAccount, hS, didStatusChange,
              hLookup] at h
            rw [← h]
            exact hset1 s (-1) (-1)
      · rw [if_neg hDel]
        by_cases hU : first.SNS.TopicArn = g.Config.AccountUpdatedTopicArn
        · have hC' : ¬ g.Config.AccountUpdatedTopicArn = g.Config.AccountCreatedTopicArn :=
            fun e => hC (hU.trans e)
          have hDel' : ¬ g.Config.AccountUpdatedTopicArn = g.Config.AccountDeletedTopicArn :=
            fun e => hDel (hU.trans e)
          cases hD : first.SNS.asAccountUpdate with
          | error e =>
            simp [incrementsOf, hR, accountsOf, hU, hC', hDel', unmarshalAccountUpdate, hD] at h
          | ok j =>
            have hboth := hBoth (by rw [hTopicOf, hU])
            simp only [carriesBothAccounts, hR, hD, Bool.and_eq_true] at hboth
            obtain ⟨hOld, hNew⟩ := hboth
            obtain ⟨jo, hjo⟩ := Option.isSome_iff_exists.1 hOld
            obtain ⟨jn, hjn⟩ := Option.isSome_iff_exists.1 hNew
            cases hso : jo.accountStatus with
            | none =>
              cases hsn : jn.accountStatus with
              | none =>
                simp [incrementsOf, hR, accountsOf, hU, hC', hDel', unmarshalAccountUpdate, hD,
                  hjo, hjn, computeIncrements, allocAccount, hso, hsn, didStatusChange] at h
                rw [h]
                rfl
              | some sn =>
                simp [incrementsOf, hR, accountsOf, hU, hC', hDel', unmarshalAccountUpdate, hD,
                  hjo, hjn, computeIncrements, allocAccount, hso, hsn, didStatusChange,
                  changeStatus, statusOf] at h
            | some so =>
              cases hsn : jn.accountStatus with
              | none =>
                simp [incrementsOf, hR, accountsOf, hU, hC', hDel', unmarshalAccountUpdate, hD,
                  hjo, hjn, computeIncrements, allocAccount, hso, hsn, didStatusChange,
                  changeStatus, statusOf] at h
              | some sn =>
                simp [incrementsOf, hR, accountsOf, hU, hC', hDel', unmarshalAccountUpdate, hD,
                  hjo, hjn, computeIncrements, allocAccount, hso, hsn, didStatusChange,
                  changeStatus, statusOf, hLookup] at h
                rw [← h]
                exact hset2 so sn (-1) 1
        · simp [incrementsOf, hR, accountsOf, hC, hDel, hU] at h

/-- What one event that `Handler` applies with success adds to
`TotalAccountsCount` in the counter store. -/
theorem Handler_total_step (g : Globals) (rangeOrder : Increments → Increments)
    (snsEvent : SNSEvent) (w : World Counters)
    (hLookup : g.statusLookup = statusLookupTable)
    (hDeleted : g.Config.AccountDeletedTopicArn ≠ g.Config.AccountCreatedTopicArn)
    (hOrder : ∀ m, (rangeOrder m).Perm m)
    (hBoth : topicOf snsEvent = some g.Config.AccountUpdatedTopicArn →
      carriesBothAccounts snsEvent = true)
    (hApplied : (Handler g counterStore rangeOrder snsEvent w).1 = .returned none) :
    (Handler g counterStore rangeOrder snsEvent w).2.state TotalAccountsCount =
      w.state TotalAccountsCount +
        (if topicOf snsEvent = some g.Config.AccountCreatedTopicArn then 1
         else if topicOf snsEvent = some g.Config.AccountDeletedTopicArn then -1
         else 0) := by
  cases hinc : incrementsOf g snsEvent with
  | panicked => simp [Handler, hinc] at hApplied
  | returned r =>
    cases r with
    | error e => simp [Handler, hinc] at hApplied
    | ok increments =>
      rw [Handler_of_increments g counterStore rangeOrder snsEvent w increments hinc]
      rw [(persist_counterStore (rangeOrder increments) w TotalAccountsCount).2,
        incrFor_perm TotalAccountsCount (hOrder increments),
        incrementsOf_total g snsEvent increments hLookup hDeleted hBoth hinc]

/-- The total counter after a sequence of events, from any counters. -/
theorem applyEvents_total (g : Globals) (rangeOrder : Increments → Increments)
    (hLookup : g.statusLookup = statusLookupTable)
    (hDeleted : g.Config.AccountDeletedTopicArn ≠ g.Config.AccountCreatedTopicArn)
    (hOrder : ∀ m, (rangeOrder m).Perm m) (events : List SNSEvent) :
    ∀ (w : World Counters),
      (∀ snsEvent ∈ events, topicOf snsEvent = some g.Config.AccountUpdatedTopicArn →
        carriesBothAccounts snsEvent = true) →
      (∀ r ∈ (applyEvents g counterStore rangeOrder events w).1, r = .returned none) →
      (applyEvents g counterStore rangeOrder events w).2.state TotalAccountsCount =
        w.state TotalAccountsCount + (creates g events : Int) - (deletes g events : Int) := by
  induction events with
  | nil => intro w _ _; simp [applyEvents, creates, deletes]
  | cons snsEvent rest ih =>
    intro w hBoth hApplied
    have hHead : (Handler g counterStore rangeOrder snsEvent w).1 = .returned none :=
      hApplied _ (by simp [applyEvents])
    have hTail : ∀ r ∈ (applyEvents g counterStore rangeOrder rest
        (Handler g counterStore rangeOrder snsEvent w).2).1, r = .returned none :=
      fun r hr => hApplied r (by simp [applyEvents, hr])
    have hstep := Handler_total_step g rangeOrder snsEvent w hLookup hDeleted hOrder
      (hBoth snsEvent (List.mem_cons_self _ _)) hHead
    have hrest := ih (Handler g counterStore rangeOrder snsEvent w).2
      (fun e he => hBoth e (List.mem_cons_of_mem _ he)) hTail
    have hrun : (applyEvents g counterStore rangeOrder (snsEvent :: rest) w).2
        = (applyEvents g counterStore rangeOrder rest
            (Handler g counterStore rangeOrder snsEvent w).2).2 := rfl
    have hcr : creates g (snsEvent :: rest) = creates g rest +
        (if topicOf snsEvent = some g.Config.AccountCreatedTopicArn then 1 else 0) := by
      simp [creates, List.countP_cons]
    have hde : deletes g (snsEvent :: rest) = deletes g rest +
        (if topicOf snsEvent = some g.Config.AccountDeletedTopicArn then 1 else 0) := by
      simp [deletes, List.countP_cons]
    rw [hrun, hrest, hstep, hcr, hde]
    by_cases hC : topicOf snsEvent = some g.Config.AccountCreatedTopicArn
    · have hD : ¬ topicOf snsEvent = some g.Config.AccountDeletedTopicArn := by
        rw [hC]
        exact fun h => hDeleted (Option.some.inj h).symm
      rw [if_pos hC, if_pos hC, if_neg hD]
      push_cast
      ring
    · by_cases hD : topicOf snsEvent = some g.Config.AccountDeletedTopicArn
      · rw [if_neg hC, if_neg hC, if_pos hD, if_pos hD]
        push_cast
        ring
      · rw [if_neg hC, if_neg hC, if_neg hD, if_neg hD]
        push_cast
        ring

/-- With the variables as `init` was meant to leave them, which the program as
written never has (see `packageGlobals`): with the table of `init` in `statusLookup` and different topics for
creations and deletions, starting from `TotalAccountsCount` = 0, after
`Handler` has applied with success a sequence of events whose updates carry
both accounts, in whatever order `range` yields the increments,
`TotalAccountsCount` in the counter store is the number of events from the
account-created topic minus the number of events from the account-deleted
topic. -/
theorem Handler_total_is_creates_minus_deletes (g : Globals)
    (rangeOrder : Increments → Increments) (events : List SNSEvent) (w : World Counters)
    (hLookup : g.statusLookup = statusLookupTable)
    (hDeleted : g.Config.AccountDeletedTopicArn ≠ g.Config.AccountCreatedTopicArn)
    (hOrder : ∀ m, (rangeOrder m).Perm m)
    (hZero : w.state TotalAccountsCount = 0)
    (hBoth : ∀ snsEvent ∈ events, topicOf snsEvent = some g.Config.AccountUpdatedTopicArn →
      carriesBothAccounts snsEvent = true)
    (hApplied : ∀ r ∈ (applyEvents g counterStore rangeOrder events w).1,
      r = .returned none) :
    (applyEvents g counterStore rangeOrder events w).2.state TotalAccountsCount =
      (creates g events : Int) - (deletes g events : Int) := by
  rw [applyEvents_total g rangeOrder hLookup hDeleted hOrder events w hBoth hApplied, hZero]
  ring

/-- Example, with the variables as `init` was meant to leave them: two
creations, a change of status and a deletion leave a
total of one account. -/
theorem Handler_total_is_creates_minus_deletes_witness :
    (applyEvents sampleGlobals counterStore id
        [createdEvent "Ready", createdEvent "NotReady", updatedEvent "Ready" "Leased",
          deletedEvent "Leased"] ⟨zeroCounters, []⟩).2.state TotalAccountsCount
      = ((creates sampleGlobals
          [createdEvent "Ready", createdEvent "NotReady", updatedEvent "Ready" "Leased",
            deletedEvent "Leased"] : Nat) : Int)
        - ((deletes sampleGlobals
          [createdEvent "Ready", createdEvent "NotReady", updatedEvent "Ready" "Leased",
            deletedEvent "Leased"] : Nat) : Int) :=
  Handler_total_is_creates_minus_deletes sampleGlobals id
    [createdEvent "Ready", createdEvent "NotReady", updatedEvent "Ready" "Leased",
      deletedEvent "Leased"] ⟨zeroCounters, []⟩ rfl (by decide) (fun m => List.Perm.refl m) rfl
    (by decide)
    (by
      have e : (applyEvents sampleGlobals counterStore id
          [createdEvent "Ready", createdEvent "NotReady", updatedEvent "Ready" "Leased",
            deletedEvent "Leased"] ⟨zeroCounters, []⟩).1
          = [.returned none, .returned none, .returned none, .returned none] := rfl
      rw [e]
      simp)

end AccountPoolMetrics
end Dce

/-! ## Theorems: the calls of the credential-vending lambda -/

namespace Dce
namespace LeaseAuth
variable {σ ρ : Type}

/-- When both checks of `checkLease` pass, the lease is `Active` and the
caller is an administrator or the principal of the lease. -/
theorem checkLease_passed (AdminGroupName : String) (user : User) (lease : lease.Lease)
    (h : checkLease AdminGroupName user lease = .returned none) :
    lease.Status = some Dce.lease.StatusActive
      ∧ (user.Role = AdminGroupName ∨ lease.PrincipalID = some user.Username) := by
  unfold checkLease at h
  split at h
  · cases h
  · rename_i status hs
    split at h
    · cases h
    · rename_i hact
      have hst : status = Dce.lease.StatusActive := by simpa using hact
      refine ⟨by rw [hs, hst], ?_⟩
      split at h
      · rename_i hrole
        exact Or.inl (by simpa using hrole)
      · split at h
        · cases h
        · rename_i pid hp
          split at h
          · rename_i hu
            right
            rw [hp]
            simp at hu
            rw [hu]
          · split at h <;> cases h

/-- The log of `assumeRole`: the role assumption with the given session name
and the configured duration, then uses of the assumed credentials. -/
theorem assumeRole_calls (input : leaseAuthInput σ ρ) (lease : lease.Lease)
    (acct : Account) (name : String) (w : World σ) :
    ∃ rest, (assumeRole input lease acct name w).2.calls = w.calls ++
        Call.Credentials acct.PrincipalRoleArn name input.principalSessionDuration :: rest
      ∧ ∀ c ∈ rest, ∀ r n d, c ≠ Call.Credentials r n d := by
  unfold assumeRole
  dsimp only
  split
  · exact ⟨[], rfl, by simp⟩
  · split
    · exact ⟨[_], by simp only [List.append_assoc]; rfl, by simp⟩
    · split
      · exact ⟨[_, _], by simp only [List.append_assoc]; rfl, by simp⟩
      · split
        · exact ⟨[_, _], by simp only [List.append_assoc]; rfl, by simp⟩
        · split
          · exact ⟨[_, _, _], by simp only [List.append_assoc]; rfl, by simp⟩
          · exact ⟨[_, _, _], by simp only [List.append_assoc]; rfl, by simp⟩

/-- Every role assumption in the log of `lookupAccount` carries the session
name chosen on lines 129-133 and the configured duration. -/
theorem lookupAccount_calls (input : leaseAuthInput σ ρ) (user : User) (lease : lease.Lease)
    (w : World σ) :
    ∃ seg, (lookupAccount input user lease w).2.calls = w.calls ++ seg
      ∧ (∀ c ∈ seg, c.isCredentialCall = true)
      ∧ ∀ r n d, Call.Credentials r n d ∈ seg →
          d = input.principalSessionDuration ∧ roleSessionName user lease = some n := by
  unfold lookupAccount
  split
  · exact ⟨[], by simp⟩
  · rename_i accountID _
    dsimp only
    split
    · split
      · exact ⟨[.AccountGet accountID], rfl, by simp [Call.isCredentialCall], by simp⟩
      · exact ⟨[.AccountGet accountID], rfl, by simp [Call.isCredentialCall], by simp⟩
    · split
      · exact ⟨[.AccountGet accountID], rfl, by simp [Call.isCredentialCall], by simp⟩
      · rename_i acct _
        unfold vendCredentials
        split
        · exact ⟨[.AccountGet accountID], rfl, by simp [Call.isCredentialCall], by simp⟩
        · rename_i name hname
          obtain ⟨seg, h1, h2⟩ := assumeRole_log input lease acct name
            { state := (input.accountService.Get accountID w.state).2,
              calls := w.calls ++ [.AccountGet accountID] }
          obtain ⟨rest, h3, h4⟩ := assumeRole_calls input lease acct name
            { state := (input.accountService.Get accountID w.state).2,
              calls := w.calls ++ [.AccountGet accountID] }
          have hseg : seg = Call.Credentials acct.PrincipalRoleArn name
              input.principalSessionDuration :: rest := by
            have := h1.symm.trans h3
            exact List.append_cancel_left this
          refine ⟨Call.AccountGet accountID :: seg, ?_, ?_, ?_⟩
          · rw [h1]; simp
          · intro c hc
            rcases List.mem_cons.1 hc with rfl | hc
            · rfl
            · exact h2 c hc
          · intro r n d hc
            rw [hseg] at hc
            rcases List.mem_cons.1 hc with hc | hc
            · cases hc
            · rcases List.mem_cons.1 hc with hc | hc
              · cases hc
                exact ⟨rfl, hname⟩
              · exact absurd rfl (h4 _ hc r n d)

/-- The log of `withLease`: calls are made only for a lease that passed both
checks, they are credential-related, and every role assumption carries the
chosen session name and the configured duration. -/
theorem withLease_calls (AdminGroupName : String) (input : leaseAuthInput σ ρ) (user : User)
    (lease : Option lease.Lease) (w : World σ) :
    ∃ seg, (withLease AdminGroupName input user lease w).2.calls = w.calls ++ seg
      ∧ (∀ c ∈ seg, c.isCredentialCall = true)
      ∧ (seg ≠ [] → ∃ l, lease = some l ∧ checkLease AdminGroupName user l = .returned none
          ∧ ∀ r n d, Call.Credentials r n d ∈ seg →
            d = input.principalSessionDuration ∧ roleSessionName user l = some n) := by
  unfold withLease
  split
  · exact ⟨[], by simp⟩
  · rename_i l
    split
    · exact ⟨[], by simp⟩
    · exact ⟨[], by simp⟩
    · rename_i hc
      obtain ⟨seg, h1, h2, h3⟩ := lookupAccount_calls input user l w
      exact ⟨seg, h1, h2, fun _ => ⟨l, rfl, hc, h3⟩⟩

/-- The log of `resolveLease`: calls to the lease service only. -/
theorem resolveLease_calls (input : leaseAuthInput σ ρ) (user : User) (w : World σ) :
    ∃ pre, (resolveLease input user w).2.calls = w.calls ++ pre
      ∧ ∀ c ∈ pre, c.isCredentialCall = false := by
  unfold resolveLease
  split
  · dsimp only
    split
    · exact ⟨[_], rfl, by simp [Call.isCredentialCall]⟩
    · exact ⟨[_], rfl, by simp [Call.isCredentialCall]⟩
  · split
    · dsimp only
      split
      · exact ⟨[_], rfl, by simp [Call.isCredentialCall]⟩
      · split
        · exact ⟨[_], rfl, by simp [Call.isCredentialCall]⟩
        · exact ⟨[_], rfl, by simp [Call.isCredentialCall]⟩
    · exact ⟨[], by simp⟩

/-- The log of `leaseAuth`: the user lookup, the lease resolution, and then
credential-related calls, which are made only for a resolved lease that
passed both checks of `checkLease`. -/
theorem leaseAuth_calls (AdminGroupName : String) (input : leaseAuthInput σ ρ) (w : World σ) :
    ∃ pre seg, newCalls w.calls.length (leaseAuth AdminGroupName input w).2 = pre ++ seg
      ∧ (∀ c ∈ pre, c.isCredentialCall = false)
      ∧ (∀ c ∈ seg, c.isCredentialCall = true)
      ∧ (seg ≠ [] → ∃ l w1,
          resolveLease input (callGetUser input w).1 (callGetUser input w).2
            = (.returned (some l, none), w1)
          ∧ checkLease AdminGroupName (callGetUser input w).1 l = .returned none
          ∧ ∀ r n d, Call.Credentials r n d ∈ seg →
            d = input.principalSessionDuration
              ∧ roleSessionName (callGetUser input w).1 l = some n) := by
  obtain ⟨pre, hpre, hpre2⟩ := resolveLease_calls input (callGetUser input w).1
    (callGetUser input w).2
  have hu : (callGetUser input w).2.calls = w.calls ++ [.GetUser] := rfl
  rw [hu] at hpre
  unfold leaseAuth
  dsimp only
  generalize hres : resolveLease input (callGetUser input w).1 (callGetUser input w).2 = res
    at hpre
  rcases res with ⟨o, w1⟩
  simp only at hpre
  have hpre0 : ∀ c ∈ Call.GetUser :: pre, c.isCredentialCall = false := by
    intro c hc
    rcases List.mem_cons.1 hc with rfl | hc
    · rfl
    · exact hpre2 c hc
  cases o with
  | panicked =>
    refine ⟨Call.GetUser :: pre, [], ?_, hpre0, by simp, by simp⟩
    simp [newCalls, hpre]
  | returned p =>
    rcases p with ⟨lease, err⟩
    cases err with
    | some e =>
      refine ⟨Call.GetUser :: pre, [], ?_, hpre0, by simp, by simp⟩
      simp [newCalls, hpre]
    | none =>
      obtain ⟨seg, h1, h2, h3⟩ := withLease_calls AdminGroupName input
        (callGetUser input w).1 lease w1
      refine ⟨Call.GetUser :: pre, seg, ?_, hpre0, h2, ?_⟩
      · simp only [newCalls, h1, hpre]
        simp
      · intro hne
        obtain ⟨l, hl, hc, h4⟩ := h3 hne
        subst hl
        exact ⟨l, w1, rfl, hc, h4⟩

end LeaseAuth
end Dce

namespace Dce
namespace LeaseAuth
variable {σ ρ : Type}

/-- The log of `LeaseAuthHandler` is the log of the call of `leaseAuth` that
it makes with the session duration `time.Hour`, if it makes one. -/
theorem LeaseAuthHandler_world (AdminGroupName : String) (Services : ServiceBuilder σ ρ)
    (r : Request ρ) (w : World σ) :
    (LeaseAuthHandler AdminGroupName Services r w).2 = w
      ∨ ∃ reqCtx, r.context = .ok reqCtx
        ∧ (LeaseAuthHandler AdminGroupName Services r w).2
          = (leaseAuth AdminGroupName
              ⟨routeLeaseID r.muxVars, reqCtx, Services.LeaseService, Services.AccountService,
                Services.UserDetailer, Services.AccountManager, Hour⟩ w).2 := by
  unfold LeaseAuthHandler
  split
  · exact Or.inl rfl
  · rename_i reqCtx h
    refine Or.inr ⟨reqCtx, h, ?_⟩
    split <;> simp_all

/-- A role assumption in the log of `leaseAuth` lies among the calls that
follow a passed `checkLease`. -/
theorem leaseAuth_credentials_call (AdminGroupName : String) (input : leaseAuthInput σ ρ)
    (w : World σ) (role : Option String) (name : String) (d : Duration)
    (hCall : Call.Credentials role name d
      ∈ newCalls w.calls.length (leaseAuth AdminGroupName input w).2) :
    d = input.principalSessionDuration
      ∧ ∃ l w1, resolveLease input (callGetUser input w).1 (callGetUser input w).2
            = (.returned (some l, none), w1)
          ∧ roleSessionName (callGetUser input w).1 l = some name := by
  obtain ⟨pre, seg, h1, h2, _, h4⟩ := leaseAuth_calls AdminGroupName input w
  rw [h1] at hCall
  rcases List.mem_append.1 hCall with hc | hc
  · have := h2 _ hc
    simp [Call.isCredentialCall] at this
  · obtain ⟨l, w1, hres, _, h5⟩ := h4 (List.ne_nil_of_mem hc)
    exact ⟨(h5 role name d hc).1, l, w1, hres, (h5 role name d hc).2⟩

/-- C21: whenever `leaseAuth` calls `accountManager.Credentials`, the session
name it passes is the caller's username when that is non-empty, and the
principal ID of the resolved lease when the username is empty. -/
theorem leaseAuth_session_name (AdminGroupName : String) (input : leaseAuthInput σ ρ)
    (w : World σ) (role : Option String) (name : String) (d : Duration)
    (hCall : Call.Credentials role name d
      ∈ newCalls w.calls.length (leaseAuth AdminGroupName input w).2) :
    ((callGetUser input w).1.Username ≠ "" → name = (callGetUser input w).1.Username)
      ∧ ((callGetUser input w).1.Username = "" →
        ∃ l w1, resolveLease input (callGetUser input w).1 (callGetUser input w).2
            = (.returned (some l, none), w1)
          ∧ l.PrincipalID = some name) := by
  obtain ⟨_, l, w1, hres, hname⟩ := leaseAuth_credentials_call AdminGroupName input w
    role name d hCall
  unfold roleSessionName at hname
  constructor
  · intro hne
    have : ((callGetUser input w).1.Username == "") = false := by simpa using hne
    rw [this] at hname
    simp at hname
    exact hname.symm
  · intro he
    refine ⟨l, w1, hres, ?_⟩
    have : ((callGetUser input w).1.Username == "") = true := by simpa using he
    rw [this] at hname
    simpa using hname

/-- C22: the session duration that `leaseAuth` passes to
`accountManager.Credentials` is `principalSessionDuration`, and in a run of
`LeaseAuthHandler` it is `time.Hour`, that is 3600 seconds in nanoseconds. -/
theorem LeaseAuthHandler_session_duration (AdminGroupName : String)
    (input : leaseAuthInput σ ρ) (Services : ServiceBuilder σ ρ) (r : Request ρ)
    (w : World σ) (role : Option String) (name : String) (d : Duration) :
    (Call.Credentials role name d
        ∈ newCalls w.calls.length (leaseAuth AdminGroupName input w).2 →
      d = input.principalSessionDuration)
    ∧ (Call.Credentials role name d
        ∈ newCalls w.calls.length (LeaseAuthHandler AdminGroupName Services r w).2 →
      d = Hour ∧ d = 3600 * 1000000000) := by
  constructor
  · intro hCall
    exact (leaseAuth_credentials_call AdminGroupName input w role name d hCall).1
  · intro hCall
    rcases LeaseAuthHandler_world AdminGroupName Services r w with h | ⟨reqCtx, _, h⟩
    · rw [h] at hCall
      simp [newCalls] at hCall
    · rw [h] at hCall
      have := (leaseAuth_credentials_call AdminGroupName _ w role name d hCall).1
      exact ⟨this, this⟩

/-- Witness of C21: an administrator without a username asks for the lease
`l1`, and the role is assumed under the principal ID `user1` of that lease. -/
theorem leaseAuth_session_name_witness :
    Call.Credentials (some "arn:aws:iam::a1:role/principal") "user1" Hour
        ∈ newCalls 0 (leaseAuth "Admins" (sampleInput (some "l1") ⟨"", "Admins"⟩) ⟨0, []⟩).2
      ∧ ∃ l w1, resolveLease (sampleInput (some "l1") ⟨"", "Admins"⟩)
            (callGetUser (sampleInput (some "l1") ⟨"", "Admins"⟩) ⟨0, []⟩).1
            (callGetUser (sampleInput (some "l1") ⟨"", "Admins"⟩) ⟨0, []⟩).2
            = (.returned (some l, none), w1)
          ∧ l.PrincipalID = some "user1" :=
  have hmem : Call.Credentials (some "arn:aws:iam::a1:role/principal") "user1" Hour
      ∈ newCalls 0 (leaseAuth "Admins" (sampleInput (some "l1") ⟨"", "Admins"⟩) ⟨0, []⟩).2 :=
    List.mem_cons_of_mem _ (List.mem_cons_of_mem _ (List.mem_cons_of_mem _
      (List.mem_cons_self _ _)))
  ⟨hmem, (leaseAuth_session_name "Admins" (sampleInput (some "l1") ⟨"", "Admins"⟩) ⟨0, []⟩
    _ _ _ hmem).2 rfl⟩

/-- Witness of C22: `LeaseAuthHandler` serves the principal of the lease `l1`,
and assumes the role for one hour. -/
theorem LeaseAuthHandler_session_duration_witness :
    Call.Credentials (some "arn:aws:iam::a1:role/principal") "user1" (3600 * 1000000000)
        ∈ newCalls 0 (LeaseAuthHandler "Admins" (sampleServices ⟨"user1", "Users"⟩)
          sampleRequest ⟨0, []⟩).2
      ∧ ((3600 * 1000000000 : Duration) = Hour
        ∧ (3600 * 1000000000 : Duration) = 3600 * 1000000000) :=
  have hmem : Call.Credentials (some "arn:aws:iam::a1:role/principal") "user1"
      (3600 * 1000000000)
      ∈ newCalls 0 (LeaseAuthHandler "Admins" (sampleServices ⟨"user1", "Users"⟩)
          sampleRequest ⟨0, []⟩).2 :=
    List.mem_cons_of_mem _ (List.mem_cons_of_mem _ (List.mem_cons_of_mem _
      (List.mem_cons_self _ _)))
  ⟨hmem, (LeaseAuthHandler_session_duration "Admins"
    (sampleInput (some "l1") ⟨"user1", "Users"⟩) (sampleServices ⟨"user1", "Users"⟩)
    sampleRequest ⟨0, []⟩ _ _ _).2 hmem⟩

end LeaseAuth
end Dce

namespace Dce
namespace LeaseAuth
variable {σ ρ : Type}

/-- A successful `assumeRole` made the four calls on one credentials value
and built its response from what they returned. -/
theorem assumeRole_success (input : leaseAuthInput σ ρ) (lease : lease.Lease)
    (acct : Account) (name : String) (w w' : World σ) (res : LeaseAuthResponse)
    (h : assumeRole input lease acct name w = (.returned (some res, none), w')) :
    ∃ creds,
      (input.accountManager.Credentials acct.PrincipalRoleArn name
        input.principalSessionDuration w.state).1 = some creds
      ∧ (creds.Get (input.accountManager.Credentials acct.PrincipalRoleArn name
          input.principalSessionDuration w.state).2).1.2 = none
      ∧ res.AccessKeyID = (creds.Get (input.accountManager.Credentials acct.PrincipalRoleArn
          name input.principalSessionDuration w.state).2).1.1.AccessKeyID
      ∧ res.SecretAccessKey = (creds.Get (input.accountManager.Credentials
          acct.PrincipalRoleArn name input.principalSessionDuration w.state).2).1.1.SecretAccessKey
      ∧ res.SessionToken = (creds.Get (input.accountManager.Credentials acct.PrincipalRoleArn
          name input.principalSessionDuration w.state).2).1.1.SessionToken
      ∧ (input.accountManager.ConsoleURL creds (creds.Get (input.accountManager.Credentials
          acct.PrincipalRoleArn name input.principalSessionDuration w.state).2).2).1.2 = none
      ∧ res.ConsoleURL = (input.accountManager.ConsoleURL creds (creds.Get
          (input.accountManager.Credentials acct.PrincipalRoleArn name
            input.principalSessionDuration w.state).2).2).1.1
      ∧ (creds.ExpiresAt (input.accountManager.ConsoleURL creds (creds.Get
          (input.accountManager.Credentials acct.PrincipalRoleArn name
            input.principalSessionDuration w.state).2).2).2).1.2 = none
      ∧ res.ExpiresOn = (creds.ExpiresAt (input.accountManager.ConsoleURL creds (creds.Get
          (input.accountManager.Credentials acct.PrincipalRoleArn name
            input.principalSessionDuration w.state).2).2).2).1.1.Unix
      ∧ w'.calls = w.calls ++ [Call.Credentials acct.PrincipalRoleArn name
          input.principalSessionDuration, .CredsGet creds, .ConsoleURL creds,
          .CredsExpiresAt creds]
      ∧ w'.state = (creds.ExpiresAt (input.accountManager.ConsoleURL creds (creds.Get
          (input.accountManager.Credentials acct.PrincipalRoleArn name
            input.principalSessionDuration w.state).2).2).2).2 := by
  unfold assumeRole at h
  dsimp only at h
  split at h
  · cases h
  · rename_i creds hc
    split at h
    · cases h
    · rename_i hg
      split at h
      · cases h
      · rename_i hu
        split at h
        · cases h
        · split at h
          · cases h
          · rename_i hx
            simp only [Prod.mk.injEq, Outcome.returned.injEq, Option.some.injEq,
              and_true] at h
            obtain ⟨hres, hw⟩ := h
            subst hres
            subst hw
            refine ⟨creds, hc, hg, rfl, rfl, rfl, hu, rfl, hx, rfl, ?_, rfl⟩
            simp

/-- A successful `leaseAuth` ends with a successful `assumeRole`. -/
theorem leaseAuth_success (AdminGroupName : String) (input : leaseAuthInput σ ρ)
    (w w' : World σ) (res : LeaseAuthResponse)
    (h : leaseAuth AdminGroupName input w = (.returned (some res, none), w')) :
    ∃ lease acct name w2,
      assumeRole input lease acct name w2 = (.returned (some res, none), w') := by
  unfold leaseAuth at h
  dsimp only at h
  split at h
  · cases h
  · cases h
  · rename_i lease w1 _
    unfold withLease at h
    split at h
    · cases h
    · rename_i l
      split at h
      · cases h
      · cases h
      · unfold lookupAccount at h
        split at h
        · cases h
        · dsimp only at h
          split at h
          · split at h <;> cases h
          · split at h
            · cases h
            · rename_i acct _
              unfold vendCredentials at h
              split at h
              · cases h
              · rename_i name _
                exact ⟨_, acct, name, _, h⟩

/-- C23: whenever `leaseAuth` succeeds, its last four calls are the role
assumption, `Get` on the credentials it returned, `ConsoleURL` for those same
credentials and `ExpiresAt` on them, none of which failed, and the response
carries exactly the access key ID, secret access key and session token that
`Get` returned, the console URL that `ConsoleURL` returned, and as
`expiresOn` the Unix seconds of the time that `ExpiresAt` returned; the run
ends in the state that `ExpiresAt` left. -/
theorem leaseAuth_success_response (AdminGroupName : String) (input : leaseAuthInput σ ρ)
    (w w' : World σ) (res : LeaseAuthResponse)
    (h : leaseAuth AdminGroupName input w = (.returned (some res, none), w')) :
    ∃ (role : Option String) (name : String) (s : σ) (creds : Credentialer σ)
      (front : List (Call σ)),
      (input.accountManager.Credentials role name input.principalSessionDuration s).1
        = some creds
      ∧ w'.calls = front ++ [Call.Credentials role name input.principalSessionDuration,
          .CredsGet creds, .ConsoleURL creds, .CredsExpiresAt creds]
      ∧ w'.state = (creds.ExpiresAt (input.accountManager.ConsoleURL creds (creds.Get
          (input.accountManager.Credentials role name input.principalSessionDuration
            s).2).2).2).2
      ∧ (creds.Get (input.accountManager.Credentials role name
          input.principalSessionDuration s).2).1.2 = none
      ∧ (input.accountManager.ConsoleURL creds (creds.Get (input.accountManager.Credentials
          role name input.principalSessionDuration s).2).2).1.2 = none
      ∧ (creds.ExpiresAt (input.accountManager.ConsoleURL creds (creds.Get
          (input.accountManager.Credentials role name input.principalSessionDuration
            s).2).2).2).1.2 = none
      ∧ res =
        { AccessKeyID := (creds.Get (input.accountManager.Credentials role name
            input.principalSessionDuration s).2).1.1.AccessKeyID
          SecretAccessKey := (creds.Get (input.accountManager.Credentials role name
            input.principalSessionDuration s).2).1.1.SecretAccessKey
          SessionToken := (creds.Get (input.accountManager.Credentials role name
            input.principalSessionDuration s).2).1.1.SessionToken
          ConsoleURL := (input.accountManager.ConsoleURL creds (creds.Get
            (input.accountManager.Credentials role name input.principalSessionDuration
              s).2).2).1.1
          ExpiresOn := (creds.ExpiresAt (input.accountManager.ConsoleURL creds (creds.Get
            (input.accountManager.Credentials role name input.principalSessionDuration
              s).2).2).2).1.1.Unix } := by
  obtain ⟨lease, acct, name, w2, h2⟩ := leaseAuth_success AdminGroupName input w w' res h
  obtain ⟨creds, hc, hg, h1, h3, h4, hu, h5, hx, h6, hlog, hstate⟩ :=
    assumeRole_success input lease acct name w2 w' res h2
  refine ⟨acct.PrincipalRoleArn, name, w2.state, creds, w2.calls, hc, hlog, hstate, hg, hu,
    hx, ?_⟩
  cases res
  simp only at h1 h3 h4 h5 h6
  simp only [LeaseAuthResponse.mk.injEq]
  exact ⟨h1, h3, h4, h5, h6⟩

/-- Witness of C23: the principal of the lease `l1` logs in. -/
theorem leaseAuth_success_response_witness :
    ∃ (role : Option String) (name : String) (s : Nat) (creds : Credentialer Nat)
      (front : List (Call Nat)),
      (sampleManager.Credentials role name Hour s).1 = some creds
      ∧ [Call.GetUser, .LeaseGet "l1", .AccountGet "a1",
          .Credentials (some "arn:aws:iam::a1:role/principal") "user1" Hour,
          .CredsGet sampleCreds, .ConsoleURL sampleCreds, .CredsExpiresAt sampleCreds]
        = front ++ [Call.Credentials role name Hour,
          .CredsGet creds, .ConsoleURL creds, .CredsExpiresAt creds]
      ∧ 7 = (creds.ExpiresAt (sampleManager.ConsoleURL creds (creds.Get
          (sampleManager.Credentials role name Hour s).2).2).2).2
      ∧ (creds.Get (sampleManager.Credentials role name Hour s).2).1.2 = none
      ∧ (sampleManager.ConsoleURL creds (creds.Get (sampleManager.Credentials
          role name Hour s).2).2).1.2 = none
      ∧ (creds.ExpiresAt (sampleManager.ConsoleURL creds (creds.Get
          (sampleManager.Credentials role name Hour s).2).2).2).1.2 = none
      ∧ (⟨"AKIA", "secret", "token", "https://console.example/login", 1600000000⟩
          : LeaseAuthResponse) =
        { AccessKeyID := (creds.Get (sampleManager.Credentials role name
            Hour s).2).1.1.AccessKeyID
          SecretAccessKey := (creds.Get (sampleManager.Credentials role name
            Hour s).2).1.1.SecretAccessKey
          SessionToken := (creds.Get (sampleManager.Credentials role name
            Hour s).2).1.1.SessionToken
          ConsoleURL := (sampleManager.ConsoleURL creds (creds.Get
            (sampleManager.Credentials role name Hour s).2).2).1.1
          ExpiresOn := (creds.ExpiresAt (sampleManager.ConsoleURL creds (creds.Get
            (sampleManager.Credentials role name Hour s).2).2).2).1.1.Unix } :=
  leaseAuth_success_response "Admins" (sampleInput (some "l1") ⟨"user1", "Users"⟩) ⟨0, []⟩
    ⟨7, [.GetUser, .LeaseGet "l1", .AccountGet "a1",
      .Credentials (some "arn:aws:iam::a1:role/principal") "user1" Hour,
      .CredsGet sampleCreds, .ConsoleURL sampleCreds, .CredsExpiresAt sampleCreds]⟩
    ⟨"AKIA", "secret", "token", "https://console.example/login", 1600000000⟩ rfl

end LeaseAuth
end Dce

namespace Dce
namespace LeaseAuth
variable {σ ρ : Type}

/-- Every error with which `assumeRole` returns is an `InternalServer` error. -/
theorem assumeRole_error (input : leaseAuthInput σ ρ) (lease : lease.Lease)
    (acct : Account) (name : String) (w w' : World σ) (r : Option LeaseAuthResponse)
    (e : Error) (h : assumeRole input lease acct name w = (.returned (r, some e), w')) :
    e.HTTPCode = some 500 := by
  unfold assumeRole at h
  dsimp only at h
  split at h
  · cases h
  · split at h
    · cases h; rfl
    · split at h
      · cases h; rfl
      · split at h
        · cases h
        · split at h
          · cases h; rfl
          · cases h

/-- An error with which `lookupAccount` returns is an `InternalServer` error,
or it is the error of the account lookup, which is not a not-found error and
came back from the last call made. -/
theorem lookupAccount_error (input : leaseAuthInput σ ρ) (user : User) (lease : lease.Lease)
    (w w' : World σ) (r : Option LeaseAuthResponse) (e : Error)
    (h : lookupAccount input user lease w = (.returned (r, some e), w')) :
    e.HTTPCode = some 500
      ∨ ∃ accountID, (input.accountService.Get accountID w.state).1.2 = some e
        ∧ e.HTTPCode ≠ some 404
        ∧ w'.calls = w.calls ++ [Call.AccountGet accountID] := by
  unfold lookupAccount at h
  split at h
  · cases h
  · rename_i accountID _
    dsimp only at h
    split at h
    · rename_i err herr
      split at h
      · cases h
        exact Or.inl rfl
      · rename_i hns
        cases h
        refine Or.inr ⟨accountID, herr, ?_, rfl⟩
        intro h404
        exact hns ((isStatusError_notFound_iff "account" accountID e).2 h404)
    · split at h
      · cases h
      · unfold vendCredentials at h
        split at h
        · cases h
        · exact Or.inl (assumeRole_error input lease _ _ _ w' r e h)

/-- C26: `leaseAuth` makes a credential-related call (the account lookup, the
role assumption, or a use of the assumed credentials such as `ConsoleURL`)
only after a lease has been resolved that is `Active` and whose caller is an
administrator or the principal of the lease; and when it returns an error of
HTTP status 404 or 401, then either no credential-related call has been made,
or the error has status 401 and is the error that the account lookup, the
last call made, returned. -/
theorem leaseAuth_guards_credential_calls (AdminGroupName : String)
    (input : leaseAuthInput σ ρ) (w : World σ) :
    (∀ c ∈ newCalls w.calls.length (leaseAuth AdminGroupName input w).2,
      c.isCredentialCall = true →
      ∃ l w1, resolveLease input (callGetUser input w).1 (callGetUser input w).2
          = (.returned (some l, none), w1)
        ∧ l.Status = some Dce.lease.StatusActive
        ∧ ((callGetUser input w).1.Role = AdminGroupName
          ∨ l.PrincipalID = some (callGetUser input w).1.Username))
    ∧ (∀ r e w', leaseAuth AdminGroupName input w = (.returned (r, some e), w') →
      (e.HTTPCode = some 404 ∨ e.HTTPCode = some 401) →
      (∀ c ∈ newCalls w.calls.length w', c.isCredentialCall = false)
        ∨ (e.HTTPCode = some 401 ∧ ∃ (accountID : String) (w1 : World σ),
            (input.accountService.Get accountID w1.state).1.2 = some e
            ∧ w'.calls = w1.calls ++ [Call.AccountGet accountID])) := by
  obtain ⟨pre, seg, h1, h2, h3, h4⟩ := leaseAuth_calls AdminGroupName input w
  constructor
  · intro c hc hcred
    rw [h1] at hc
    rcases List.mem_append.1 hc with hc | hc
    · rw [h2 c hc] at hcred
      cases hcred
    · obtain ⟨l, w1, hres, hchk, _⟩ := h4 (List.ne_nil_of_mem hc)
      exact ⟨l, w1, hres, checkLease_passed AdminGroupName _ l hchk⟩
  · intro r e w' hret hcode
    by_cases hseg : seg = []
    · left
      intro c hc
      have hw : (leaseAuth AdminGroupName input w).2 = w' := by rw [hret]
      rw [← hw, h1, hseg] at hc
      simp only [List.append_nil] at hc
      exact h2 c hc
    · obtain ⟨l, w1, hres, hchk, _⟩ := h4 hseg
      rw [leaseAuth_of_resolved AdminGroupName input w w1 (some l) hres] at hret
      simp only [withLease, hchk] at hret
      rcases lookupAccount_error input _ l w1 w' r e hret with h500 | ⟨accountID, hget, hne, hlog⟩
      · rw [h500] at hcode
        simp at hcode
      · right
        rcases hcode with h | h
        · exact absurd h hne
        · exact ⟨h, accountID, w1, hget, hlog⟩

/-- C26, counterexample: over an account service that refuses the lookup with
an `Unauthorized` error, the principal of the lease `l1` gets that error back
from `leaseAuth`, an `Unauthorized` outcome, after the account lookup has been
made. -/
theorem leaseAuth_unauthorized_after_account_lookup :
    leaseAuth "Admins" (deniedInput (some "l1") ⟨"user1", "Users"⟩) ⟨0, []⟩
        = (.returned (none, some (.Unauthorized "account access denied")),
          ⟨3, [.GetUser, .LeaseGet "l1", .AccountGet "a1"]⟩)
      ∧ (Error.Unauthorized "account access denied").HTTPCode = some 401
      ∧ (Call.AccountGet "a1" : Call Nat).isCredentialCall = true
      ∧ ¬ (∀ c ∈ newCalls 0 (leaseAuth "Admins" (deniedInput (some "l1") ⟨"user1", "Users"⟩)
            ⟨0, []⟩).2, c.isCredentialCall = false) := by
  refine ⟨rfl, rfl, rfl, ?_⟩
  intro h
  have := h (Call.AccountGet "a1")
    (List.mem_cons_of_mem _ (List.mem_cons_of_mem _ (List.mem_cons_self _ _)))
  cases this

/-- Witness of C26: a stranger asks for the lease `l1` and is refused before
any credential-related call. -/
theorem leaseAuth_guards_credential_calls_witness :
    (∀ c ∈ newCalls 0 (⟨2, [.GetUser, .LeaseGet "l1"]⟩ : World Nat),
        c.isCredentialCall = false)
      ∨ ((NewUnauthorized "User user2 does not have access to lease l1").HTTPCode = some 401
        ∧ ∃ (accountID : String) (w1 : World Nat),
            ((sampleInput (some "l1") ⟨"user2", "Users"⟩).accountService.Get accountID
              w1.state).1.2
              = some (NewUnauthorized "User user2 does not have access to lease l1")
            ∧ (⟨2, [.GetUser, .LeaseGet "l1"]⟩ : World Nat).calls
              = w1.calls ++ [Call.AccountGet accountID]) :=
  (leaseAuth_guards_credential_calls "Admins" (sampleInput (some "l1") ⟨"user2", "Users"⟩)
    ⟨0, []⟩).2 none (NewUnauthorized "User user2 does not have access to lease l1")
    ⟨2, [.GetUser, .LeaseGet "l1"]⟩ rfl (Or.inr rfl)

end LeaseAuth
end Dce

/-! ## Theorems: listing errors and panics of the budget lambda -/

namespace Dce
namespace EndOverBudgetLease
open lease (StatusReason Leases)
variable {σ : Type}

/-- C27: on an over-ceiling principal summary for which `ListPages` itself
returned an error, `handleRecord` returns the single `InternalServer` error
that wraps that error, whatever `Delete` calls failed on the pages visited
before; in particular the result is no `MultiError` of collected `Delete`
errors. -/
theorem handleRecord_listing_error_wrapped (Services : leaseiface.Servicer σ)
    (Settings : lambdaConfig) (record : DynamoDBEventRecord) (w : World σ)
    (summary : usage.Principal) (principalID : String) (cost : Float64) (err : Error)
    (hEvent : record.EventName = "INSERT" ∨ record.EventName = "MODIFY")
    (hNotLease : MatchString UsageLeaseSkSummaryPrefix record.SK = false)
    (hKind : MatchString UsagePrincipalSkPrefix record.SK = true)
    (hDecode : record.asPrincipal = .ok summary)
    (hID : summary.PrincipalID = some principalID)
    (hCost : summary.CostAmount = some cost)
    (hOver : cost.ge Settings.PrincipalBudgetAmount = true)
    (hListed : Call.ListPagesReturn (some err) ∈
      (handleRecord Services Settings ⟨record⟩ w).2.calls.drop w.calls.length) :
    (handleRecord Services Settings ⟨record⟩ w).1 = .returned (some
        (NewInternalServer
          ("Failed to delete one or more leases for principalID " ++ principalID) err))
    ∧ ∀ message errs, (handleRecord Services Settings ⟨record⟩ w).1
        ≠ .returned (some (NewMultiError message errs)) := by
  obtain ⟨seg, hm, h⟩ := principal_over_budget_run Services Settings record w summary
    principalID cost hEvent hNotLease hKind hDecode hID hCost hOver
  have nomark : Call.ListPagesReturn (some err) ∉ seg := fun hin => by
    have := hm _ hin
    cases this
  have key : (handleRecord Services Settings ⟨record⟩ w).1 = .returned (some
      (NewInternalServer
        ("Failed to delete one or more leases for principalID " ++ principalID) err)) := by
    rcases h with ⟨_, hc⟩ | ⟨err', hc, _, hres⟩
    · rw [hc, List.drop_left] at hListed
      rcases List.mem_cons.1 hListed with h1 | h1
      · cases h1
      · exact absurd h1 nomark
    · rw [hc, List.drop_left] at hListed
      have herr : err' = some err := by
        rcases List.mem_cons.1 hListed with h1 | h1
        · cases h1
        · rcases List.mem_append.1 h1 with h2 | h2
          · exact absurd h2 nomark
          · simp at h2
            exact h2.symm
      subst herr
      exact hres
  refine ⟨key, ?_⟩
  intro message errs hcontra
  rw [key] at hcontra
  simp [NewInternalServer, NewMultiError] at hcontra

/-- Witness of C27: the sample listing that fails after a page on which the
`Delete` failed too. -/
theorem handleRecord_listing_error_wrapped_witness :
    (handleRecord brokenListing defaultSettings ⟨principalAtCeiling⟩ ⟨0, []⟩).1
        = .returned (some (NewInternalServer
          ("Failed to delete one or more leases for principalID " ++ "user1")
          (.foreign none "listing failed")))
    ∧ failedDeletes (handleRecord brokenListing defaultSettings ⟨principalAtCeiling⟩
        ⟨0, []⟩).2.calls = [.foreign none "delete failed"] :=
  ⟨(handleRecord_listing_error_wrapped brokenListing defaultSettings principalAtCeiling
    ⟨0, []⟩ { PrincipalID := some "user1", CostAmount := some (.Finite 100) } "user1"
    (.Finite 100) (.foreign none "listing failed") (Or.inr rfl) (by decide) (by decide)
    rfl rfl rfl (by decide)
    (by
      have e : (handleRecord brokenListing defaultSettings ⟨principalAtCeiling⟩ ⟨0, []⟩).2.calls
          = [Call.ListPages { PrincipalID := some "user1", Status := some lease.StatusActive },
             Call.visit [{ ID := some "l1" }],
             Call.Delete "l1" .OverPrincipalBudget (some (.foreign none "delete failed")),
             Call.ListPagesReturn (some (.foreign none "listing failed"))] := rfl
      rw [e]
      simp)).1, rfl⟩

/-- On a record whose decoded summaries have their fields present, and over a
listing whose leases all have an ID, `handleRecord` returns. -/
theorem handleRecord_returns (Services : leaseiface.Servicer σ) (Settings : lambdaConfig)
    (record : DynamoDBEventRecord)
    (hLease : MatchString UsageLeaseSkSummaryPrefix record.SK = true →
      ∀ s, record.asLease = .ok s →
        s.LeaseID.isSome = true ∧ s.CostAmount.isSome = true ∧ s.BudgetAmount.isSome = true)
    (hPrincipal : MatchString UsageLeaseSkSummaryPrefix record.SK = false →
      MatchString UsagePrincipalSkPrefix record.SK = true →
      ∀ s, record.asPrincipal = .ok s →
        s.PrincipalID.isSome = true ∧ s.CostAmount.isSome = true)
    (hIDs : ∀ (query : lease.Lease) (s : σ),
      (Services.ListPages query s).AllLeases (fun l => l.ID.isSome = true))
    (w : World σ) :
    (handleRecord Services Settings ⟨record⟩ w).1 ≠ .panicked := by
  by_cases hEvent : record.EventName = "INSERT" ∨ record.EventName = "MODIFY"
  swap
  · have h1 : record.EventName ≠ "INSERT" := fun h => hEvent (Or.inl h)
    have h2 : record.EventName ≠ "MODIFY" := fun h => hEvent (Or.inr h)
    simp [handleRecord, h1, h2]
  cases hL : MatchString UsageLeaseSkSummaryPrefix record.SK with
  | true =>
    rw [handleRecord_eq_lease Services Settings record w hEvent hL]
    unfold handleLeaseUsageRecord
    cases hd : record.asLease with
    | error e => simp
    | ok s =>
      obtain ⟨h1, h2, h3⟩ := hLease hL s hd
      obtain ⟨leaseID, hid⟩ := Option.isSome_iff_exists.1 h1
      obtain ⟨cost, hcost⟩ := Option.isSome_iff_exists.1 h2
      obtain ⟨budget, hbudget⟩ := Option.isSome_iff_exists.1 h3
      cases hge : cost.ge budget with
      | false => simp [isLeaseOverBudget, hid, hcost, hbudget, hge]
      | true =>
        cases hdel : (Services.Delete leaseID .OverBudget w.state).1.2 <;>
          simp [isLeaseOverBudget, hid, hcost, hbudget, hge, callDelete, hdel]
  | false =>
    cases hP : MatchString UsagePrincipalSkPrefix record.SK with
    | false =>
      rcases hEvent with h | h <;> simp [handleRecord, h, hL, hP]
    | true =>
      cases hd : record.asPrincipal with
      | error e =>
        rw [handleRecord_eq_principal Services Settings record w hEvent hL hP]
        simp [handlePrincipalUsageRecord, hd]
      | ok s =>
        obtain ⟨h1, h2⟩ := hPrincipal hL hP s hd
        obtain ⟨principalID, hid⟩ := Option.isSome_iff_exists.1 h1
        obtain ⟨cost, hcost⟩ := Option.isSome_iff_exists.1 h2
        cases hge : cost.ge Settings.PrincipalBudgetAmount with
        | false =>
          rw [handleRecord_eq_principal Services Settings record w hEvent hL hP]
          simp [handlePrincipalUsageRecord, hd, isPrincipalOverBudget, hid, hcost, hge]
        | true =>
          exact handleRecord_principal_returns Services Settings record w s principalID cost
            hEvent hL hP hd hid hcost hge (hIDs _ _)

/-- C28: for every batch in which each lease-summary record that decodes has
lease ID, cost and budget present, each principal-summary record that decodes
has principal ID and cost present, and every lease the listing can deliver has
an ID, no record makes `handleRecord` panic, and `handler` returns: nil, or
the `MultiError` of the per-record errors. -/
theorem handler_returns (Services : leaseiface.Servicer σ) (Settings : lambdaConfig)
    (Records : List DynamoDBEventRecord) (w : World σ)
    (hLease : ∀ record ∈ Records,
      MatchString UsageLeaseSkSummaryPrefix record.SK = true →
      ∀ s, record.asLease = .ok s →
        s.LeaseID.isSome = true ∧ s.CostAmount.isSome = true ∧ s.BudgetAmount.isSome = true)
    (hPrincipal : ∀ record ∈ Records,
      MatchString UsageLeaseSkSummaryPrefix record.SK = false →
      MatchString UsagePrincipalSkPrefix record.SK = true →
      ∀ s, record.asPrincipal = .ok s →
        s.PrincipalID.isSome = true ∧ s.CostAmount.isSome = true)
    (hIDs : ∀ (query : lease.Lease) (s : σ),
      (Services.ListPages query s).AllLeases (fun l => l.ID.isSome = true)) :
    (∀ r ∈ (perRecord Services Settings Records w).1, r ≠ .panicked)
    ∧ (handler Services Settings Records w).1 ≠ .panicked
    ∧ ((handler Services Settings Records w).1 = .returned none
      ∨ (handler Services Settings Records w).1 = .returned (some
          (NewMultiError "Failed to handle DynDB Event"
            (recordErrors (perRecord Services Settings Records w).1)))) := by
  have hAll : ∀ (Recs : List DynamoDBEventRecord), (∀ r ∈ Recs, r ∈ Records) →
      ∀ w : World σ, ∀ r ∈ (perRecord Services Settings Recs w).1, r ≠ .panicked := by
    intro Recs
    induction Recs with
    | nil => intro _ w r hr; simp [perRecord] at hr
    | cons rec rest ih =>
      intro hsub w r hr
      simp only [perRecord, List.mem_cons] at hr
      rcases hr with rfl | hr
      · have hin := hsub rec (List.mem_cons_self _ _)
        exact handleRecord_returns Services Settings rec (hLease rec hin) (hPrincipal rec hin)
          hIDs w
      · exact ih (fun x hx => hsub x (List.mem_cons_of_mem _ hx)) _ r hr
  have hReturns := hAll Records (fun _ h => h) w
  have hloop := handlerLoop_eq Services Settings Records w [] hReturns
  refine ⟨hReturns, ?_, ?_⟩
  · simp only [handler, hloop]
    split <;> simp
  · simp only [handler, hloop, List.nil_append]
    split
    · right; rfl
    · left; rfl

/-- Witness of C28: a batch of a lease summary whose `Delete` fails, a
principal summary at the ceiling, and a REMOVE record. -/
theorem handler_returns_witness :
    (handler sampleService defaultSettings [leaseBadOverBudget, principalAtCeiling, leaseRemoved]
      ⟨0, []⟩).1 ≠ .panicked :=
  (handler_returns sampleService defaultSettings
    [leaseBadOverBudget, principalAtCeiling, leaseRemoved] ⟨0, []⟩
    (by
      intro record hr hl s hs
      simp only [List.mem_cons, List.mem_singleton, List.not_mem_nil, or_false] at hr
      rcases hr with rfl | rfl | rfl
      · cases hs; exact ⟨rfl, rfl, rfl⟩
      · exact absurd hl (by decide)
      · cases hs; exact ⟨rfl, rfl, rfl⟩)
    (by
      intro record hr hl hp s hs
      simp only [List.mem_cons, List.mem_singleton, List.not_mem_nil, or_false] at hr
      rcases hr with rfl | rfl | rfl
      · exact absurd hl (by decide)
      · cases hs; exact ⟨rfl, rfl⟩
      · exact absurd hl (by decide))
    (by intro q s; simp [sampleService, leaseiface.Paging.AllLeases])).2.1

end EndOverBudgetLease
end Dce

/-! ## Theorems: lease events without sinks, and the adjustments of the pool-metrics lambda -/

namespace Dce
namespace event
variable {σ ι : Type}

/-- C30: for every service that `NewService` builds and every payload,
`LeaseEnd` and `LeaseUpdate` return nil and leave the transport state and the
log of sink invocations as they were: their sink lists are empty and no
publisher is invoked. -/
theorem NewService_lease_end_update_publish_nothing {sns sqs : Type}
    (NewSnsEvent : sns → String → Publisher σ ι × Option Error)
    (NewSqsEvent : sqs → String → Publisher σ ι × Option Error)
    (input : NewServiceInput sns sqs) (e : Service σ ι)
    (hBuilt : NewService NewSnsEvent NewSqsEvent input = .ok e) :
    e.leaseEnd = [] ∧ e.leaseUpdate = []
    ∧ ∀ (i : ι) (w : World σ ι), e.LeaseEnd i w = (none, w) ∧ e.LeaseUpdate i w = (none, w) := by
  have hEmpty : e.leaseEnd = [] ∧ e.leaseUpdate = [] := by
    unfold NewService at hBuilt
    dsimp only at hBuilt
    split at hBuilt
    · cases hBuilt
    · split at hBuilt
      · cases hBuilt
      · split at hBuilt
        · cases hBuilt
        · split at hBuilt
          · cases hBuilt
          · split at hBuilt
            · cases hBuilt
            · injection hBuilt with hBuilt
              subst hBuilt
              exact ⟨rfl, rfl⟩
  refine ⟨hEmpty.1, hEmpty.2, ?_⟩
  intro i w
  simp [Service.LeaseEnd, Service.LeaseUpdate, Service.publish, hEmpty.1, hEmpty.2, publishFrom]

/-- Witness of C30: the service built by the sample constructors publishes
nothing for an ended lease and for an updated lease. -/
theorem NewService_lease_end_update_publish_nothing_witness :
    unsetService.LeaseEnd () ⟨0, []⟩ = (none, ⟨0, []⟩)
    ∧ unsetService.LeaseUpdate () ⟨0, []⟩ = (none, ⟨0, []⟩) :=
  (NewService_lease_end_update_publish_nothing sampleNewSnsEvent sampleNewSqsEvent
    unsetInput unsetService rfl).2.2 () ⟨0, []⟩

end event

namespace AccountPoolMetrics
open account (Account)
variable {σ : Type}

/-- An assignment to the map keeps its keys distinct. -/
theorem Increments.set_nodup (m : Increments) (key : AccountStatusCount) (incr : Int)
    (h : (m.map Prod.fst).Nodup) : ((m.set key incr).map Prod.fst).Nodup := by
  unfold Increments.set
  split
  · have : (m.map fun e => if e.1 == key then (key, incr) else e).map Prod.fst
        = m.map Prod.fst := by
      rw [List.map_map]
      apply List.map_congr_left
      intro e _
      simp only [Function.comp]
      split
      · rename_i he
        simp at he
        exact he.symm
      · rfl
    rw [this]
    exact h
  · rename_i hany
    rw [List.map_append, List.nodup_append]
    refine ⟨h, by simp, ?_⟩
    intro a ha hb
    simp only [List.map_cons, List.map_nil, List.mem_singleton] at hb
    subst hb
    apply hany
    rw [List.any_eq_true]
    obtain ⟨e, he, hk⟩ := List.mem_map.1 ha
    exact ⟨e, he, by simp [hk]⟩

/-- The map that `Handler` computes has distinct keys. -/
theorem computeIncrements_nodup (statusLookup : account.Status → AccountStatusCount)
    (oldAccount newAccount : Option Account) (increments : Increments)
    (h : computeIncrements statusLookup oldAccount newAccount = .returned increments) :
    (increments.map Prod.fst).Nodup := by
  have hadd : ∀ (a : Option Account) (m m' : Increments),
      (m.map Prod.fst).Nodup → addAccount statusLookup a m = .returned m' →
      (m'.map Prod.fst).Nodup := by
    intro a m m' hm hr
    unfold addAccount at hr
    split at hr
    · cases hr
    · cases hr
      exact Increments.set_nodup _ _ _ (Increments.set_nodup _ _ _ hm)
  have hrem : ∀ (a : Option Account) (m m' : Increments),
      (m.map Prod.fst).Nodup → removeAccount statusLookup a m = .returned m' →
      (m'.map Prod.fst).Nodup := by
    intro a m m' hm hr
    unfold removeAccount at hr
    split at hr
    · cases hr
    · cases hr
      exact Increments.set_nodup _ _ _ (Increments.set_nodup _ _ _ hm)
  have hchg : ∀ (a b : Option Account) (m m' : Increments),
      (m.map Prod.fst).Nodup → changeStatus statusLookup a b m = .returned m' →
      (m'.map Prod.fst).Nodup := by
    intro a b m m' hm hr
    unfold changeStatus at hr
    split at hr
    · cases hr
    · split at hr
      · cases hr
      · cases hr
        exact Increments.set_nodup _ _ _ (Increments.set_nodup _ _ _ hm)
  unfold computeIncrements at h
  split at h
  · cases h
  · rename_i added hAdded
    have h1 : (added.map Prod.fst).Nodup := by
      split at hAdded
      · exact hadd _ _ _ (by simp) hAdded
      · cases hAdded
        simp
    split at h
    · cases h
    · rename_i removed hRemoved
      have h2 : (removed.map Prod.fst).Nodup := by
        split at hRemoved
        · exact hrem _ _ _ h1 hRemoved
        · cases hRemoved
          exact h1
      split at h
      · exact hchg _ _ _ _ h2 h
      · cases h
        exact h2

/-- The log of `persist`: one adjustment per entry taken, in order, up to and
including the first that fails. -/
theorem persist_log (dataSvc : DataSvc σ) (entries : List (AccountStatusCount × Int)) :
    ∀ w : World σ,
      adjusted w.calls.length (persist dataSvc entries w).2 <+: entries
      ∧ ((persist dataSvc entries w).1 = none →
        adjusted w.calls.length (persist dataSvc entries w).2 = entries
        ∧ ∀ x ∈ adjustErrors w.calls.length (persist dataSvc entries w).2, x = none)
      ∧ (∀ err, (persist dataSvc entries w).1 = some err →
        ∃ front, adjustErrors w.calls.length (persist dataSvc entries w).2
            = front ++ [some err]
          ∧ ∀ x ∈ front, x = none) := by
  induction entries with
  | nil =>
    intro w
    simp [persist, adjusted, adjustErrors]
  | cons e rest ih =>
    intro w
    obtain ⟨key, incr⟩ := e
    cases hr : (dataSvc.IncrementAccountsCount key incr w.state).1 with
    | some err =>
      have hp : persist dataSvc ((key, incr) :: rest) w = (some err,
          { state := (dataSvc.IncrementAccountsCount key incr w.state).2,
            calls := w.calls ++ [⟨key, incr, some err⟩] }) := by
        simp [persist, hr]
      rw [hp]
      refine ⟨?_, ?_, ?_⟩
      · simp [adjusted, List.prefix_cons_inj]
      · intro h
        cases h
      · intro err' h
        cases h
        exact ⟨[], by simp [adjustErrors], by simp⟩
    | none =>
      have hp : persist dataSvc ((key, incr) :: rest) w = persist dataSvc rest
          { state := (dataSvc.IncrementAccountsCount key incr w.state).2,
            calls := w.calls ++ [⟨key, incr, none⟩] } := by
        simp [persist, hr]
      rw [hp]
      obtain ⟨seg, hseg⟩ : ∃ seg, (persist dataSvc rest
          { state := (dataSvc.IncrementAccountsCount key incr w.state).2,
            calls := w.calls ++ [⟨key, incr, none⟩] }).2.calls
          = (w.calls ++ [⟨key, incr, none⟩]) ++ seg := by
        have : ∀ (es : List (AccountStatusCount × Int)) (v : World σ),
            ∃ seg, (persist dataSvc es v).2.calls = v.calls ++ seg := by
          intro es
          induction es with
          | nil => intro v; exact ⟨[], by simp [persist]⟩
          | cons x xs ihx =>
            intro v
            obtain ⟨k, i⟩ := x
            simp only [persist]
            split
            · exact ⟨[_], rfl⟩
            · obtain ⟨seg, hs⟩ := ihx
                { state := (dataSvc.IncrementAccountsCount k i v.state).2,
                  calls := v.calls ++ [⟨k, i, (dataSvc.IncrementAccountsCount k i v.state).1⟩] }
              exact ⟨⟨k, i, (dataSvc.IncrementAccountsCount k i v.state).1⟩ :: seg,
                by rw [hs]; simp⟩
        exact this rest _
      obtain ⟨i1, i2, i3⟩ := ih
        { state := (dataSvc.IncrementAccountsCount key incr w.state).2,
          calls := w.calls ++ [⟨key, incr, none⟩] }
      have hd1 : adjusted w.calls.length (persist dataSvc rest
          { state := (dataSvc.IncrementAccountsCount key incr w.state).2,
            calls := w.calls ++ [⟨key, incr, none⟩] }).2
          = (key, incr) :: adjusted (w.calls ++ [(⟨key, incr, none⟩ : Adjustment)]).length
              (persist dataSvc rest
                { state := (dataSvc.IncrementAccountsCount key incr w.state).2,
                  calls := w.calls ++ [⟨key, incr, none⟩] }).2 := by
        simp only [adjusted, hseg, List.append_assoc, List.drop_left]
        simp
      have hd2 : adjustErrors w.calls.length (persist dataSvc rest
          { state := (dataSvc.IncrementAccountsCount key incr w.state).2,
            calls := w.calls ++ [⟨key, incr, none⟩] }).2
          = none :: adjustErrors (w.calls ++ [(⟨key, incr, none⟩ : Adjustment)]).length
              (persist dataSvc rest
                { state := (dataSvc.IncrementAccountsCount key incr w.state).2,
                  calls := w.calls ++ [⟨key, incr, none⟩] }).2 := by
        simp only [adjustErrors, hseg, List.append_assoc, List.drop_left]
        simp
      rw [hd1, hd2]
      refine ⟨?_, ?_, ?_⟩
      · rw [List.prefix_cons_inj]
        exact i1
      · intro h
        obtain ⟨a, b⟩ := i2 h
        refine ⟨by rw [a], ?_⟩
        intro x hx
        rcases List.mem_cons.1 hx with rfl | hx
        · rfl
        · exact b x hx
      · intro err h
        obtain ⟨front, a, b⟩ := i3 err h
        refine ⟨none :: front, by rw [a]; rfl, ?_⟩
        intro x hx
        rcases List.mem_cons.1 hx with rfl | hx
        · rfl
        · exact b x hx

end AccountPoolMetrics
end Dce

namespace Dce
namespace AccountPoolMetrics
open account (Account)
variable {σ : Type}

/-- The increments that `Handler` computes for an event have distinct
counters. -/
theorem incrementsOf_nodup (g : Globals) (snsEvent : SNSEvent) (increments : Increments)
    (h : incrementsOf g snsEvent = .returned (.ok increments)) :
    (increments.map Prod.fst).Nodup := by
  unfold incrementsOf at h
  split at h
  · cases h
  · split at h
    · cases h
    · split at h
      · cases h
      · rename_i hc
        cases h
        exact computeIncrements_nodup _ _ _ _ hc

/-- The log of the adjustments: when `Handler` has computed its increments,
which hold each affected
counter once, it calls `IncrementAccountsCount` on entries of that map in the
order of `range`, each with its counter and signed increment; when it returns
nil, the calls made are exactly the entries of the map, one call per affected
counter and none for another counter, and none failed; when it returns an
error, that is the error of the last call made and no call before it
failed. -/
theorem Handler_adjusts_each_counter_once (g : Globals) (dataSvc : DataSvc σ)
    (rangeOrder : Increments → Increments) (snsEvent : SNSEvent) (w : World σ)
    (increments : Increments)
    (hInc : incrementsOf g snsEvent = .returned (.ok increments))
    (hOrder : (rangeOrder increments).Perm increments) :
    (increments.map Prod.fst).Nodup
    ∧ adjusted w.calls.length (Handler g dataSvc rangeOrder snsEvent w).2
        <+: rangeOrder increments
    ∧ ((Handler g dataSvc rangeOrder snsEvent w).1 = .returned none →
      (adjusted w.calls.length (Handler g dataSvc rangeOrder snsEvent w).2).Perm increments
      ∧ ∀ x ∈ adjustErrors w.calls.length (Handler g dataSvc rangeOrder snsEvent w).2,
          x = none)
    ∧ (∀ err, (Handler g dataSvc rangeOrder snsEvent w).1 = .returned (some err) →
      ∃ front, adjustErrors w.calls.length (Handler g dataSvc rangeOrder snsEvent w).2
          = front ++ [some err]
        ∧ ∀ x ∈ front, x = none) := by
  obtain ⟨h1, h2, h3⟩ := persist_log dataSvc (rangeOrder increments) w
  rw [Handler_of_increments g dataSvc rangeOrder snsEvent w increments hInc]
  refine ⟨incrementsOf_nodup g snsEvent increments hInc, h1, ?_, ?_⟩
  · intro h
    have hn : (persist dataSvc (rangeOrder increments) w).1 = none := by
      simpa using h
    obtain ⟨a, b⟩ := h2 hn
    exact ⟨by simp only [a]; exact hOrder, b⟩
  · intro err h
    have hn : (persist dataSvc (rangeOrder increments) w).1 = some err := by
      simpa using h
    exact h3 err hn

/-- Example, with the variables as `init` was meant to leave them: for an
account created in status `Ready`, the counter
store gets the two adjustments, and the store that refuses the counter of
`Ready` gets both calls and `Handler` returns the error of the second. -/
theorem Handler_adjusts_each_counter_once_witness :
    ((adjusted 0 (Handler sampleGlobals counterStore id (createdEvent "Ready")
        ⟨zeroCounters, []⟩).2).Perm [(TotalAccountsCount, 1), (ReadyAccountsCount, 1)]
      ∧ ∀ x ∈ adjustErrors 0 (Handler sampleGlobals counterStore id (createdEvent "Ready")
          ⟨zeroCounters, []⟩).2, x = none)
    ∧ ∃ front, adjustErrors 0 (Handler sampleGlobals refusingStore id (createdEvent "Ready")
          ⟨0, []⟩).2 = front ++ [some (.foreign none "adjustment failed")]
        ∧ ∀ x ∈ front, x = none :=
  ⟨(Handler_adjusts_each_counter_once sampleGlobals counterStore id (createdEvent "Ready")
      ⟨zeroCounters, []⟩ [(TotalAccountsCount, 1), (ReadyAccountsCount, 1)] rfl
      (List.Perm.refl _)).2.2.1 rfl,
    (Handler_adjusts_each_counter_once sampleGlobals refusingStore id (createdEvent "Ready")
      ⟨0, []⟩ [(TotalAccountsCount, 1), (ReadyAccountsCount, 1)] rfl
      (List.Perm.refl _)).2.2.2 (.foreign none "adjustment failed") rfl⟩

/-- C29: two events with the same first record, or both without a record,
make `Handler` produce the same result, the same store state and the same
adjustments: the records beyond the first are not read. -/
theorem Handler_reads_first_record_only (g : Globals) (dataSvc : DataSvc σ)
    (rangeOrder : Increments → Increments) (a b : SNSEvent) (w : World σ)
    (hFirst : a.Records.head? = b.Records.head?) :
    incrementsOf g a = incrementsOf g b
    ∧ Handler g dataSvc rangeOrder a w = Handler g dataSvc rangeOrder b w := by
  have h : incrementsOf g a = incrementsOf g b := by
    unfold incrementsOf
    cases ha : a.Records with
    | nil =>
      cases hb : b.Records with
      | nil => rfl
      | cons y ys => rw [ha, hb] at hFirst; cases hFirst
    | cons x xs =>
      cases hb : b.Records with
      | nil => rw [ha, hb] at hFirst; cases hFirst
      | cons y ys =>
        rw [ha, hb] at hFirst
        simp only [List.head?_cons, Option.some.injEq] at hFirst
        subst hFirst
        rfl
  exact ⟨h, by unfold Handler; rw [h]⟩

/-- Witness of C29: the event of two records is handled as the event that
holds only its first record, an account created in status `Ready`. -/
theorem Handler_reads_first_record_only_witness :
    incrementsOf sampleGlobals twoRecordEvent = incrementsOf sampleGlobals (createdEvent "Ready")
    ∧ Handler sampleGlobals counterStore id twoRecordEvent ⟨zeroCounters, []⟩
      = Handler sampleGlobals counterStore id (createdEvent "Ready") ⟨zeroCounters, []⟩ :=
  Handler_reads_first_record_only sampleGlobals counterStore id twoRecordEvent
    (createdEvent "Ready") ⟨zeroCounters, []⟩ rfl

end AccountPoolMetrics
end Dce

/-! ## Theorems: configuration values from the parameter store -/

namespace Dce
namespace config
variable {σ : Type}

/-- After the assignment `m[key] = val` to a key that the map holds, the first
entry under that key holds the assigned value. -/
theorem GoMap.find?_map_set {α : Type} (m : GoMap α) (key : String) (val : α)
    (h : m.any (fun e => e.1 == key) = true) :
    (m.map fun e => if e.1 == key then (key, val) else e).find? (fun e => e.1 == key)
      = some (key, val) := by
  induction m with
  | nil => simp at h
  | cons e rest ih =>
    by_cases he : e.1 = key
    · have ht : (e.1 == key) = true := by simpa using he
      have hfe : (if (e.1 == key) = true then (key, val) else e) = (key, val) := if_pos ht
      simp only [List.map_cons]
      rw [hfe, List.find?_cons]
      simp only [beq_self_eq_true]
    · have hf : (e.1 == key) = false := by simpa using he
      have hrest : rest.any (fun e => e.1 == key) = true := by
        simpa [List.any_cons, hf] using h
      have hfe : (if (e.1 == key) = true then (key, val) else e) = e :=
        if_neg (by rw [hf]; simp)
      simp only [List.map_cons]
      rw [hfe, List.find?_cons, hf]
      exact ih hrest

/-- Looking up the key that was just assigned yields the assigned value. -/
theorem GoMap.get?_set_self {α : Type} (m : GoMap α) (key : String) (val : α) :
    (m.set key val).get? key = some val := by
  unfold GoMap.set GoMap.get?
  split
  · rename_i hany
    rw [GoMap.find?_map_set m key val hany]
    rfl
  · rename_i hany
    have hnone : m.find? (fun e => e.1 == key) = none := by
      rw [List.find?_eq_none]
      intro e he hk
      exact hany (List.any_eq_true.2 ⟨e, he, hk⟩)
    simp [List.find?_append, hnone]

/-- When the environment variable is unset, `WithParameterStoreEnv` stores
the default value under the key. -/
theorem WithParameterStoreEnv_unset (LookupEnv : String → Option String)
    (config : ConfigurationBuilder σ) (key envVar defaultValue : String)
    (hUnset : LookupEnv envVar = none) :
    (config.WithParameterStoreEnv LookupEnv key envVar defaultValue).stored key
      = some (.str defaultValue) := by
  simp [ConfigurationBuilder.WithParameterStoreEnv, hUnset, ConfigurationBuilder.stored,
    GoMap.get?_set_self]

/-- When the parameter store reports the one parameter asked for as invalid,
`RetrieveParameterStoreVals` stores the default value under its key. -/
theorem RetrieveParameterStoreVals_invalid_parameter :
    (((({} : ConfigurationBuilder Nat).WithService (.ssm emptyStore)).WithParameterStoreEnv
        sampleEnv "api" "API_PARAM" "http://localhost").RetrieveParameterStoreVals id id 0).1
      = .returned (none,
          { values := some ⟨[.ssm emptyStore], [("api", .str "http://localhost")]⟩ }) := by
  rfl

/-- C25 fails on the code: a key is registered with `WithParameterStoreEnv`
under an environment variable that is set, and the parameter store cannot be
reached when `RetrieveParameterStoreVals` runs.  The method returns the error
of `GetParameters`, and the value stored under the key is still the
`ParameterStoreVal`, not the default value. -/
theorem RetrieveParameterStoreVals_error_keeps_reference :
    (((({} : ConfigurationBuilder Nat).WithService (.ssm unreachableStore)).WithParameterStoreEnv
        sampleEnv "api" "API_PARAM" "http://localhost").RetrieveParameterStoreVals id id 0).1
      = .returned (some (.foreign none "RequestError: send request failed"),
          { values := some ⟨[.ssm unreachableStore],
              [("api", .param ⟨"api", "/dce/api", "http://localhost"⟩)]⟩ })
    ∧ ConfigurationBuilder.stored
        ({ values := some ⟨[.ssm unreachableStore],
            [("api", .param ⟨"api", "/dce/api", "http://localhost"⟩)]⟩ }
          : ConfigurationBuilder Nat) "api"
        = some (.param ⟨"api", "/dce/api", "http://localhost"⟩)
    ∧ Val.param ⟨"api", "/dce/api", "http://localhost"⟩ ≠ Val.str "http://localhost" := by
  refine ⟨rfl, rfl, ?_⟩
  intro h
  cases h

/-- Two keys registered for one parameter name share one entry of
`valsToRetrieve`: when the parameter store reports the name as invalid, only
the key registered last gets its default value, and the other keeps its
`ParameterStoreVal`. -/
theorem RetrieveParameterStoreVals_shared_name :
    ((((({} : ConfigurationBuilder Nat).WithService (.ssm emptyStore)).WithParameterStoreEnv
        sampleEnv "host" "DB_HOST_PARAM" "localhost").WithParameterStoreEnv
        sampleEnv "port" "DB_PORT_PARAM" "5432").RetrieveParameterStoreVals id id 0).1
      = .returned (none,
          { values := some ⟨[.ssm emptyStore],
              [("host", .param ⟨"host", "/dce/db", "localhost"⟩), ("port", .str "5432")]⟩ }) := by
  rfl

end config
end Dce

/-! ## Theorems: the budget lambda in terms of the lease service -/

namespace Dce
namespace EndOverBudgetLease
open lease (StatusReason Leases)
variable {σ : Type}

/-- On a page whose leases all have an ID, the page visitor makes exactly the
`Delete` calls of `endEach`, leaves the state they leave, and collects the
errors of those that failed. -/
theorem visitPage_eq_endEach (Services : leaseiface.Servicer σ) (leases : Leases)
    (hIDs : ∀ l ∈ leases, l.ID.isSome = true) :
    ∀ (w : World σ) (d : List Error),
      visitPage Services leases w d =
        (.returned true,
          { state := (endEach Services (leases.filterMap fun l => l.ID) w.state).2,
            calls := w.calls ++ (endEach Services (leases.filterMap fun l => l.ID) w.state).1 },
          d ++ failedDeletes (endEach Services (leases.filterMap fun l => l.ID) w.state).1) := by
  induction leases with
  | nil => intro w d; simp [visitPage, endEach, failedDeletes]
  | cons l rest ih =>
    intro w d
    have hl := hIDs l (List.mem_cons_self _ _)
    have hrest : ∀ x ∈ rest, x.ID.isSome = true :=
      fun x hx => hIDs x (List.mem_cons_of_mem _ hx)
    obtain ⟨ID, hID⟩ := Option.isSome_iff_exists.1 hl
    have hf : (List.filterMap (fun l : lease.Lease => l.ID) (l :: rest))
        = ID :: List.filterMap (fun l : lease.Lease => l.ID) rest := by
      simp [List.filterMap_cons, hID]
    rw [hf]
    cases hd : (Services.Delete ID .OverPrincipalBudget w.state).1.2 with
    | none =>
      simp only [visitPage, hID, callDelete, hd, ih hrest, endEach]
      simp [failedDeletes]
    | some err =>
      simp only [visitPage, hID, callDelete, hd, ih hrest, endEach]
      simp [failedDeletes]

/-- Over a course of paging whose leases all have an ID, paging against the
page visitor makes exactly the visits and `Delete` calls of `endEveryPage`,
returns the error with which the course ends, leaves its final state, and
collects the errors of the `Delete` calls that failed. -/
theorem runPages_eq_endEveryPage (Services : leaseiface.Servicer σ)
    (p : leaseiface.Paging σ) :
    p.AllLeases (fun l => l.ID.isSome = true) →
    ∀ (w : World σ) (d : List Error),
      runPages (visitPage Services) p w d =
        (.returned (endEveryPage Services p).2.1,
          { state := (endEveryPage Services p).2.2,
            calls := w.calls ++ (endEveryPage Services p).1 },
          d ++ failedDeletes (endEveryPage Services p).1) := by
  induction p with
  | finish err s => intro _ w d; simp [runPages, endEveryPage, failedDeletes]
  | page leases s next ih =>
    intro h w d
    obtain ⟨h1, h2⟩ := h
    have hv := visitPage_eq_endEach Services leases h1
      { state := s, calls := w.calls ++ [.visit leases] } d
    simp only [runPages, hv]
    rw [ih _ (h2 _)]
    simp [endEveryPage, failedDeletes, List.filterMap_append]

/-- The run of `handleRecord` on an over-ceiling principal summary whose
listing delivers only leases with an ID, in terms of the lease service. -/
theorem handleRecord_eq_endEveryPage (Services : leaseiface.Servicer σ)
    (Settings : lambdaConfig) (record : DynamoDBEventRecord) (w : World σ)
    (summary : usage.Principal) (principalID : String) (cost : Float64)
    (hEvent : record.EventName = "INSERT" ∨ record.EventName = "MODIFY")
    (hNotLease : MatchString UsageLeaseSkSummaryPrefix record.SK = false)
    (hKind : MatchString UsagePrincipalSkPrefix record.SK = true)
    (hDecode : record.asPrincipal = .ok summary)
    (hID : summary.PrincipalID = some principalID)
    (hCost : summary.CostAmount = some cost)
    (hOver : cost.ge Settings.PrincipalBudgetAmount = true)
    (hIDs : (Services.ListPages
        { PrincipalID := some principalID, Status := some lease.StatusActive } w.state).AllLeases
          (fun l => l.ID.isSome = true)) :
    handleRecord Services Settings ⟨record⟩ w =
      (.returned (principalResult principalID
          (endEveryPage Services (Services.ListPages
            { PrincipalID := some principalID, Status := some lease.StatusActive }
            w.state)).2.1
          (failedDeletes (endEveryPage Services (Services.ListPages
            { PrincipalID := some principalID, Status := some lease.StatusActive }
            w.state)).1)),
        { state := (endEveryPage Services (Services.ListPages
            { PrincipalID := some principalID, Status := some lease.StatusActive }
            w.state)).2.2,
          calls := w.calls ++
            Call.ListPages { PrincipalID := some principalID, Status := some lease.StatusActive }
              :: ((endEveryPage Services (Services.ListPages
                { PrincipalID := some principalID, Status := some lease.StatusActive }
                w.state)).1
              ++ [Call.ListPagesReturn (endEveryPage Services (Services.ListPages
                { PrincipalID := some principalID, Status := some lease.StatusActive }
                w.state)).2.1]) }) := by
  rw [handleRecord_eq_principal Services Settings record w hEvent hNotLease hKind]
  have hr := runPages_eq_endEveryPage Services _ hIDs
    { state := w.state, calls := w.calls ++
      [Call.ListPages { PrincipalID := some principalID, Status := some lease.StatusActive }] } []
  simp only [handlePrincipalUsageRecord, hDecode, isPrincipalOverBudget, hID, hCost, hOver,
    callListPages, hr, hID]
  cases herr : (endEveryPage Services (Services.ListPages
      { PrincipalID := some principalID, Status := some lease.StatusActive } w.state)).2.1 with
  | some e => simp [principalResult]
  | none =>
    simp only [principalResult, List.nil_append]
    split <;> simp

end EndOverBudgetLease
end Dce

namespace Dce
namespace EndOverBudgetLease
open lease (StatusReason Leases)
variable {σ : Type}

/-- Paging that starts with a page hands that page to the visitor first. -/
theorem runPages_page_log (Services : leaseiface.Servicer σ) (leases : Leases) (s : σ)
    (next : σ → leaseiface.Paging σ) (w : World σ) (d : List Error) :
    ∃ rest, (runPages (visitPage Services) (.page leases s next) w d).2.1.calls
      = w.calls ++ Call.visit leases :: rest := by
  obtain ⟨segV, v1, _⟩ := visitPage_log Services leases
    { state := s, calls := w.calls ++ [.visit leases] } d
  rcases hv : visitPage Services leases { state := s, calls := w.calls ++ [.visit leases] } d
    with ⟨o, w', d'⟩
  rw [hv] at v1
  simp only at v1
  cases o with
  | panicked => exact ⟨segV, by simp [runPages, hv, v1]⟩
  | returned b =>
    cases b with
    | false => exact ⟨segV, by simp [runPages, hv, v1]⟩
    | true =>
      obtain ⟨seg, r1, _⟩ := runPages_log Services (next w'.state) w' d'
      refine ⟨segV ++ seg, ?_⟩
      have hrun : runPages (visitPage Services) (.page leases s next) w d
          = runPages (visitPage Services) (next w'.state) w' d' := by
        simp [runPages, hv]
      rw [hrun, r1, v1]
      simp

/-- C2: on an INSERT or MODIFY record that is classified as a principal
summary and decodes to a summary with principal ID and cost, when
`cost >= ceiling` holds (equality included) `handleRecord` calls `ListPages`
of the lease service once, on the query of that principal ID and status
`Active` and on the state it started from: when that call delivers no page,
`handleRecord` returns its error, wrapped, and leaves the state the call left;
when it delivers a page, that page is handed to the visitor next; and when
every lease it can deliver has an ID, the result, the final state and the log
are those of visiting every page of that call.  When `cost >= ceiling` fails,
in particular when `cost < ceiling`, it returns nil and leaves state and log
as they were.  The default ceiling is 100. -/
theorem handleRecord_principal_calls_ListPages (Services : leaseiface.Servicer σ)
    (Settings : lambdaConfig) (record : DynamoDBEventRecord) (w : World σ)
    (summary : usage.Principal) (principalID : String) (cost : Float64)
    (hEvent : record.EventName = "INSERT" ∨ record.EventName = "MODIFY")
    (hNotLease : MatchString UsageLeaseSkSummaryPrefix record.SK = false)
    (hKind : MatchString UsagePrincipalSkPrefix record.SK = true)
    (hDecode : record.asPrincipal = .ok summary)
    (hID : summary.PrincipalID = some principalID)
    (hCost : summary.CostAmount = some cost) :
    (cost.ge Settings.PrincipalBudgetAmount = true →
      (∃ rest : List Call,
        (handleRecord Services Settings ⟨record⟩ w).2.calls = w.calls ++
          Call.ListPages { PrincipalID := some principalID, Status := some lease.StatusActive }
            :: rest
        ∧ ∀ c ∈ rest, ∀ query, c ≠ Call.ListPages query)
      ∧ (∀ (err : Option Error) (s : σ),
        Services.ListPages { PrincipalID := some principalID, Status := some lease.StatusActive }
          w.state = .finish err s →
        handleRecord Services Settings ⟨record⟩ w =
          (.returned (principalResult principalID err []),
            { state := s,
              calls := w.calls ++
                [Call.ListPages
                  { PrincipalID := some principalID, Status := some lease.StatusActive },
                 Call.ListPagesReturn err] }))
      ∧ (∀ (leases : Leases) (s : σ) (next : σ → leaseiface.Paging σ),
        Services.ListPages { PrincipalID := some principalID, Status := some lease.StatusActive }
          w.state = .page leases s next →
        ∃ rest : List Call,
          (handleRecord Services Settings ⟨record⟩ w).2.calls = w.calls ++
            Call.ListPages { PrincipalID := some principalID, Status := some lease.StatusActive }
              :: Call.visit leases :: rest)
      ∧ ((Services.ListPages
            { PrincipalID := some principalID, Status := some lease.StatusActive }
            w.state).AllLeases (fun l => l.ID.isSome = true) →
        handleRecord Services Settings ⟨record⟩ w =
          (.returned (principalResult principalID
              (endEveryPage Services (Services.ListPages
                { PrincipalID := some principalID, Status := some lease.StatusActive }
                w.state)).2.1
              (failedDeletes (endEveryPage Services (Services.ListPages
                { PrincipalID := some principalID, Status := some lease.StatusActive }
                w.state)).1)),
            { state := (endEveryPage Services (Services.ListPages
                { PrincipalID := some principalID, Status := some lease.StatusActive }
                w.state)).2.2,
              calls := w.calls ++
                Call.ListPages
                  { PrincipalID := some principalID, Status := some lease.StatusActive }
                  :: ((endEveryPage Services (Services.ListPages
                    { PrincipalID := some principalID, Status := some lease.StatusActive }
                    w.state)).1
                  ++ [Call.ListPagesReturn (endEveryPage Services (Services.ListPages
                    { PrincipalID := some principalID, Status := some lease.StatusActive }
                    w.state)).2.1]) })))
    ∧ (cost.ge Settings.PrincipalBudgetAmount = false →
      handleRecord Services Settings ⟨record⟩ w = (.returned none, w))
    ∧ (cost.lt Settings.PrincipalBudgetAmount = true →
      handleRecord Services Settings ⟨record⟩ w = (.returned none, w))
    ∧ defaultSettings.PrincipalBudgetAmount = .Finite 100 := by
  obtain ⟨hold, hno, hlt, hdef⟩ := handleRecord_principal_summary Services Settings record w
    summary principalID cost hEvent hNotLease hKind hDecode hID hCost
  refine ⟨fun hOver => ⟨hold hOver, ?_, ?_, ?_⟩, hno, hlt, hdef⟩
  · intro err s hfin
    have h := handleRecord_eq_endEveryPage Services Settings record w summary principalID cost
      hEvent hNotLease hKind hDecode hID hCost hOver (by rw [hfin]; trivial)
    rw [h, hfin]
    simp [endEveryPage, failedDeletes]
  · intro leases s next hpage
    rw [handleRecord_eq_principal Services Settings record w hEvent hNotLease hKind]
    obtain ⟨rest, hrest⟩ := runPages_page_log Services leases s next
      { state := w.state, calls := w.calls ++
        [Call.ListPages { PrincipalID := some principalID, Status := some lease.StatusActive }] }
      []
    rcases hrun : runPages (visitPage Services) (.page leases s next)
      { state := w.state, calls := w.calls ++
        [Call.ListPages { PrincipalID := some principalID, Status := some lease.StatusActive }] }
      [] with ⟨o, w', d'⟩
    rw [hrun] at hrest
    simp only at hrest
    cases o with
    | panicked =>
      refine ⟨rest, ?_⟩
      simp [handlePrincipalUsageRecord, hDecode, isPrincipalOverBudget, hID, hCost, hOver,
        callListPages, hpage, hrun, hrest]
    | returned err =>
      refine ⟨rest ++ [Call.ListPagesReturn err], ?_⟩
      cases err <;>
        simp [handlePrincipalUsageRecord, hDecode, isPrincipalOverBudget, hID, hCost, hOver,
          callListPages, hpage, hrun, hrest]
      split <;> simp
  · intro hIDs
    exact handleRecord_eq_endEveryPage Services Settings record w summary principalID cost
      hEvent hNotLease hKind hDecode hID hCost hOver hIDs

/-- Witness of C2: the principal summary at the default ceiling, over the
counting service: the listing is called on the state 0 and leaves 10, the two
`Delete` calls leave 12. -/
theorem handleRecord_principal_calls_ListPages_witness :
    handleRecord countingService defaultSettings ⟨principalAtCeiling⟩ ⟨0, []⟩ =
      (.returned (some (NewMultiError "Failed to delete one or more leases"
          [.foreign none "delete failed"])),
        ⟨12, [Call.ListPages { PrincipalID := some "user1", Status := some lease.StatusActive },
          Call.visit [{ ID := some "l1" }, { ID := some "l2" }],
          Call.Delete "l1" .OverPrincipalBudget (some (.foreign none "delete failed")),
          Call.Delete "l2" .OverPrincipalBudget none,
          Call.ListPagesReturn none]⟩) :=
  ((handleRecord_principal_calls_ListPages countingService defaultSettings principalAtCeiling
    ⟨0, []⟩ { PrincipalID := some "user1", CostAmount := some (.Finite 100) } "user1"
    (.Finite 100) (Or.inr rfl) (by decide) (by decide) rfl rfl rfl).1 (by decide)).2.2.2
    (by simp [countingService, leaseiface.Paging.AllLeases])

/-- The `Delete` attempts of `endEach` are its lease IDs, in order, each with
reason `OverPrincipalBudget`. -/
theorem deleteAttempts_endEach (Services : leaseiface.Servicer σ) (IDs : List String) :
    ∀ s : σ, deleteAttempts (endEach Services IDs s).1
      = IDs.map (fun ID => (ID, StatusReason.OverPrincipalBudget)) := by
  induction IDs with
  | nil => intro s; simp [endEach, deleteAttempts]
  | cons ID rest ih =>
    intro s
    have := ih (Services.Delete ID .OverPrincipalBudget s).2
    simp only [deleteAttempts] at this
    simp [endEach, deleteAttempts, this]

/-- C3: on an over-ceiling principal summary, when every lease that the
listing can deliver has an ID, `handleRecord` returns, and its result, the
final state and the log are those of calling `ListPages` of the lease service
on the state it started from and, for every page in turn, `Delete` of the
lease service with reason `OverPrincipalBudget` once for every lease of the
page, in order, each from the state the call before left and whatever errors
the calls return; and the page visitor never returns `false`. -/
theorem handleRecord_ends_every_listed_lease (Services : leaseiface.Servicer σ)
    (Settings : lambdaConfig) (record : DynamoDBEventRecord) (w : World σ)
    (summary : usage.Principal) (principalID : String) (cost : Float64)
    (hEvent : record.EventName = "INSERT" ∨ record.EventName = "MODIFY")
    (hNotLease : MatchString UsageLeaseSkSummaryPrefix record.SK = false)
    (hKind : MatchString UsagePrincipalSkPrefix record.SK = true)
    (hDecode : record.asPrincipal = .ok summary)
    (hID : summary.PrincipalID = some principalID)
    (hCost : summary.CostAmount = some cost)
    (hOver : cost.ge Settings.PrincipalBudgetAmount = true)
    (hIDs : (Services.ListPages
        { PrincipalID := some principalID, Status := some lease.StatusActive } w.state).AllLeases
          (fun l => l.ID.isSome = true)) :
    handleRecord Services Settings ⟨record⟩ w =
      (.returned (principalResult principalID
          (endEveryPage Services (Services.ListPages
            { PrincipalID := some principalID, Status := some lease.StatusActive }
            w.state)).2.1
          (failedDeletes (endEveryPage Services (Services.ListPages
            { PrincipalID := some principalID, Status := some lease.StatusActive }
            w.state)).1)),
        { state := (endEveryPage Services (Services.ListPages
            { PrincipalID := some principalID, Status := some lease.StatusActive }
            w.state)).2.2,
          calls := w.calls ++
            Call.ListPages { PrincipalID := some principalID, Status := some lease.StatusActive }
              :: ((endEveryPage Services (Services.ListPages
                { PrincipalID := some principalID, Status := some lease.StatusActive }
                w.state)).1
              ++ [Call.ListPagesReturn (endEveryPage Services (Services.ListPages
                { PrincipalID := some principalID, Status := some lease.StatusActive }
                w.state)).2.1]) })
    ∧ (∀ (leases : Leases) (s : σ), (∀ l ∈ leases, l.ID.isSome = true) →
        (∀ (w' : World σ) (d : List Error),
          visitPage Services leases w' d =
            (.returned true,
              { state := (endEach Services (leases.filterMap fun l => l.ID) w'.state).2,
                calls := w'.calls
                  ++ (endEach Services (leases.filterMap fun l => l.ID) w'.state).1 },
              d ++ failedDeletes
                (endEach Services (leases.filterMap fun l => l.ID) w'.state).1))
        ∧ (deleteAttempts (endEach Services (leases.filterMap fun l => l.ID) s).1).map
            (fun a => (some a.1, a.2))
          = leases.map (fun l => (l.ID, StatusReason.OverPrincipalBudget)))
    ∧ ∀ (leases : Leases) (w' : World σ) (deferredErrors : List Error),
        (visitPage Services leases w' deferredErrors).1 ≠ .returned false := by
  refine ⟨handleRecord_eq_endEveryPage Services Settings record w summary principalID cost
    hEvent hNotLease hKind hDecode hID hCost hOver hIDs, ?_, ?_⟩
  · intro leases s hl
    refine ⟨visitPage_eq_endEach Services leases hl, ?_⟩
    rw [deleteAttempts_endEach]
    clear hIDs
    induction leases with
    | nil => simp
    | cons l rest ih =>
      have h1 := hl l (List.mem_cons_self _ _)
      obtain ⟨ID, hID'⟩ := Option.isSome_iff_exists.1 h1
      have := ih (fun x hx => hl x (List.mem_cons_of_mem _ hx))
      simp [List.filterMap_cons, hID', this]
  · intro leases w' d
    obtain ⟨_, _, _, _, h, _⟩ := visitPage_log Services leases w' d
    exact h

/-- Witness of C3: the principal summary at the default ceiling, over the
counting service, whose first `Delete` fails. -/
theorem handleRecord_ends_every_listed_lease_witness :
    handleRecord countingService defaultSettings ⟨principalAtCeiling⟩ ⟨0, []⟩ =
      (.returned (some (NewMultiError "Failed to delete one or more leases"
          [(countingService.Delete "l1" .OverPrincipalBudget 10).1.2.getD
            (.foreign none "")])),
        ⟨(countingService.Delete "l2" .OverPrincipalBudget
            (countingService.Delete "l1" .OverPrincipalBudget 10).2).2,
          [Call.ListPages { PrincipalID := some "user1", Status := some lease.StatusActive },
          Call.visit [{ ID := some "l1" }, { ID := some "l2" }],
          Call.Delete "l1" .OverPrincipalBudget
            (countingService.Delete "l1" .OverPrincipalBudget 10).1.2,
          Call.Delete "l2" .OverPrincipalBudget
            (countingService.Delete "l2" .OverPrincipalBudget
              (countingService.Delete "l1" .OverPrincipalBudget 10).2).1.2,
          Call.ListPagesReturn none]⟩) :=
  (handleRecord_ends_every_listed_lease countingService defaultSettings principalAtCeiling
    ⟨0, []⟩ { PrincipalID := some "user1", CostAmount := some (.Finite 100) } "user1"
    (.Finite 100) (Or.inr rfl) (by decide) (by decide) rfl rfl rfl (by decide)
    (by simp [countingService, leaseiface.Paging.AllLeases])).1

end EndOverBudgetLease
end Dce

namespace Dce
namespace EndOverBudgetLease
open lease (StatusReason Leases)
variable {σ : Type}

/-- On a batch whose decoded summaries have their fields present, over a
listing whose leases all have an ID, no record makes `handleRecord` panic. -/
theorem perRecord_returns (Services : leaseiface.Servicer σ) (Settings : lambdaConfig)
    (hIDs : ∀ (query : lease.Lease) (s : σ),
      (Services.ListPages query s).AllLeases (fun l => l.ID.isSome = true))
    (Records : List DynamoDBEventRecord) :
    (∀ record ∈ Records,
      MatchString UsageLeaseSkSummaryPrefix record.SK = true →
      ∀ s, record.asLease = .ok s →
        s.LeaseID.isSome = true ∧ s.CostAmount.isSome = true ∧ s.BudgetAmount.isSome = true) →
    (∀ record ∈ Records,
      MatchString UsageLeaseSkSummaryPrefix record.SK = false →
      MatchString UsagePrincipalSkPrefix record.SK = true →
      ∀ s, record.asPrincipal = .ok s →
        s.PrincipalID.isSome = true ∧ s.CostAmount.isSome = true) →
    ∀ w : World σ, ∀ r ∈ (perRecord Services Settings Records w).1, r ≠ .panicked := by
  induction Records with
  | nil => intro _ _ w r hr; simp [perRecord] at hr
  | cons rec rest ih =>
    intro hLease hPrincipal w r hr
    simp only [perRecord, List.mem_cons] at hr
    rcases hr with rfl | hr
    · exact handleRecord_returns Services Settings rec
        (hLease rec (List.mem_cons_self _ _)) (hPrincipal rec (List.mem_cons_self _ _)) hIDs w
    · exact ih (fun x hx => hLease x (List.mem_cons_of_mem _ hx))
        (fun x hx => hPrincipal x (List.mem_cons_of_mem _ hx)) _ r hr

/-- C6, amended: for every batch in which each lease-summary record that
decodes has lease ID, cost and budget present, each principal-summary record
that decodes has principal ID and cost present, and every lease the listing
can deliver has an ID, `handler` runs `handleRecord` on every record in order,
each from the state and log its predecessor left and whatever errors the
records before returned; it returns nil if and only if every per-record
result is nil, and otherwise returns the `MultiError` whose list is exactly
the non-nil per-record errors in record order. -/
theorem handler_collects_errors_of_every_record (Services : leaseiface.Servicer σ)
    (Settings : lambdaConfig) (Records : List DynamoDBEventRecord) (w : World σ)
    (hLease : ∀ record ∈ Records,
      MatchString UsageLeaseSkSummaryPrefix record.SK = true →
      ∀ s, record.asLease = .ok s →
        s.LeaseID.isSome = true ∧ s.CostAmount.isSome = true ∧ s.BudgetAmount.isSome = true)
    (hPrincipal : ∀ record ∈ Records,
      MatchString UsageLeaseSkSummaryPrefix record.SK = false →
      MatchString UsagePrincipalSkPrefix record.SK = true →
      ∀ s, record.asPrincipal = .ok s →
        s.PrincipalID.isSome = true ∧ s.CostAmount.isSome = true)
    (hIDs : ∀ (query : lease.Lease) (s : σ),
      (Services.ListPages query s).AllLeases (fun l => l.ID.isSome = true)) :
    (perRecord Services Settings Records w).1.length = Records.length
    ∧ (∀ r ∈ (perRecord Services Settings Records w).1, r ≠ .panicked)
    ∧ (handler Services Settings Records w).2 = (perRecord Services Settings Records w).2
    ∧ ((handler Services Settings Records w).1 = .returned none ↔
        ∀ r ∈ (perRecord Services Settings Records w).1, r = .returned none)
    ∧ (¬ (∀ r ∈ (perRecord Services Settings Records w).1, r = .returned none) →
        (handler Services Settings Records w).1 = .returned (some
          (NewMultiError "Failed to handle DynDB Event"
            (recordErrors (perRecord Services Settings Records w).1)))) := by
  have hReturns := perRecord_returns Services Settings hIDs Records hLease hPrincipal w
  obtain ⟨h1, h2, h3, h4⟩ :=
    handler_collects_record_errors Services Settings Records w hReturns
  exact ⟨h1, hReturns, h2, h3, h4⟩

/-- Witness of C6, amended: a batch whose first record fails and whose second
is still handled. -/
theorem handler_collects_errors_of_every_record_witness :
    (handler sampleService defaultSettings [leaseBadOverBudget, leaseAtBudget] ⟨0, []⟩).2
      = (perRecord sampleService defaultSettings [leaseBadOverBudget, leaseAtBudget] ⟨0, []⟩).2
    ∧ (handler sampleService defaultSettings [leaseBadOverBudget, leaseAtBudget] ⟨0, []⟩).2.calls
      = [Call.Delete "bad" .OverBudget (some (.foreign none "delete failed")),
         Call.Delete "l1" .OverBudget none]
    ∧ recordErrors
        (perRecord sampleService defaultSettings [leaseBadOverBudget, leaseAtBudget] ⟨0, []⟩).1
      = [.InternalServer "Failed to delete lease for leaseID bad"
          (.foreign none "delete failed")] :=
  ⟨(handler_collects_errors_of_every_record sampleService defaultSettings
      [leaseBadOverBudget, leaseAtBudget] ⟨0, []⟩
      (by
        intro record hr _ s hs
        simp only [List.mem_cons, List.mem_singleton, List.not_mem_nil, or_false] at hr
        rcases hr with rfl | rfl <;> cases hs <;> exact ⟨rfl, rfl, rfl⟩)
      (by
        intro record hr hl _ s hs
        simp only [List.mem_cons, List.mem_singleton, List.not_mem_nil, or_false] at hr
        rcases hr with rfl | rfl <;> exact absurd hl (by decide))
      (by intro q s; simp [sampleService, leaseiface.Paging.AllLeases])).2.2.1, rfl, rfl⟩

/-- C6 fails as stated: on the batch of a lease summary without a cost amount
followed by a lease summary at its budget, `handler` panics on the first
record (line 172 dereferences the nil cost amount) and the second record is
never handled: no `Delete` is called, although `handleRecord` on the second
record calls `Delete`; `handler` returns neither nil nor a `MultiError`. -/
theorem handler_aborts_on_missing_cost :
    handler sampleService defaultSettings [leaseWithoutCost, leaseAtBudget] ⟨0, []⟩
        = (.panicked, ⟨0, []⟩)
    ∧ (handleRecord sampleService defaultSettings ⟨leaseAtBudget⟩ ⟨0, []⟩).2.calls
        = [Call.Delete "l1" .OverBudget none]
    ∧ ¬ ((handler sampleService defaultSettings [leaseWithoutCost, leaseAtBudget] ⟨0, []⟩).2
          = (perRecord sampleService defaultSettings [leaseWithoutCost, leaseAtBudget]
              ⟨0, []⟩).2
        ∧ ((handler sampleService defaultSettings [leaseWithoutCost, leaseAtBudget]
              ⟨0, []⟩).1 = .returned none ↔
            ∀ r ∈ (perRecord sampleService defaultSettings [leaseWithoutCost, leaseAtBudget]
              ⟨0, []⟩).1, r = .returned none)
        ∧ (¬ (∀ r ∈ (perRecord sampleService defaultSettings [leaseWithoutCost, leaseAtBudget]
              ⟨0, []⟩).1, r = .returned none) →
            (handler sampleService defaultSettings [leaseWithoutCost, leaseAtBudget]
              ⟨0, []⟩).1 = .returned (some
                (NewMultiError "Failed to handle DynDB Event"
                  (recordErrors (perRecord sampleService defaultSettings
                    [leaseWithoutCost, leaseAtBudget] ⟨0, []⟩).1))))) := by
  refine ⟨rfl, rfl, ?_⟩
  intro h
  have hcalls := congrArg World.calls h.1
  have e1 : (handler sampleService defaultSettings [leaseWithoutCost, leaseAtBudget]
      ⟨0, []⟩).2.calls = [] := rfl
  have e2 : (perRecord sampleService defaultSettings [leaseWithoutCost, leaseAtBudget]
      ⟨0, []⟩).2.calls = [Call.Delete "l1" .OverBudget none] := rfl
  rw [e1, e2] at hcalls
  cases hcalls

end EndOverBudgetLease
end Dce

/-! ## Theorems: the event publisher in terms of its sinks -/

namespace Dce
namespace event
variable {σ ι : Type}

/-- The loop of `publish` over sinks that all return nil invokes each sink
once, in list order. -/
theorem publishFrom_all (i : Payload ι) (p : List (Publisher σ ι)) :
    ∀ (k : Nat) (w : World σ ι), allPublish i p w.state = true →
      publishFrom k i p w =
        (none, { state := stateAfter i p w.state,
                 published := w.published ++ delivered k p.length i }) := by
  induction p with
  | nil => intro k w _; simp [publishFrom, stateAfter, delivered]
  | cons n rest ih =>
    intro k w h
    simp only [allPublish, Bool.and_eq_true, Option.isNone_iff_eq_none] at h
    obtain ⟨h1, h2⟩ := h
    have hrun : publishFrom k i (n :: rest) w = publishFrom (k + 1) i rest
        { state := (n.Publish i w.state).2, published := w.published ++ [⟨k, i, none⟩] } := by
      simp [publishFrom, h1]
    rw [hrun, ih (k + 1) _ h2]
    simp [stateAfter, delivered, List.range'_succ]

/-- The loop of `publish` stops at the first sink that returns an error. -/
theorem publishFrom_first_error (i : Payload ι) (pre : List (Publisher σ ι)) :
    ∀ (k : Nat) (w : World σ ι) (n : Publisher σ ι) (post : List (Publisher σ ι))
      (err : Error),
      allPublish i pre w.state = true →
      (n.Publish i (stateAfter i pre w.state)).1 = some err →
      publishFrom k i (pre ++ n :: post) w =
        (some err, { state := (n.Publish i (stateAfter i pre w.state)).2,
                     published := w.published ++ delivered k pre.length i
                       ++ [⟨k + pre.length, i, some err⟩] }) := by
  induction pre with
  | nil =>
    intro k w n post err _ herr
    simp only [stateAfter] at herr
    simp [publishFrom, herr, stateAfter, delivered]
  | cons m rest ih =>
    intro k w n post err h herr
    simp only [allPublish, Bool.and_eq_true, Option.isNone_iff_eq_none] at h
    obtain ⟨h1, h2⟩ := h
    simp only [stateAfter] at herr
    have hrun : publishFrom k i ((m :: rest) ++ n :: post) w
        = publishFrom (k + 1) i (rest ++ n :: post)
          { state := (m.Publish i w.state).2, published := w.published ++ [⟨k, i, none⟩] } := by
      simp [publishFrom, h1]
    rw [hrun, ih (k + 1) _ n post err h2 herr]
    simp [stateAfter, delivered, List.range'_succ, Nat.add_assoc, Nat.add_comm 1]

/-- C11: for every payload and every list of sinks, `publish` calls `Publish`
of the sinks in list order, each with the same payload and from the transport
state that the sink before it left.  When every sink returns nil, every sink
is invoked exactly once and nil is returned.  When the sink after the sinks
`pre` is the first to return an error, that error is returned, the state is
the one that sink left after the sinks `pre` each published once, and no sink
after it is invoked. -/
theorem publish_invokes_sinks_in_order (e : Service σ ι) (i : Payload ι)
    (p : List (Publisher σ ι)) (w : World σ ι) :
    (allPublish i p w.state = true →
      e.publish i p w =
        (none, { state := stateAfter i p w.state,
                 published := w.published ++ delivered 0 p.length i }))
    ∧ (∀ (pre : List (Publisher σ ι)) (n : Publisher σ ι) (post : List (Publisher σ ι))
        (err : Error),
        p = pre ++ n :: post →
        allPublish i pre w.state = true →
        (n.Publish i (stateAfter i pre w.state)).1 = some err →
        e.publish i p w =
          (some err, { state := (n.Publish i (stateAfter i pre w.state)).2,
                       published := w.published ++ delivered 0 pre.length i
                         ++ [⟨pre.length, i, some err⟩] }))
    ∧ delivered 0 p.length i = (List.range p.length).map (fun j => ⟨j, i, none⟩) := by
  refine ⟨?_, ?_, ?_⟩
  · intro h
    exact publishFrom_all i p 0 w h
  · intro pre n post err hp hall herr
    rw [hp]
    have := publishFrom_first_error i pre 0 w n post err hall herr
    simpa [Service.publish] using this
  · simp [delivered, List.range_eq_range']

/-- Witness of C11: of three sinks that add 1, 10 and 100 to the counter of
deliveries, the second fails: the first two are invoked, in that order, and
the third is not. -/
theorem publish_invokes_sinks_in_order_witness :
    Service.publish unsetService (.value ())
        [steppingSink 1 false, steppingSink 10 true, steppingSink 100 false] ⟨0, []⟩ =
      (some (.foreign none "publish failed"),
        ⟨11, [⟨0, .value (), none⟩, ⟨1, .value (), some (.foreign none "publish failed")⟩]⟩) :=
  (publish_invokes_sinks_in_order unsetService (.value ())
    [steppingSink 1 false, steppingSink 10 true, steppingSink 100 false] ⟨0, []⟩).2.1
    [steppingSink 1 false] (steppingSink 10 true) [steppingSink 100 false]
    (.foreign none "publish failed") rfl rfl rfl

/-- C20, amended: whether an endpoint is set or left unset, the service that
`NewService` builds has, for each of account creation, update, deletion and
reset and lease creation, a sink list of exactly the one publisher that the
constructor returned for that category's endpoint, and the method of each
category calls `Publish` of that publisher once, with the payload of the
method and on the transport state it started from, returns its error and
leaves the state it left. -/
theorem NewService_publishes_to_own_sink {sns sqs : Type}
    (NewSnsEvent : sns → String → Publisher σ ι × Option Error)
    (NewSqsEvent : sqs → String → Publisher σ ι × Option Error)
    (input : NewServiceInput sns sqs) (e : Service σ ι)
    (hBuilt : NewService NewSnsEvent NewSqsEvent input = .ok e) :
    (e.accountCreate = [(NewSnsEvent input.SnsClient input.AccountCreatedTopicArn).1]
      ∧ e.accountUpdate = [(NewSnsEvent input.SnsClient input.AccountUpdatedTopicArn).1]
      ∧ e.accountDelete = [(NewSnsEvent input.SnsClient input.AccountDeletedTopicArn).1]
      ∧ e.accountReset = [(NewSqsEvent input.SqsClient input.AccountResetQueueURL).1]
      ∧ e.leaseCreate = [(NewSnsEvent input.SnsClient input.LeaseAddedTopicArn).1])
    ∧ (∀ (data : Option account.Account) (w : World σ ι),
        e.AccountCreate data w =
          (((NewSnsEvent input.SnsClient input.AccountCreatedTopicArn).1.Publish
              (.account data) w.state).1,
            { state := ((NewSnsEvent input.SnsClient input.AccountCreatedTopicArn).1.Publish
                (.account data) w.state).2,
              published := w.published ++ [⟨0, .account data,
                ((NewSnsEvent input.SnsClient input.AccountCreatedTopicArn).1.Publish
                  (.account data) w.state).1⟩] }))
    ∧ (∀ (oldAccount newAccount : Option account.Account) (w : World σ ι),
        e.AccountUpdate oldAccount newAccount w =
          (((NewSnsEvent input.SnsClient input.AccountUpdatedTopicArn).1.Publish
              (.accountUpdate ⟨oldAccount, newAccount⟩) w.state).1,
            { state := ((NewSnsEvent input.SnsClient input.AccountUpdatedTopicArn).1.Publish
                (.accountUpdate ⟨oldAccount, newAccount⟩) w.state).2,
              published := w.published ++ [⟨0, .accountUpdate ⟨oldAccount, newAccount⟩,
                ((NewSnsEvent input.SnsClient input.AccountUpdatedTopicArn).1.Publish
                  (.accountUpdate ⟨oldAccount, newAccount⟩) w.state).1⟩] }))
    ∧ (∀ (data : Option account.Account) (w : World σ ι),
        e.AccountDelete data w =
          (((NewSnsEvent input.SnsClient input.AccountDeletedTopicArn).1.Publish
              (.account data) w.state).1,
            { state := ((NewSnsEvent input.SnsClient input.AccountDeletedTopicArn).1.Publish
                (.account data) w.state).2,
              published := w.published ++ [⟨0, .account data,
                ((NewSnsEvent input.SnsClient input.AccountDeletedTopicArn).1.Publish
                  (.account data) w.state).1⟩] }))
    ∧ (∀ (data : Option account.Account) (w : World σ ι),
        e.AccountReset data w =
          (((NewSqsEvent input.SqsClient input.AccountResetQueueURL).1.Publish
              (.account data) w.state).1,
            { state := ((NewSqsEvent input.SqsClient input.AccountResetQueueURL).1.Publish
                (.account data) w.state).2,
              published := w.published ++ [⟨0, .account data,
                ((NewSqsEvent input.SqsClient input.AccountResetQueueURL).1.Publish
                  (.account data) w.state).1⟩] }))
    ∧ (∀ (i : ι) (w : World σ ι),
        e.LeaseCreate i w =
          (((NewSnsEvent input.SnsClient input.LeaseAddedTopicArn).1.Publish
              (.value i) w.state).1,
            { state := ((NewSnsEvent input.SnsClient input.LeaseAddedTopicArn).1.Publish
                (.value i) w.state).2,
              published := w.published ++ [⟨0, .value i,
                ((NewSnsEvent input.SnsClient input.LeaseAddedTopicArn).1.Publish
                  (.value i) w.state).1⟩] })) := by
  obtain ⟨h1, h2, h3, h4, h5, hOne⟩ :=
    NewService_one_sink_per_category NewSnsEvent NewSqsEvent input e hBuilt
  refine ⟨⟨h1, h2, h3, h4, h5⟩, ?_, ?_, ?_, ?_, ?_⟩
  · intro data w
    rw [Service.AccountCreate, h1]
    exact hOne _ _ w
  · intro o n w
    rw [Service.AccountUpdate, h2]
    exact hOne _ _ w
  · intro data w
    rw [Service.AccountDelete, h3]
    exact hOne _ _ w
  · intro data w
    rw [Service.AccountReset, h4]
    exact hOne _ _ w
  · intro i w
    rw [Service.LeaseCreate, h5]
    exact hOne _ _ w

/-- Witness of C20, amended: the service built by the sample constructors from
the input with every endpoint left unset delivers a created account to its
sink. -/
theorem NewService_publishes_to_own_sink_witness :
    NewService sampleNewSnsEvent sampleNewSqsEvent unsetInput = .ok unsetService
    ∧ unsetService.AccountCreate none ⟨0, []⟩ = (none, ⟨1, [⟨0, .account none, none⟩]⟩) :=
  ⟨rfl, (NewService_publishes_to_own_sink sampleNewSnsEvent sampleNewSqsEvent
    unsetInput unsetService rfl).2.1 none ⟨0, []⟩⟩

end event
end Dce

/-! ## Theorems: the pool-metrics lambda as written -/

namespace Dce
namespace AccountPoolMetrics
open account (Account)
variable {σ : Type}

/-- The loop of `Handler` over adjustments that all return nil adjusts each
entry once, in order. -/
theorem persist_all (dataSvc : DataSvc σ) (entries : List (AccountStatusCount × Int)) :
    ∀ w : World σ, allAdjust dataSvc entries w.state = true →
      persist dataSvc entries w =
        (none, { state := stateAfterAdjust dataSvc entries w.state,
                 calls := w.calls ++ adjustedOk entries }) := by
  induction entries with
  | nil => intro w _; simp [persist, stateAfterAdjust, adjustedOk]
  | cons e rest ih =>
    intro w h
    obtain ⟨key, incr⟩ := e
    simp only [allAdjust, Bool.and_eq_true, Option.isNone_iff_eq_none] at h
    obtain ⟨h1, h2⟩ := h
    have hrun : persist dataSvc ((key, incr) :: rest) w = persist dataSvc rest
        { state := (dataSvc.IncrementAccountsCount key incr w.state).2,
          calls := w.calls ++ [⟨key, incr, none⟩] } := by
      simp [persist, h1]
    rw [hrun, ih _ h2]
    simp [stateAfterAdjust, adjustedOk]

/-- The loop of `Handler` stops at the first adjustment that returns an
error. -/
theorem persist_first_error (dataSvc : DataSvc σ) (pre : List (AccountStatusCount × Int)) :
    ∀ (w : World σ) (key : AccountStatusCount) (incr : Int)
      (post : List (AccountStatusCount × Int)) (err : Error),
      allAdjust dataSvc pre w.state = true →
      (dataSvc.IncrementAccountsCount key incr (stateAfterAdjust dataSvc pre w.state)).1
        = some err →
      persist dataSvc (pre ++ (key, incr) :: post) w =
        (some err,
          { state := (dataSvc.IncrementAccountsCount key incr
              (stateAfterAdjust dataSvc pre w.state)).2,
            calls := w.calls ++ adjustedOk pre ++ [⟨key, incr, some err⟩] }) := by
  induction pre with
  | nil =>
    intro w key incr post err _ herr
    simp only [stateAfterAdjust] at herr
    simp [persist, herr, stateAfterAdjust, adjustedOk]
  | cons e rest ih =>
    intro w key incr post err h herr
    obtain ⟨k, v⟩ := e
    simp only [allAdjust, Bool.and_eq_true, Option.isNone_iff_eq_none] at h
    obtain ⟨h1, h2⟩ := h
    simp only [stateAfterAdjust] at herr
    have hrun : persist dataSvc (((k, v) :: rest) ++ (key, incr) :: post) w
        = persist dataSvc (rest ++ (key, incr) :: post)
          { state := (dataSvc.IncrementAccountsCount k v w.state).2,
            calls := w.calls ++ [⟨k, v, none⟩] } := by
      simp [persist, h1]
    rw [hrun, ih _ key incr post err h2 herr]
    simp [stateAfterAdjust, adjustedOk]

/-- C24: when `Handler` has computed its increments, which hold each affected
counter once, it calls `IncrementAccountsCount` of the data service on the
entries of that map in the order of `range`, each with its counter and signed
increment and from the store state that the call before it left.  When every
call returns nil, each entry of the map is adjusted exactly once, no other
counter is, and `Handler` returns nil in the state the last call left.  When
the call after the entries `pre` is the first to return an error, `Handler`
returns that error in the state that call left, and no entry after it is
adjusted. -/
theorem Handler_persists_increments (g : Globals) (dataSvc : DataSvc σ)
    (rangeOrder : Increments → Increments) (snsEvent : SNSEvent) (w : World σ)
    (increments : Increments)
    (hInc : incrementsOf g snsEvent = .returned (.ok increments))
    (hOrder : (rangeOrder increments).Perm increments) :
    (increments.map Prod.fst).Nodup
    ∧ ((rangeOrder increments).map Prod.fst).Nodup
    ∧ (allAdjust dataSvc (rangeOrder increments) w.state = true →
      Handler g dataSvc rangeOrder snsEvent w =
        (.returned none,
          { state := stateAfterAdjust dataSvc (rangeOrder increments) w.state,
            calls := w.calls ++ adjustedOk (rangeOrder increments) }))
    ∧ (∀ (pre : List (AccountStatusCount × Int)) (key : AccountStatusCount) (incr : Int)
        (post : List (AccountStatusCount × Int)) (err : Error),
        rangeOrder increments = pre ++ (key, incr) :: post →
        allAdjust dataSvc pre w.state = true →
        (dataSvc.IncrementAccountsCount key incr (stateAfterAdjust dataSvc pre w.state)).1
          = some err →
        Handler g dataSvc rangeOrder snsEvent w =
          (.returned (some err),
            { state := (dataSvc.IncrementAccountsCount key incr
                (stateAfterAdjust dataSvc pre w.state)).2,
              calls := w.calls ++ adjustedOk pre ++ [⟨key, incr, some err⟩] })) := by
  have hnd := incrementsOf_nodup g snsEvent increments hInc
  rw [Handler_of_increments g dataSvc rangeOrder snsEvent w increments hInc]
  refine ⟨hnd, (List.Perm.nodup_iff (List.Perm.map _ hOrder)).2 hnd, ?_, ?_⟩
  · intro h
    rw [persist_all dataSvc _ w h]
  · intro pre key incr post err hp hall herr
    rw [hp, persist_first_error dataSvc pre w key incr post err hall herr]

/-- Witness of C24: the program as written handles an account created under
the empty topic ARN.  Over the counter store both adjustments are made and
the total becomes 1; over the store that refuses a counter without a name the
total is adjusted, the second call fails, and `Handler` returns its error. -/
theorem Handler_persists_increments_witness :
    (Handler packageGlobals counterStore id (emptyTopicEvent "created" "Ready")
        ⟨zeroCounters, []⟩ =
      (.returned none,
        { state := stateAfterAdjust counterStore [(TotalAccountsCount, 1), ("", 1)]
            zeroCounters,
          calls := [] ++ adjustedOk [(TotalAccountsCount, 1), ("", 1)] })
      ∧ stateAfterAdjust counterStore [(TotalAccountsCount, 1), ("", 1)] zeroCounters
          TotalAccountsCount = 1)
    ∧ Handler packageGlobals namelessRefusingStore id (emptyTopicEvent "created" "Ready")
        ⟨0, []⟩ =
      (.returned (some (.foreign none "counter name is empty")),
        ⟨2, [⟨TotalAccountsCount, 1, none⟩,
          ⟨"", 1, some (.foreign none "counter name is empty")⟩]⟩) :=
  ⟨⟨(Handler_persists_increments packageGlobals counterStore id
      (emptyTopicEvent "created" "Ready") ⟨zeroCounters, []⟩
      [(TotalAccountsCount, 1), ("", 1)] rfl (List.Perm.refl _)).2.2.1 rfl, rfl⟩,
    (Handler_persists_increments packageGlobals namelessRefusingStore id
      (emptyTopicEvent "created" "Ready") ⟨0, []⟩
      [(TotalAccountsCount, 1), ("", 1)] rfl (List.Perm.refl _)).2.2.2
      [(TotalAccountsCount, 1)] "" 1 [] (.foreign none "counter name is empty") rfl rfl rfl⟩

/-- In the program as written, `Handler` rejects every event whose first
record has a topic ARN that is not empty, and adjusts no counter. -/
theorem Handler_packageGlobals_rejects (dataSvc : DataSvc σ)
    (rangeOrder : Increments → Increments) (snsEvent : SNSEvent)
    (first : SNSEventRecord) (rest : List SNSEventRecord) (w : World σ)
    (hRecords : snsEvent.Records = first :: rest)
    (hTopic : first.SNS.TopicArn ≠ "") :
    Handler packageGlobals dataSvc rangeOrder snsEvent w =
      (.returned (some (.foreign none ("Unexpected Topic Arn: " ++ first.SNS.TopicArn))), w) := by
  simp [Handler, incrementsOf, hRecords, accountsOf, packageGlobals, hTopic]

/-- In the program as written, `Handler` takes every event whose first record
has the empty topic ARN for a created account, and computes +1 for the total
and +1 for the counter without a name. -/
theorem incrementsOf_packageGlobals_empty_topic (snsEvent : SNSEvent)
    (first : SNSEventRecord) (rest : List SNSEventRecord) (j : AccountJSON)
    (s : account.Status)
    (hRecords : snsEvent.Records = first :: rest)
    (hTopic : first.SNS.TopicArn = "")
    (hDecode : first.SNS.asAccount = .ok j)
    (hStatus : j.accountStatus = some s) :
    incrementsOf packageGlobals snsEvent
      = .returned (.ok [(TotalAccountsCount, 1), ("", 1)]) := by
  have hadd := addAccount_eq (fun _ => "") (allocAccount 0 j) ⟨0, s⟩
    (by simp [allocAccount, hStatus]) (by show ("" : String) ≠ TotalAccountsCount; decide)
  simp only at hadd
  simp [incrementsOf, hRecords, accountsOf, packageGlobals, hTopic, unmarshalAccount, hDecode,
    computeIncrements, hadd, didStatusChange]

end AccountPoolMetrics
end Dce

namespace Dce
namespace AccountPoolMetrics
open account (Account)
variable {σ : Type}

/-- C12 fails on the program as written: an account-updated event whose old
and new account have the same status is not a no-op that returns nil.
`Handler` compares its topic ARN with the empty ARNs of the zero `Config`,
returns the error "Unexpected Topic Arn", and adjusts no counter. -/
theorem Handler_rejects_same_status_update (dataSvc : DataSvc σ)
    (rangeOrder : Increments → Increments) (s : account.Status) (w : World σ) :
    Handler packageGlobals dataSvc rangeOrder (updatedEvent s s) w =
      (.returned (some (.foreign none "Unexpected Topic Arn: arn:updated")), w)
    ∧ incrementsOf packageGlobals (updatedEvent s s)
      = .returned (.error (.foreign none "Unexpected Topic Arn: arn:updated")) := by
  refine ⟨Handler_packageGlobals_rejects dataSvc rangeOrder (updatedEvent s s)
    ⟨⟨"arn:updated", "updated", .ok {}, .ok ⟨some ⟨some s⟩, some ⟨some s⟩⟩⟩⟩ [] w rfl
    (by show ("arn:updated" : String) ≠ ""; decide), ?_⟩
  simp [incrementsOf, updatedEvent, accountsOf, packageGlobals]

/-- C13 fails on the program as written: for an account-updated event whose
account goes from `Ready` to `Leased`, `Handler` computes no increments (not
-1 for `ReadyAccountsCount` and +1 for `LeasedAccountsCount`): it returns the
error "Unexpected Topic Arn" and adjusts no counter. -/
theorem Handler_rejects_status_change (dataSvc : DataSvc σ)
    (rangeOrder : Increments → Increments) (w : World σ) :
    incrementsOf packageGlobals (updatedEvent "Ready" "Leased")
      = .returned (.error (.foreign none "Unexpected Topic Arn: arn:updated"))
    ∧ Handler packageGlobals dataSvc rangeOrder (updatedEvent "Ready" "Leased") w =
      (.returned (some (.foreign none "Unexpected Topic Arn: arn:updated")), w) :=
  ⟨rfl, Handler_packageGlobals_rejects dataSvc rangeOrder (updatedEvent "Ready" "Leased")
    ⟨⟨"arn:updated", "updated", .ok {}, .ok ⟨some ⟨some "Ready"⟩, some ⟨some "Leased"⟩⟩⟩⟩ [] w
    rfl (by decide)⟩

/-- C14 fails on the program as written: for an account created in status
`Ready`, `Handler` returns the error "Unexpected Topic Arn" and adjusts no
counter when the event comes with a topic ARN; and when the event comes with
the empty topic ARN of the zero `Config`, the increments are +1 for the total
and +1 for the counter without a name, which the nil `statusLookup` yields,
not for `ReadyAccountsCount`. -/
theorem Handler_created_event_in_program (dataSvc : DataSvc σ)
    (rangeOrder : Increments → Increments) (w : World σ) :
    Handler packageGlobals dataSvc rangeOrder (createdEvent "Ready") w =
      (.returned (some (.foreign none "Unexpected Topic Arn: arn:created")), w)
    ∧ incrementsOf packageGlobals (emptyTopicEvent "created" "Ready")
      = .returned (.ok [(TotalAccountsCount, 1), ("", 1)])
    ∧ ("" : AccountStatusCount) ∉ statusCounters
    ∧ statusLookupTable "Ready" = ReadyAccountsCount :=
  ⟨Handler_packageGlobals_rejects dataSvc rangeOrder (createdEvent "Ready")
      ⟨⟨"arn:created", "created", .ok ⟨some "Ready"⟩, .ok {}⟩⟩ [] w rfl (by decide),
    rfl, by decide, rfl⟩

/-- C15 fails on the program as written: for an account deleted in status
`Leased`, `Handler` returns the error "Unexpected Topic Arn" and adjusts no
counter when the event comes with a topic ARN; and when the event comes with
the empty topic ARN of the zero `Config`, the case of a created account is
tried first and the increments are +1 for the total and +1 for the counter
without a name, not -1 for the total and -1 for `LeasedAccountsCount`. -/
theorem Handler_deleted_event_in_program (dataSvc : DataSvc σ)
    (rangeOrder : Increments → Increments) (w : World σ) :
    Handler packageGlobals dataSvc rangeOrder (deletedEvent "Leased") w =
      (.returned (some (.foreign none "Unexpected Topic Arn: arn:deleted")), w)
    ∧ packageGlobals.Config.AccountDeletedTopicArn = ""
    ∧ incrementsOf packageGlobals (emptyTopicEvent "deleted" "Leased")
      = .returned (.ok [(TotalAccountsCount, 1), ("", 1)])
    ∧ statusLookupTable "Leased" = LeasedAccountsCount :=
  ⟨Handler_packageGlobals_rejects dataSvc rangeOrder (deletedEvent "Leased")
      ⟨⟨"arn:deleted", "deleted", .ok ⟨some "Leased"⟩, .ok {}⟩⟩ [] w rfl (by decide),
    rfl, rfl, rfl⟩

/-- C16 fails on the program as written: from counters that are all zero,
`Handler` applies with success an account created in status `Ready` under the
empty topic ARN of the zero `Config`, and afterwards the five per-status
counters sum to 0 while `TotalAccountsCount` is 1: the nil `statusLookup`
sends the status to the counter without a name. -/
theorem applyEvents_program_breaks_sum :
    (applyEvents packageGlobals counterStore id [emptyTopicEvent "created" "Ready"]
        ⟨zeroCounters, []⟩).1 = [.returned none]
    ∧ statusSum (applyEvents packageGlobals counterStore id
        [emptyTopicEvent "created" "Ready"] ⟨zeroCounters, []⟩).2.state = 0
    ∧ (applyEvents packageGlobals counterStore id [emptyTopicEvent "created" "Ready"]
        ⟨zeroCounters, []⟩).2.state TotalAccountsCount = 1
    ∧ incrementsOf packageGlobals (emptyTopicEvent "created" "Ready")
      = .returned (.ok [(TotalAccountsCount, 1), ("", 1)]) :=
  ⟨rfl, rfl, rfl, rfl⟩

/-- C17 fails on the program as written: from counters that are all zero,
`Handler` applies with success an account created and then an account deleted,
each under the topic ARN that the zero `Config` holds for its kind, the empty
one; both are handled as creations and `TotalAccountsCount` is 2, not
1 - 1 = 0.  An account created under another topic ARN is rejected and leaves
the total at 0. -/
theorem applyEvents_program_total :
    (applyEvents packageGlobals counterStore id
        [emptyTopicEvent "created" "Ready", emptyTopicEvent "deleted" "Ready"]
        ⟨zeroCounters, []⟩).1 = [.returned none, .returned none]
    ∧ (applyEvents packageGlobals counterStore id
        [emptyTopicEvent "created" "Ready", emptyTopicEvent "deleted" "Ready"]
        ⟨zeroCounters, []⟩).2.state TotalAccountsCount = 2
    ∧ (applyEvents packageGlobals counterStore id [createdEvent "Ready"]
        ⟨zeroCounters, []⟩).1
      = [.returned (some (.foreign none "Unexpected Topic Arn: arn:created"))]
    ∧ (applyEvents packageGlobals counterStore id [createdEvent "Ready"]
        ⟨zeroCounters, []⟩).2.state TotalAccountsCount = 0 :=
  ⟨rfl, rfl, rfl, rfl⟩

end AccountPoolMetrics
end Dce
